import Mathlib

/-! Verification of the scheduling core in `src/solver_service/scheduler.py`.

Modelling conventions for the shallow embedding:

* Python `dict`s are insertion-ordered association lists (`PyDict`): writing to
  an existing key updates the value in place, writing a fresh key appends it.
* Python `set`s are used by the scheduler only for membership tests plus the
  two `list(set(...))` conversions; they are modelled as duplicate-free lists.
  CPython iterates sets in hash order; the embedding uses first-insertion
  order for the (immediately shuffled) `list(set(...))` conversions.
* The process-wide `random` module is modelled as an explicit stream of
  naturals (`List Nat`) threaded through the computation; every
  `random.shuffle` / `random.choice` / `random.randint` call site consumes
  from the stream.
* The hour-slot identifier strings `G<g>_C<c>_B<b>_H<j>` are modelled as the
  quadruple `(g, c, b, j)` they encode (the code only ever parses them back
  by splitting on the underscore, which recovers exactly this quadruple).
* `Optional[int]` professor/room ids are modelled as `Nat` with `0` standing
  for Python `None`; the code checks them with `if not prof_id`, which
  treats `None` and `0` identically.
* Python raises `KeyError` on indexing a missing group key; the orchestrator
  creates every group key up front, and the embedding models the (unreached)
  missing-key write as a no-op.
-/

set_option synthInstance.maxSize 1024

namespace Scheduler

/-- Python `dict` as an insertion-ordered association list without duplicated
keys: lookup returns the first (only) binding. -/
abbrev PyDict (K V : Type) := List (K × V)

/-- Python set as a duplicate-free list remembering first-insertion order. -/
abbrev PySet (A : Type) := List A

namespace PyDict

variable {K V : Type} [DecidableEq K]

/-- `d[k]` / `d.get(k)`. -/
def get? : PyDict K V → K → Option V
  | [], _ => none
  | (k, v) :: rest, key => if k = key then some v else get? rest key

/-- `d.get(k, dflt)`. -/
def getD (d : PyDict K V) (key : K) (dflt : V) : V :=
  (get? d key).getD dflt

/-- `k in d`. -/
def hasKey (d : PyDict K V) (key : K) : Bool :=
  (get? d key).isSome

/-- `d[k] = v`: update in place when the key exists, append otherwise —
exactly the CPython dict semantics. -/
def set : PyDict K V → K → V → PyDict K V
  | [], key, val => [(key, val)]
  | (k, v) :: rest, key, val =>
    if k = key then (k, val) :: rest else (k, v) :: set rest key val

/-- `d.pop(k, None)` / `del d[k]`: remove the binding (all copies; the dicts
built by the scheduler never hold duplicate keys). -/
def pop : PyDict K V → K → PyDict K V
  | [], _ => []
  | (k, v) :: rest, key =>
    if k = key then pop rest key else (k, v) :: pop rest key

/-- Python `==` on dicts: same key set, values equal under `veq`. -/
def beqWith (veq : V → V → Bool) (d1 d2 : PyDict K V) : Bool :=
  d1.all (fun kv =>
    match get? d2 kv.1 with
    | some w => veq kv.2 w
    | none => false) &&
  d2.all (fun kv => (get? d1 kv.1).isSome)

end PyDict

namespace PySet

variable {A : Type} [DecidableEq A]

/-- `s.add(x)`. -/
def add (s : PySet A) (x : A) : PySet A :=
  if x ∈ s then s else s ++ [x]

/-- `s.discard(x)`. -/
def discard (s : PySet A) (x : A) : PySet A :=
  s.filter (fun y => y ≠ x)

/-- `s.update(xs)`. -/
def addAll (s : PySet A) (xs : List A) : PySet A :=
  xs.foldl add s

/-- `set(xs)` (iteration order modelled as first-insertion order). -/
def ofList (xs : List A) : PySet A :=
  addAll [] xs

/-- Python set difference `s - t` (membership-preserving order model). -/
def diff (s t : PySet A) : PySet A :=
  s.filter (fun x => x ∉ t)

/-- Python `==` on sets. -/
def beq (s1 s2 : PySet A) : Bool :=
  s1.all (fun x => decide (x ∈ s2)) && s2.all (fun x => decide (x ∈ s1))

end PySet

/-- One draw from the `random` stream. -/
def rngNext : List Nat → Nat × List Nat
  | [] => (0, [])
  | x :: xs => (x, xs)

/-- `random.shuffle`, as a stream-driven selection permutation. -/
def shuffleGo {A : Type} : Nat → List A → List Nat → List A × List Nat
  | 0, _, r => ([], r)
  | Nat.succ n, l, r =>
    match l with
    | [] => ([], r)
    | _ :: _ =>
      let (k, r1) := rngNext r
      let i := k % l.length
      match l.drop i with
      | [] => ([], r1)
      | x :: _ =>
        let rest := l.take i ++ l.drop (i + 1)
        let (res, r2) := shuffleGo n rest r1
        (x :: res, r2)

/-- `random.shuffle(l)` returning the permuted list and the advanced stream. -/
def pyShuffle {A : Type} (l : List A) (r : List Nat) : List A × List Nat :=
  shuffleGo l.length l r

/-- `random.choice(l)` (call sites guard non-emptiness). -/
def pyChoice {A : Type} (l : List A) (r : List Nat) : Option A × List Nat :=
  let (k, r1) := rngNext r
  (l.get? (k % l.length), r1)

/-- `random.randint(a, b)`. -/
def pyRandint (a b : Nat) (r : List Nat) : Nat × List Nat :=
  let (k, r1) := rngNext r
  (a + k % (b - a + 1), r1)

/-! Data model (`src/data_service/models.py`).  String fields keep the Python
representation; `professor_id` on `Course` is `Optional[int]`, modelled with
`0` for `None` (unused by the scheduler). -/

structure TimeSlot where
  id : Nat
  day : String
  start_time : String
  end_time : String
deriving DecidableEq

structure Course where
  id : Nat
  name : String
  weekly_hours : Nat
  min_block_duration : Nat
  max_block_duration : Nat
  required_room_type : String
  professor_id : Nat
deriving DecidableEq

structure Room where
  id : Nat
  name : String
  capacity : Nat
  room_type : String
  building_name : String
deriving DecidableEq

structure Professor where
  id : Nat
  name : String
  availability : List Nat
  max_load : Nat
deriving DecidableEq

structure ProfessorCourseGroupAssignment where
  id : Nat
  professor_id : Nat
  course_id : Nat
  group_id : Nat
  professor_asignatura_id : Nat
deriving DecidableEq

structure Group where
  id : Nat
  name : String
  tutor : String
deriving DecidableEq

/-- The hour-slot identifier `G<g>_C<c>_B<b>_H<j>`, modelled structurally. -/
abbrev HourId := Nat × Nat × Nat × Nat

/-- A schedule entry `(timeslot_id, room_id, course_id)`. -/
abbrev SchedEntry := Nat × Nat × Nat

/-! String helpers.  Python compares strings lexicographically by code point
and the scheduler's string operations (window comparison, `.lower()`,
substring test, `split(':')[0]`) are re-implemented here over the character
list `String.data`, which the Lean kernel evaluates. -/

/-- Lexicographic code-point comparison, exactly Python's `<` on `str`. -/
def charListLt : List Char → List Char → Bool
  | [], [] => false
  | [], _ :: _ => true
  | _ :: _, [] => false
  | a :: as, b :: bs =>
    if a < b then true else if b < a then false else charListLt as bs

/-- Python `a < b` on strings. -/
def pyStrLt (a b : String) : Bool :=
  charListLt a.data b.data

/-- Python `a <= b` on strings. -/
def pyStrLe (a b : String) : Bool :=
  !(pyStrLt b a)

/-- ASCII lowercasing of one character (Python's `str.lower` also folds
accented capitals; the course names at issue are plain ASCII apart from the
accented `é`, which is already lower case). -/
def asciiLower (c : Char) : Char :=
  if 'A' ≤ c ∧ c ≤ 'Z' then Char.ofNat (c.toNat + 32) else c

/-- `pat` occurs as a prefix of `txt`. -/
def charPrefix : List Char → List Char → Bool
  | [], _ => true
  | _ :: _, [] => false
  | a :: as, b :: bs => a = b && charPrefix as bs

/-- Python's `pat in txt` substring test. -/
def containsChars (pat : List Char) : List Char → Bool
  | [] => charPrefix pat []
  | c :: rest => charPrefix pat (c :: rest) || containsChars pat rest

/-- `'inglés' in course.name.lower() or 'ingles' in course.name.lower()`. -/
def isEnglishName (name : String) : Bool :=
  containsChars "inglés".data (name.data.map asciiLower)
    || containsChars "ingles".data (name.data.map asciiLower)

/-- Truthiness of an optional string (`None` and `""` are falsy in Python). -/
def strTruthy (o : Option String) : Bool :=
  !(decide (o.getD "" = ""))

/-- Decimal value of a digit run (`int(...)` on the hour field). -/
def digitsVal (cs : List Char) : Nat :=
  cs.foldl (fun n c => n * 10 + (c.toNat - ('0').toNat)) 0

/-- `int(s.split(':')[0])` — the scheduler only applies this to `HH:MM:SS`
strings, whose leading field is a digit run. -/
def startHourInt (s : String) : Int :=
  Int.ofNat (digitsVal (s.data.takeWhile (fun c => c ≠ ':')))

/-! `class GroupScheduleTracker` (scheduler.py lines 74-131). -/

structure GroupScheduleTracker where
  prof_schedule : PyDict Nat (PyDict Nat Nat)
  group_schedule : PyDict Nat (PyDict Nat Nat)
  course_fixed_hour : PyDict (Nat × Nat) String
  group_course_days : PyDict (Nat × Nat) (PySet String)
deriving DecidableEq

namespace GroupScheduleTracker

def empty : GroupScheduleTracker := ⟨[], [], [], []⟩

def can_assign_professor (t : GroupScheduleTracker) (prof_id : Nat)
    (slot_ids : List Nat) : Bool :=
  match PyDict.get? t.prof_schedule prof_id with
  | none => true
  | some m => slot_ids.all (fun s => !(PyDict.hasKey m s))

def can_assign_group (t : GroupScheduleTracker) (group_id : Nat)
    (slot_ids : List Nat) : Bool :=
  match PyDict.get? t.group_schedule group_id with
  | none => true
  | some m => slot_ids.all (fun s => !(PyDict.hasKey m s))

def get_used_days_for_course (t : GroupScheduleTracker) (group_id course_id : Nat) :
    PySet String :=
  PyDict.getD t.group_course_days (group_id, course_id) []

def add_day_for_course (t : GroupScheduleTracker) (group_id course_id : Nat)
    (day : String) : GroupScheduleTracker :=
  let key := (group_id, course_id)
  { t with group_course_days :=
      (PyDict.set t.group_course_days key
        (PySet.add (PyDict.getD t.group_course_days key []) day)) }

def remove_day_for_course (t : GroupScheduleTracker) (group_id course_id : Nat)
    (day : String) : GroupScheduleTracker :=
  match PyDict.get? t.group_course_days (group_id, course_id) with
  | none => t
  | some s =>
    { t with group_course_days :=
        (PyDict.set t.group_course_days (group_id, course_id) (PySet.discard s day)) }

def get_fixed_hour_for_course (t : GroupScheduleTracker) (group_id course_id : Nat) :
    Option String :=
  PyDict.get? t.course_fixed_hour (group_id, course_id)

def set_fixed_hour_for_course (t : GroupScheduleTracker) (group_id course_id : Nat)
    (hour : String) : GroupScheduleTracker :=
  { t with course_fixed_hour :=
      (PyDict.set t.course_fixed_hour (group_id, course_id) hour) }

/-- `assign`: ensure both outer keys exist, then write every slot into both
inner dicts. -/
def assign (t : GroupScheduleTracker) (prof_id group_id : Nat)
    (slot_ids : List Nat) (course_id : Nat) : GroupScheduleTracker :=
  let pInner :=
    slot_ids.foldl (fun m s => PyDict.set m s group_id)
      (PyDict.getD t.prof_schedule prof_id [])
  let gInner :=
    slot_ids.foldl (fun m s => PyDict.set m s course_id)
      (PyDict.getD t.group_schedule group_id [])
  { t with
      prof_schedule := PyDict.set t.prof_schedule prof_id pInner,
      group_schedule := PyDict.set t.group_schedule group_id gInner }

/-- `unassign`: pop every slot from each inner dict, when the outer key is
present (the outer key itself is never removed). -/
def unassign (t : GroupScheduleTracker) (prof_id group_id : Nat)
    (slot_ids : List Nat) : GroupScheduleTracker :=
  let t1 :=
    match PyDict.get? t.prof_schedule prof_id with
    | none => t
    | some m =>
      { t with prof_schedule :=
          (PyDict.set t.prof_schedule prof_id (slot_ids.foldl PyDict.pop m)) }
  match PyDict.get? t1.group_schedule group_id with
  | none => t1
  | some m =>
    { t1 with group_schedule :=
        (PyDict.set t1.group_schedule group_id (slot_ids.foldl PyDict.pop m)) }

end GroupScheduleTracker

/-! `class SchedulingData` (scheduler.py lines 8-71).  The mutable
`room_usage` dict lives in the run state `St` below; everything else is
read-only after construction. -/

structure SchedulingData where
  courses : PyDict Nat Course
  rooms : PyDict Nat Room
  professors : PyDict Nat Professor
  slots : PyDict Nat TimeSlot
  professor_rooms : PyDict Nat Nat
  professor_available_slots : PyDict Nat (PySet Nat)
  group_course_professor : PyDict (Nat × Nat) Nat
  valid_slots : List TimeSlot
  slots_by_day : PyDict String (List TimeSlot)
deriving DecidableEq

/-- `{x.id: x for x in l}` — sequential writes, later entries win. -/
def dictById {A : Type} (key : A → Nat) (l : List A) : PyDict Nat A :=
  l.foldl (fun d x => PyDict.set d (key x) x) []

/-- Stable insertion into a list sorted by the strict order `lt` (the new
element goes before existing elements it does not strictly follow). -/
def stableInsert {A : Type} (lt : A → A → Bool) (x : A) : List A → List A
  | [] => [x]
  | y :: ys => if lt y x then y :: stableInsert lt x ys else x :: y :: ys

/-- Stable sort by the strict order `lt` (extensionally Python's stable
`list.sort`). -/
def stableSort {A : Type} (lt : A → A → Bool) : List A → List A
  | [] => []
  | x :: xs => stableInsert lt x (stableSort lt xs)

/-- `"17:00" <= s.start_time < "22:00"` — lexicographic string comparison. -/
def inValidWindow (s : TimeSlot) : Bool :=
  pyStrLe "17:00" s.start_time && pyStrLt s.start_time "22:00" 

/-- `SchedulingData.__init__`. -/
def mkData (courses : List Course) (rooms : List Room) (timeslots : List TimeSlot)
    (professors : List Professor)
    (assignments : List ProfessorCourseGroupAssignment)
    (professor_rooms : PyDict Nat Nat) : SchedulingData :=
  let all_slot_ids : PySet Nat := PySet.ofList (timeslots.map (·.id))
  let valid_slots := timeslots.filter inValidWindow
  let by_day0 : PyDict String (List TimeSlot) :=
    valid_slots.foldl
      (fun d s => PyDict.set d s.day (PyDict.getD d s.day [] ++ [s])) []
  { courses := dictById (·.id) courses
    rooms := dictById (·.id) rooms
    professors := dictById (·.id) professors
    slots := dictById (·.id) timeslots
    professor_rooms := professor_rooms
    professor_available_slots :=
      professors.foldl
        (fun d p =>
          PyDict.set d p.id (PySet.diff all_slot_ids (PySet.ofList p.availability)))
        []
    group_course_professor :=
      assignments.foldl
        (fun d a => PyDict.set d (a.group_id, a.course_id) a.professor_id) []
    valid_slots := valid_slots
    slots_by_day :=
      by_day0.map (fun kv => (kv.1, stableSort (fun a b => a.id < b.id) kv.2)) }

namespace SchedulingData

def is_professor_available_at_slots (data : SchedulingData) (professor_id : Nat)
    (slot_ids : List Nat) : Bool :=
  match PyDict.get? data.professor_available_slots professor_id with
  | none => true
  | some available => slot_ids.all (fun s => decide (s ∈ available))

/-- Returns `0` for Python `None` (the callers test `if not prof_id`). -/
def get_professor_for_group_course (data : SchedulingData)
    (group_id course_id : Nat) : Nat :=
  PyDict.getD data.group_course_professor (group_id, course_id) 0

/-- Returns `0` for Python `None`. -/
def get_professor_room (data : SchedulingData) (professor_id : Nat) : Nat :=
  PyDict.getD data.professor_rooms professor_id 0

end SchedulingData

/-- `calculate_course_blocks` — the `while remaining > 0` loop, driven by
fuel `remaining` (each iteration emits a positive block when
`max_block_duration ≥ 1`, so the initial `weekly_hours` fuel suffices; with
`max_block_duration = 0` the Python loop would not terminate). -/
def calcBlocksGo (minB maxB : Nat) : Nat → Nat → List Nat
  | 0, _ => []
  | Nat.succ fuel, remaining =>
    if remaining > 0 then
      let block0 := min remaining maxB
      let block :=
        if block0 < minB ∧ remaining ≥ minB then minB else block0
      block :: calcBlocksGo minB maxB fuel (remaining - block)
    else []

def calculate_course_blocks (course : Course) : List Nat :=
  calcBlocksGo course.min_block_duration course.max_block_duration
    course.weekly_hours course.weekly_hours

/-- Semantic view of the tracker: the (professor, slot) occupancy map, seen
through the two-level dict lookup. -/
def profLookup (t : GroupScheduleTracker) (p s : Nat) : Option Nat :=
  PyDict.get? (PyDict.getD t.prof_schedule p []) s

/-- Semantic view of the tracker: the (group, slot) occupancy map. -/
def groupLookup (t : GroupScheduleTracker) (g s : Nat) : Option Nat :=
  PyDict.get? (PyDict.getD t.group_schedule g []) s

/-- Python `==` for the full tracker value: key sets and values must agree at
every level. -/
def trackerPyEq (t1 t2 : GroupScheduleTracker) : Bool :=
  PyDict.beqWith (PyDict.beqWith (fun a b => decide (a = b)))
      t1.prof_schedule t2.prof_schedule &&
    PyDict.beqWith (PyDict.beqWith (fun a b => decide (a = b)))
      t1.group_schedule t2.group_schedule &&
    PyDict.beqWith (fun a b => decide (a = b))
      t1.course_fixed_hour t2.course_fixed_hour &&
    PyDict.beqWith PySet.beq t1.group_course_days t2.group_course_days

/-- Tracker state reached by one `assign` on the empty tracker. -/
def c4Tracker0 : GroupScheduleTracker :=
  GroupScheduleTracker.empty.assign 2 2 [7] 3

/-- `assign` followed by the matching `unassign`, starting from `c4Tracker0`. -/
def c4Tracker1 : GroupScheduleTracker :=
  (c4Tracker0.assign 1 1 [5] 1).unassign 1 1 [5]

/-! Mutable run state: `data.room_usage`, the tracker, the orchestrator's
`all_schedules`, and the random stream. -/

structure St where
  room_usage : PyDict Nat (PySet Nat)
  tracker : GroupScheduleTracker
  all_schedules : PyDict Nat (PyDict HourId SchedEntry)
  rng : List Nat
deriving DecidableEq

/-- `SchedulingData.is_room_available` (reads `room_usage`). -/
def is_room_available (st : St) (room_id : Nat) (slot_ids : List Nat) : Bool :=
  match PyDict.get? st.room_usage room_id with
  | none => true
  | some used => slot_ids.all (fun s => decide (s ∉ used))

/-- `SchedulingData.mark_room_used`. -/
def mark_room_used (st : St) (room_id : Nat) (slot_ids : List Nat) : St :=
  { st with room_usage :=
      (PyDict.set st.room_usage room_id
        (PySet.addAll (PyDict.getD st.room_usage room_id []) slot_ids)) }

/-- `SchedulingData.unmark_room_used`. -/
def unmark_room_used (st : St) (room_id : Nat) (slot_ids : List Nat) : St :=
  match PyDict.get? st.room_usage room_id with
  | none => st
  | some used =>
    { st with room_usage :=
        (PyDict.set st.room_usage room_id (slot_ids.foldl PySet.discard used)) }

/-- `all_schedules[group_id][key] = entry` (no-op when the group key is
missing; Python would raise `KeyError`, and the orchestrator creates every
group key up front). -/
def schedSet (st : St) (group_id : Nat) (key : HourId) (entry : SchedEntry) : St :=
  match PyDict.get? st.all_schedules group_id with
  | none => st
  | some gd =>
    { st with all_schedules :=
        (PyDict.set st.all_schedules group_id (PyDict.set gd key entry)) }

/-- `if key in all_schedules[group_id]: del all_schedules[group_id][key]`. -/
def schedDel (st : St) (group_id : Nat) (key : HourId) : St :=
  match PyDict.get? st.all_schedules group_id with
  | none => st
  | some gd =>
    { st with all_schedules :=
        (PyDict.set st.all_schedules group_id (PyDict.pop gd key)) }

def dummySlot : TimeSlot := ⟨0, "", "", ""⟩

/-- A candidate position returned by `find_all_valid_positions`. -/
structure Position where
  day : String
  start_idx : Nat
  slots : List TimeSlot
  slot_ids : List Nat
  first_hour : String
  room_id : Nat
  prof_id : Nat
deriving DecidableEq

/-- The hour-continuity scan over a window (adjacent start hours differ
by exactly one). -/
def isContinuous : List TimeSlot → Bool
  | a :: b :: rest =>
    (startHourInt b.start_time - startHourInt a.start_time == 1)
      && isContinuous (b :: rest)
  | _ => true

/-- `find_all_valid_positions` (scheduler.py lines 148-207). -/
def find_all_valid_positions (course : Course) (group_id duration : Nat)
    (day : String) (data : SchedulingData) (st : St) (is_english : Bool)
    (fixed_hour : Option String) : List Position :=
  let prof_id := data.get_professor_for_group_course group_id course.id
  if prof_id = 0 then [] else
  let room_id := data.get_professor_room prof_id
  if room_id = 0 then [] else
  match PyDict.get? data.slots_by_day day with
  | none => []
  | some day_slots =>
    (List.range (day_slots.length + 1 - duration)).filterMap (fun start_idx =>
      let consecutive := (day_slots.drop start_idx).take duration
      if !(isContinuous consecutive) then none else
      let first_hour := (consecutive.headD dummySlot).start_time
      let slot_ids := consecutive.map (·.id)
      if !(data.is_professor_available_at_slots prof_id slot_ids) then none else
      if is_english && strTruthy fixed_hour
          && !(decide (first_hour = fixed_hour.getD "")) then none else
      if !(st.tracker.can_assign_professor prof_id slot_ids) then none else
      if !(st.tracker.can_assign_group group_id slot_ids) then none else
      if !(is_room_available st room_id slot_ids) then none else
      some { day := day, start_idx := start_idx, slots := consecutive,
             slot_ids := slot_ids, first_hour := first_hour,
             room_id := room_id, prof_id := prof_id })

/-- One placed hour of a conflicting block. -/
structure ConflictHour where
  hour_id : HourId
  slot_id : Nat
  room_id : Nat
deriving DecidableEq

/-- A conflicting block as reconstructed by `get_conflicting_blocks`. -/
structure Conflict where
  block_key : Nat × Nat × Nat
  group_id : Nat
  course_id : Nat
  course : Option Course
  is_english : Bool
  hours : List ConflictHour
  all_slot_ids : List Nat
deriving DecidableEq

def dummyConflictHour : ConflictHour := ⟨(0, 0, 0, 0), 0, 0⟩

/-- The first three fields of the hour-slot identifier
(`parts[0]_parts[1]_parts[2]`). -/
def blockKeyOf (h : HourId) : Nat × Nat × Nat := (h.1, h.2.1, h.2.2.1)

/-- One entry of the `blocks_in_group` accumulation. -/
def gcbAddEntry (slot_ids : List Nat) (other_group_id : Nat)
    (acc : PyDict (Nat × Nat × Nat) (Nat × Nat × List ConflictHour))
    (kv : HourId × SchedEntry) :
    PyDict (Nat × Nat × Nat) (Nat × Nat × List ConflictHour) :=
  if kv.2.1 ∈ slot_ids then
    let bk := blockKeyOf kv.1
    let info := PyDict.getD acc bk (other_group_id, kv.2.2.2, [])
    PyDict.set acc bk (info.1, info.2.1, info.2.2 ++ [⟨kv.1, kv.2.1, kv.2.2.1⟩])
  else acc

/-- `get_conflicting_blocks` (scheduler.py lines 210-248).  The `group_id`
and tracker parameters are unused, as in the source. -/
def get_conflicting_blocks (slot_ids : List Nat) (group_id : Nat) (st : St)
    (data : SchedulingData) : List Conflict :=
  st.all_schedules.foldl
    (fun conflicts gkv =>
      let blocks_in_group := gkv.2.foldl (gcbAddEntry slot_ids gkv.1) []
      conflicts ++ blocks_in_group.map (fun bkv =>
        let course := PyDict.get? data.courses bkv.2.2.1
        { block_key := bkv.1
          group_id := bkv.2.1
          course_id := bkv.2.2.1
          course := course
          is_english :=
            (match course with
             | none => false
             | some c => isEnglishName c.name)
          hours := bkv.2.2.2
          all_slot_ids := bkv.2.2.2.map (·.slot_id) }))
    []

/-- The successful-relocation commit inside the day loop of
`try_relocate_block` (lines 303-313): write the block's hour entries under a
fresh random block number, update the tracker and room usage, and flag the
day for one-hour-block courses. -/
def relocCommit (course : Course) (group_id course_id : Nat) (day : String)
    (pos : Position) (rb : Nat) (st1 : St) : St :=
  let st2 := (pos.slot_ids.enum).foldl
    (fun s2 je =>
      schedSet s2 group_id (group_id, course_id, rb, je.1)
        (je.2, pos.room_id, course_id))
    st1
  let st3 := { st2 with
    tracker := st2.tracker.assign pos.prof_id group_id pos.slot_ids course_id }
  let st4 := mark_room_used st3 pos.room_id pos.slot_ids
  if course.max_block_duration = 1 then
    { st4 with
      tracker := st4.tracker.add_day_for_course group_id course_id day }
  else st4

/-- The relocation day loop inside `try_relocate_block` (lines 291-315). -/
def relocDayLoop (course : Course) (group_id course_id duration : Nat)
    (data : SchedulingData) (is_english : Bool) (fixed_hour : Option String) :
    List String → St → Bool × St
  | [], st => (false, st)
  | day :: rest, st =>
    if course.max_block_duration = 1 ∧
        day ∈ st.tracker.get_used_days_for_course group_id course_id then
      relocDayLoop course group_id course_id duration data is_english fixed_hour
        rest st
    else
      let positions :=
        find_all_valid_positions course group_id duration day data st is_english
          fixed_hour
      if positions.isEmpty then
        relocDayLoop course group_id course_id duration data is_english
          fixed_hour rest st
      else
        let chosen := pyChoice positions st.rng
        match chosen.1 with
        | none =>
          relocDayLoop course group_id course_id duration data is_english
            fixed_hour rest { st with rng := chosen.2 }
        | some pos =>
          let drawn := pyRandint 1000 9999 chosen.2
          (true, relocCommit course group_id course_id day pos drawn.1
            { st with rng := drawn.2 })

/-- The conditional removal of the old day flag in `try_relocate_block`
(`if old_day and course.max_block_duration == 1`). -/
def dayFlagRemove (course : Course) (group_id course_id : Nat)
    (old_day : Option String) (st : St) : St :=
  match old_day with
  | some d =>
    if ¬ (d = "") ∧ course.max_block_duration = 1 then
      { st with
        tracker := st.tracker.remove_day_for_course group_id course_id d }
    else st
  | none => st

/-- The matching conditional re-addition of the old day flag. -/
def dayFlagAdd (course : Course) (group_id course_id : Nat)
    (old_day : Option String) (st : St) : St :=
  match old_day with
  | some d =>
    if ¬ (d = "") ∧ course.max_block_duration = 1 then
      { st with tracker := st.tracker.add_day_for_course group_id course_id d }
    else st
  | none => st

/-- `old_day`: the day of the first slot of the block, scanned in
`valid_slots`. -/
def trbOldDay (conflict : Conflict) (data : SchedulingData) : Option String :=
  (data.valid_slots.find?
    (fun s => decide (s.id = (conflict.hours.map (·.slot_id)).headD 0))).map
    (·.day)

/-- The removal phase of `try_relocate_block` (lines 275-283): delete the
block's hour entries, unassign the tracker, unmark the room, drop the day
flag. -/
def trbRemove (conflict : Conflict) (course : Course) (prof_id : Nat)
    (data : SchedulingData) (st : St) : St :=
  let hours := conflict.hours
  let old_slot_ids := hours.map (·.slot_id)
  let st1 := hours.foldl (fun s h => schedDel s conflict.group_id h.hour_id) st
  let st2 := { st1 with
    tracker := st1.tracker.unassign prof_id conflict.group_id old_slot_ids }
  let st3 := unmark_room_used st2 (hours.headD dummyConflictHour).room_id
    old_slot_ids
  dayFlagRemove course conflict.group_id conflict.course_id
    (trbOldDay conflict data) st3

/-- The restore phase of `try_relocate_block` (lines 317-324): re-add the
hour entries, re-assign the tracker, re-mark the room, re-add the day
flag. -/
def trbRestore (conflict : Conflict) (course : Course) (prof_id : Nat)
    (data : SchedulingData) (st : St) : St :=
  let hours := conflict.hours
  let old_slot_ids := hours.map (·.slot_id)
  let r1 := hours.foldl
    (fun s h =>
      schedSet s conflict.group_id h.hour_id
        (h.slot_id, h.room_id, conflict.course_id))
    st
  let r2 := { r1 with
    tracker := r1.tracker.assign prof_id conflict.group_id old_slot_ids
      conflict.course_id }
  let r3 := mark_room_used r2 (hours.headD dummyConflictHour).room_id
    old_slot_ids
  dayFlagAdd course conflict.group_id conflict.course_id
    (trbOldDay conflict data) r3

/-- `try_relocate_block` (scheduler.py lines 251-326).  The source also
resolves the professor's room here but never uses it. -/
def try_relocate_block (conflict : Conflict) (data : SchedulingData) (st : St) :
    Bool × St :=
  match conflict.course with
  | none => (false, st)
  | some course =>
    let prof_id :=
      data.get_professor_for_group_course conflict.group_id conflict.course_id
    if prof_id = 0 then (false, st) else
    let st4 := trbRemove conflict course prof_id data st
    let fixed_hour :=
      if conflict.is_english then
        st4.tracker.get_fixed_hour_for_course conflict.group_id
          conflict.course_id
      else none
    let shuffled := pyShuffle (data.slots_by_day.map (·.1)) st4.rng
    let st5 := { st4 with rng := shuffled.2 }
    match relocDayLoop course conflict.group_id conflict.course_id
        conflict.hours.length data conflict.is_english fixed_hour shuffled.1
        st5 with
    | (true, stR) => (true, stR)
    | (false, st6) =>
      (false, trbRestore conflict course prof_id data st6)

/-- The sequential relocation loop shared by the language placer and the
generic fallback: relocate blocks one at a time, stopping at the first
failure (the already-moved blocks stay moved). -/
def relocateAll (data : SchedulingData) : List Conflict → St → Bool × St
  | [], st => (true, st)
  | c :: cs, st =>
    match try_relocate_block c data st with
    | (true, st1) => relocateAll data cs st1
    | (false, st1) => (false, st1)

def day_order : List String :=
  ["Lunes", "Martes", "Miércoles", "Jueves", "Viernes", "Sábado", "Domingo"]

/-- `indices[j+1] - indices[j] == 1` for every adjacent pair. -/
def pairwiseConsecutive : List Nat → Bool
  | a :: b :: rest => (b - a == 1) && pairwiseConsecutive (b :: rest)
  | _ => true

/-- `get_consecutive_day_sequences` (scheduler.py lines 329-345). -/
def get_consecutive_day_sequences (days_list : List String) (num_days : Nat) :
    List (List String) :=
  let available_days := day_order.filter (fun d => decide (d ∈ days_list))
  (List.range (available_days.length + 1 - num_days)).filterMap (fun i =>
    let seq := (available_days.drop i).take num_days
    let indices := seq.map (fun d => day_order.indexOf d)
    if pairwiseConsecutive indices then some seq else none)

/-- A per-day position collected by the language placer. -/
structure EngPos where
  day : String
  slot : TimeSlot
  slot_ids : List Nat
  hour : String
deriving DecidableEq

/-- The `for slot in day_slots: if slot.start_time == hour` scan. -/
def findSlotAtHour (day_slots : List TimeSlot) (hour : String) : Option TimeSlot :=
  day_slots.find? (fun slot => decide (slot.start_time = hour))

/-- The per-day availability check of the language placer's direct phase
(lines 390-427): professor input availability plus the three tracker/room
checks. -/
def engCheckSeq (data : SchedulingData) (st : St) (prof_id room_id group_id : Nat)
    (hour : String) : List String → List EngPos → Option (List EngPos)
  | [], acc => some acc
  | day :: rest, acc =>
    match findSlotAtHour (PyDict.getD data.slots_by_day day []) hour with
    | none => none
    | some slot_at_hour =>
      let slot_ids := [slot_at_hour.id]
      if data.is_professor_available_at_slots prof_id slot_ids
          && st.tracker.can_assign_professor prof_id slot_ids
          && st.tracker.can_assign_group group_id slot_ids
          && is_room_available st room_id slot_ids then
        engCheckSeq data st prof_id room_id group_id hour rest
          (acc ++ [⟨day, slot_at_hour, slot_ids, hour⟩])
      else none

/-- The commit block of the language placer (lines 429-441 and 529-543):
write the `N` hour entries `G<g>_C<c>_B<k>_H0`, update tracker and room
usage per day, and fix the hour when not yet fixed. -/
def engStep (course : Course) (group_id prof_id room_id : Nat) (s : St)
    (ip : Nat × EngPos) : St :=
  let block_num := ip.1 + 1
  let s1 := schedSet s group_id (group_id, course.id, block_num, 0)
    (ip.2.slot.id, room_id, course.id)
  let s2 := { s1 with
    tracker := s1.tracker.assign prof_id group_id ip.2.slot_ids course.id }
  let s3 := mark_room_used s2 room_id ip.2.slot_ids
  { s3 with
    tracker := s3.tracker.add_day_for_course group_id course.id ip.2.day }

def engCommit (course : Course) (group_id prof_id room_id : Nat)
    (positions : List EngPos) (hour : String) (fixed_hour : Option String)
    (st : St) : St :=
  let stP := (positions.enum).foldl (engStep course group_id prof_id room_id) st
  if strTruthy fixed_hour then stP
  else
    { stP with
      tracker := stP.tracker.set_fixed_hour_for_course group_id course.id hour }

/-- The hour loop of the language placer's direct phase. -/
def engTryHours (course : Course) (group_id prof_id room_id num_blocks : Nat)
    (fixed_hour : Option String) (data : SchedulingData) (seq : List String) :
    List String → St → Bool × St
  | [], st => (false, st)
  | hour :: hrest, st =>
    match engCheckSeq data st prof_id room_id group_id hour seq [] with
    | some positions =>
      if positions.length = num_blocks then
        (true, engCommit course group_id prof_id room_id positions hour
          fixed_hour st)
      else
        engTryHours course group_id prof_id room_id num_blocks fixed_hour data
          seq hrest st
    | none =>
      engTryHours course group_id prof_id room_id num_blocks fixed_hour data seq
        hrest st

/-- The direct phase over sequences (lines 373-442).  The returned string
list is the Python `hours_to_try` variable as left by the last iteration,
which the displacement phase then reads. -/
def engPhase1 (course : Course) (group_id prof_id room_id num_blocks : Nat)
    (fixed_hour : Option String) (data : SchedulingData) :
    List (List String) → St → List String → Bool × St × List String
  | [], st, hcur => (false, st, hcur)
  | seq :: rest, st, _ =>
    let hours0 := PySet.ofList
      (seq.foldl
        (fun acc day => acc ++ (PyDict.getD data.slots_by_day day []).map (·.start_time))
        [])
    let shuffled := pyShuffle hours0 st.rng
    let st1 := { st with rng := shuffled.2 }
    let hours_to_try :=
      if strTruthy fixed_hour then [fixed_hour.getD ""] else shuffled.1
    match engTryHours course group_id prof_id room_id num_blocks fixed_hour data
        seq hours_to_try st1 with
    | (true, st2) => (true, st2, hours_to_try)
    | (false, st2) =>
      engPhase1 course group_id prof_id room_id num_blocks fixed_hour data rest
        st2 hours_to_try

/-- `for c in conflicts: if english, abandon; else collect` (lines 473-477). -/
def engScanConflicts : List Conflict → List Conflict → Bool × List Conflict
  | [], acc => (true, acc)
  | c :: cs, acc =>
    if c.is_english then (false, acc) else engScanConflicts cs (acc ++ [c])

/-- The conflict-gathering loop of the displacement phase (lines 452-480). -/
def engGather (data : SchedulingData) (prof_id group_id : Nat) (hour : String)
    (st : St) : List String → List Conflict → Bool × List Conflict
  | [], acc => (true, acc)
  | day :: rest, acc =>
    match findSlotAtHour (PyDict.getD data.slots_by_day day []) hour with
    | none => (false, acc)
    | some slot_at_hour =>
      if !(data.is_professor_available_at_slots prof_id [slot_at_hour.id]) then
        (false, acc)
      else
        match engScanConflicts
            (get_conflicting_blocks [slot_at_hour.id] group_id st data) acc with
        | (true, acc2) => engGather data prof_id group_id hour st rest acc2
        | (false, acc2) => (false, acc2)

/-- The post-relocation re-check (lines 497-527): tracker and room checks
only — the source does not re-check input availability here. -/
def engRecheckSeq (st : St) (prof_id room_id group_id : Nat)
    (data : SchedulingData) (hour : String) :
    List String → List EngPos → Option (List EngPos)
  | [], acc => some acc
  | day :: rest, acc =>
    match findSlotAtHour (PyDict.getD data.slots_by_day day []) hour with
    | none => none
    | some slot_at_hour =>
      let slot_ids := [slot_at_hour.id]
      if st.tracker.can_assign_professor prof_id slot_ids
          && st.tracker.can_assign_group group_id slot_ids
          && is_room_available st room_id slot_ids then
        engRecheckSeq st prof_id room_id group_id data hour rest
          (acc ++ [⟨day, slot_at_hour, slot_ids, hour⟩])
      else none

/-- The hour loop of the language placer's displacement phase
(lines 448-543). -/
def engPhase2Hours (course : Course) (group_id prof_id room_id num_blocks : Nat)
    (fixed_hour : Option String) (data : SchedulingData) (seq : List String) :
    List String → St → Bool × St
  | [], st => (false, st)
  | hour :: hrest, st =>
    let gathered := engGather data prof_id group_id hour st seq []
    if gathered.1 && !gathered.2.isEmpty then
      match relocateAll data gathered.2 st with
      | (true, st1) =>
        match engRecheckSeq st1 prof_id room_id group_id data hour seq [] with
        | some positions =>
          if positions.length = num_blocks then
            (true, engCommit course group_id prof_id room_id positions hour
              fixed_hour st1)
          else
            engPhase2Hours course group_id prof_id room_id num_blocks fixed_hour
              data seq hrest st1
        | none =>
          engPhase2Hours course group_id prof_id room_id num_blocks fixed_hour
            data seq hrest st1
      | (false, st1) =>
        engPhase2Hours course group_id prof_id room_id num_blocks fixed_hour
          data seq hrest st1
    else
      engPhase2Hours course group_id prof_id room_id num_blocks fixed_hour data
        seq hrest st

/-- The displacement phase over sequences (lines 445-543).  `hoursLeft` is
the leaked `hours_to_try` from the direct phase. -/
def engPhase2 (course : Course) (group_id prof_id room_id num_blocks : Nat)
    (fixed_hour : Option String) (data : SchedulingData) :
    List (List String) → List String → St → Bool × St
  | [], _, st => (false, st)
  | seq :: rest, hoursLeft, st =>
    let target_hours :=
      if strTruthy fixed_hour then [fixed_hour.getD ""] else hoursLeft
    match engPhase2Hours course group_id prof_id room_id num_blocks fixed_hour
        data seq target_hours st with
    | (true, st1) => (true, st1)
    | (false, st1) =>
      engPhase2 course group_id prof_id room_id num_blocks fixed_hour data rest
        hoursLeft st1

/-- The `for attempt in range(max_attempts)` loop (lines 372-543). -/
def engAttempts (course : Course) (group_id prof_id room_id num_blocks : Nat)
    (fixed_hour : Option String) (data : SchedulingData)
    (sequences : List (List String)) : Nat → St → Bool × St
  | 0, st => (false, st)
  | Nat.succ n, st =>
    match engPhase1 course group_id prof_id room_id num_blocks fixed_hour data
        sequences st [] with
    | (true, st1, _) => (true, st1)
    | (false, st1, hoursLeft) =>
      match engPhase2 course group_id prof_id room_id num_blocks fixed_hour data
          sequences hoursLeft st1 with
      | (true, st2) => (true, st2)
      | (false, st2) =>
        engAttempts course group_id prof_id room_id num_blocks fixed_hour data
          sequences n st2

/-- `assign_english_consecutive_days` (scheduler.py lines 348-546; the
`group_name` parameter is only printed and is dropped here). -/
def assign_english_consecutive_days (course : Course) (group_id : Nat)
    (data : SchedulingData) (block_durations : List Nat)
    (fixed_hour : Option String) (max_attempts : Nat) (st : St) : Bool × St :=
  let prof_id := data.get_professor_for_group_course group_id course.id
  let room_id := data.get_professor_room prof_id
  let num_blocks := block_durations.length
  let available_days := data.slots_by_day.map (·.1)
  let sequences0 := get_consecutive_day_sequences available_days num_blocks
  if sequences0.isEmpty then (false, st)
  else
    let shuffled := pyShuffle sequences0 st.rng
    engAttempts course group_id prof_id room_id num_blocks fixed_hour data
      shuffled.1 max_attempts { st with rng := shuffled.2 }

/-- The commit block of the generic force-assign loop (lines 606-623 and
676-693). -/
def faCommit (course : Course) (group_id : Nat) (is_english : Bool)
    (block_num : Nat) (day : String) (pos : Position)
    (fixed_hour : Option String) (st : St) : Option String × St :=
  let st1 := (pos.slot_ids.enum).foldl
    (fun s je =>
      schedSet s group_id (group_id, course.id, block_num, je.1)
        (je.2, pos.room_id, course.id))
    st
  let st2 := { st1 with
    tracker := st1.tracker.assign pos.prof_id group_id pos.slot_ids course.id }
  let st3 := mark_room_used st2 pos.room_id pos.slot_ids
  let st4 :=
    if course.max_block_duration = 1 then
      { st3 with
        tracker := st3.tracker.add_day_for_course group_id course.id day }
    else st3
  if is_english && !(strTruthy fixed_hour) then
    (some pos.first_hour,
      { st4 with
        tracker := st4.tracker.set_fixed_hour_for_course group_id course.id
          pos.first_hour })
  else (fixed_hour, st4)

/-- Phase 1 of one attempt: randomized day order, `find_all_valid_positions`,
random choice among positions (lines 590-623). -/
def faTryDays (course : Course) (group_id : Nat) (data : SchedulingData)
    (is_english : Bool) (duration block_num : Nat) (fixed_hour : Option String) :
    List String → St → Bool × Option String × St
  | [], st => (false, fixed_hour, st)
  | day :: rest, st =>
    if course.max_block_duration = 1 ∧
        day ∈ st.tracker.get_used_days_for_course group_id course.id then
      faTryDays course group_id data is_english duration block_num fixed_hour
        rest st
    else
      let positions :=
        find_all_valid_positions course group_id duration day data st is_english
          fixed_hour
      if positions.isEmpty then
        faTryDays course group_id data is_english duration block_num fixed_hour
          rest st
      else
        let chosen := pyChoice positions st.rng
        match chosen.1 with
        | none =>
          faTryDays course group_id data is_english duration block_num
            fixed_hour rest { st with rng := chosen.2 }
        | some pos =>
          let committed := faCommit course group_id is_english block_num day pos
            fixed_hour { st with rng := chosen.2 }
          (true, committed.1, committed.2)

/-- The window scan of the displacement fallback (lines 637-693); note the
source checks neither hour continuity nor group/room state here before
gathering conflicts, and commits `positions[0]` (not a random choice). -/
def faWindows (course : Course) (group_id : Nat) (data : SchedulingData)
    (is_english : Bool) (duration block_num prof_id : Nat)
    (fixed_hour : Option String) (day : String) (day_slots : List TimeSlot) :
    List Nat → St → Bool × Option String × St
  | [], st => (false, fixed_hour, st)
  | start_idx :: irest, st =>
    let consecutive := (day_slots.drop start_idx).take duration
    let slot_ids := consecutive.map (·.id)
    let first_hour := (consecutive.headD dummySlot).start_time
    if !(data.is_professor_available_at_slots prof_id slot_ids) then
      faWindows course group_id data is_english duration block_num prof_id
        fixed_hour day day_slots irest st
    else if is_english && strTruthy fixed_hour
        && !(decide (first_hour = fixed_hour.getD "")) then
      faWindows course group_id data is_english duration block_num prof_id
        fixed_hour day day_slots irest st
    else
      let conflicts := get_conflicting_blocks slot_ids group_id st data
      let movable := conflicts.filter (fun c => !c.is_english)
      if movable.isEmpty then
        faWindows course group_id data is_english duration block_num prof_id
          fixed_hour day day_slots irest st
      else
        match relocateAll data movable st with
        | (true, st1) =>
          match find_all_valid_positions course group_id duration day data st1
              is_english fixed_hour with
          | [] =>
            faWindows course group_id data is_english duration block_num prof_id
              fixed_hour day day_slots irest st1
          | pos :: _ =>
            let committed := faCommit course group_id is_english block_num day
              pos fixed_hour st1
            (true, committed.1, committed.2)
        | (false, st1) =>
          faWindows course group_id data is_english duration block_num prof_id
            fixed_hour day day_slots irest st1

/-- Phase 2 of one attempt: the displacement fallback over days
(lines 625-693). -/
def faDisplaceDays (course : Course) (group_id : Nat) (data : SchedulingData)
    (is_english : Bool) (duration block_num prof_id : Nat)
    (fixed_hour : Option String) : List String → St → Bool × Option String × St
  | [], st => (false, fixed_hour, st)
  | day :: rest, st =>
    if course.max_block_duration = 1 ∧
        day ∈ st.tracker.get_used_days_for_course group_id course.id then
      faDisplaceDays course group_id data is_english duration block_num prof_id
        fixed_hour rest st
    else
      let day_slots := PyDict.getD data.slots_by_day day []
      match faWindows course group_id data is_english duration block_num prof_id
          fixed_hour day day_slots
          (List.range (day_slots.length + 1 - duration)) st with
      | (true, fh, st1) => (true, fh, st1)
      | (false, _, st1) =>
        faDisplaceDays course group_id data is_english duration block_num
          prof_id fixed_hour rest st1

/-- The `while not assigned and attempts < max_attempts` loop for one block
(lines 584-693). -/
def faAttempts (course : Course) (group_id : Nat) (data : SchedulingData)
    (is_english : Bool) (duration block_num prof_id : Nat) :
    Nat → Option String → St → Bool × Option String × St
  | 0, fixed_hour, st => (false, fixed_hour, st)
  | Nat.succ n, fixed_hour, st =>
    let shuffled := pyShuffle (data.slots_by_day.map (·.1)) st.rng
    let days := shuffled.1
    let st1 := { st with rng := shuffled.2 }
    match faTryDays course group_id data is_english duration block_num
        fixed_hour days st1 with
    | (true, fh, st2) => (true, fh, st2)
    | (false, _, st2) =>
      match faDisplaceDays course group_id data is_english duration block_num
          prof_id fixed_hour days st2 with
      | (true, fh, st3) => (true, fh, st3)
      | (false, _, st3) =>
        faAttempts course group_id data is_english duration block_num prof_id n
          fixed_hour st3

/-- The per-block loop of `force_assign_with_displacement` (lines 577-696),
returning the number of blocks assigned. -/
def faBlocks (course : Course) (group_id : Nat) (data : SchedulingData)
    (is_english : Bool) (prof_id max_attempts : Nat) :
    List Nat → Nat → Option String → Nat → St → Nat × St
  | [], _, _, cnt, st => (cnt, st)
  | duration :: rest, block_num, fixed_hour, cnt, st =>
    match faAttempts course group_id data is_english duration block_num prof_id
        max_attempts fixed_hour st with
    | (true, fh, st1) =>
      faBlocks course group_id data is_english prof_id max_attempts rest
        (block_num + 1) fh (cnt + 1) st1
    | (false, fh, st1) =>
      faBlocks course group_id data is_english prof_id max_attempts rest
        (block_num + 1) fh cnt st1

/-- `force_assign_with_displacement` (scheduler.py lines 549-705). -/
def force_assign_with_displacement (course : Course) (group_id : Nat)
    (data : SchedulingData) (is_english : Bool) (block_durations : List Nat)
    (max_attempts : Nat) (st : St) : Bool × St :=
  let prof_id := data.get_professor_for_group_course group_id course.id
  if prof_id = 0 then (false, st) else
  let room_id := data.get_professor_room prof_id
  if room_id = 0 then (false, st) else
  let fixed_hour :=
    if is_english then st.tracker.get_fixed_hour_for_course group_id course.id
    else none
  if is_english ∧ course.max_block_duration = 1 then
    assign_english_consecutive_days course group_id data block_durations
      fixed_hour max_attempts st
  else
    let res := faBlocks course group_id data is_english prof_id max_attempts
      block_durations 1 fixed_hour 0 st
    (decide (res.1 = block_durations.length), res.2)

/-- `unique_courses` (lines 730-737): first-seen dedup over assignments,
looking the course up in the index. -/
def uniqueCoursesFromAssignments (data : SchedulingData)
    (assignments : List ProfessorCourseGroupAssignment) : PyDict Nat Course :=
  assignments.foldl
    (fun d a =>
      if PyDict.hasKey d a.course_id then d
      else
        match PyDict.get? data.courses a.course_id with
        | some c => PyDict.set d a.course_id c
        | none => d)
    []

/-- `list(set([a.group_id for a in assignments if a.course_id == id]))`. -/
def groupsWithCourse (assignments : List ProfessorCourseGroupAssignment)
    (course_id : Nat) : List Nat :=
  PySet.ofList
    ((assignments.filter (fun a => decide (a.course_id = course_id))).map
      (·.group_id))

/-- The main per-course loop (lines 745-759). -/
def courseLoop (data : SchedulingData)
    (assignments : List ProfessorCourseGroupAssignment)
    (english : List Course) : List Course → St → St
  | [], st => st
  | course :: rest, st =>
    let is_english := decide (course ∈ english)
    let block_durations := calculate_course_blocks course
    let st1 := (groupsWithCourse assignments course.id).foldl
      (fun s g =>
        (force_assign_with_displacement course g data is_english block_durations
            50 s).2)
      st
    courseLoop data assignments english rest st1

/-- The verification pass for one group (lines 766-788): count placed hours
per course from the group's schedule as of entry, then retry every shortfall
with 1-hour blocks and `max_attempts = 100`. -/
def verifyGroup (data : SchedulingData)
    (assignments : List ProfessorCourseGroupAssignment) (gid : Nat) (st : St) :
    St :=
  let courses_assigned : PyDict Nat Nat :=
    (PyDict.getD st.all_schedules gid []).foldl
      (fun d kv => PyDict.set d kv.2.2.2 (PyDict.getD d kv.2.2.2 0 + 1)) []
  assignments.foldl
    (fun s a =>
      if a.group_id = gid then
        match PyDict.get? data.courses a.course_id with
        | some course =>
          let assigned := PyDict.getD courses_assigned course.id 0
          if assigned < course.weekly_hours then
            let missing := course.weekly_hours - assigned
            (force_assign_with_displacement course gid data
                (isEnglishName course.name) (List.replicate missing 1) 100 s).2
          else s
        | none => s
      else s)
    st

/-- `generate_schedule_for_all_groups` (scheduler.py lines 708-833), as a
pure function of the inputs and the random stream; the returned value is the
`all_schedules` map. -/
def generate_schedule_for_all_groups (courses : List Course) (rooms : List Room)
    (timeslots : List TimeSlot) (professors : List Professor)
    (assignments : List ProfessorCourseGroupAssignment)
    (professor_rooms : PyDict Nat Nat) (groups : List Group) (rng : List Nat) :
    PyDict Nat (PyDict HourId SchedEntry) :=
  let data := mkData courses rooms timeslots professors assignments
    professor_rooms
  let st0 : St :=
    { room_usage := []
      tracker := GroupScheduleTracker.empty
      all_schedules := groups.foldl (fun d g => PyDict.set d g.id []) []
      rng := rng }
  let unique_courses := uniqueCoursesFromAssignments data assignments
  let courses_list := unique_courses.map (·.2)
  let english := courses_list.filter (fun c => isEnglishName c.name)
  let others := courses_list.filter (fun c => !(decide (c ∈ english)))
  let others_sorted :=
    stableSort (fun a b => decide (b.weekly_hours < a.weekly_hours)) others
  let sorted_courses := english ++ others_sorted
  let st1 := courseLoop data assignments english sorted_courses st0
  let st2 := groups.foldl (fun s g => verifyGroup data assignments g.id s) st1
  st2.all_schedules

/-- The final mutable state of `generate_schedule_for_all_groups` (the
orchestrator returns its `all_schedules` projection). -/
def pipelineState (courses : List Course) (rooms : List Room)
    (timeslots : List TimeSlot) (professors : List Professor)
    (assignments : List ProfessorCourseGroupAssignment)
    (professor_rooms : PyDict Nat Nat) (groups : List Group) (rng : List Nat) :
    St :=
  let data := mkData courses rooms timeslots professors assignments
    professor_rooms
  let st0 : St :=
    { room_usage := []
      tracker := GroupScheduleTracker.empty
      all_schedules := groups.foldl (fun d g => PyDict.set d g.id []) []
      rng := rng }
  let unique_courses := uniqueCoursesFromAssignments data assignments
  let courses_list := unique_courses.map (·.2)
  let english := courses_list.filter (fun c => isEnglishName c.name)
  let others := courses_list.filter (fun c => !(decide (c ∈ english)))
  let others_sorted :=
    stableSort (fun a b => decide (b.weekly_hours < a.weekly_hours)) others
  let sorted_courses := english ++ others_sorted
  let st1 := courseLoop data assignments english sorted_courses st0
  groups.foldl (fun s g => verifyGroup data assignments g.id s) st1

/-! Concrete scenario for C1: group 2 needs course 22 (`Fisica`, professor 2,
room 101); the only window its professor can attend (Lunes 17:00, slot 1017)
is occupied by a language-course block of group 1 (course 20, `Ingles`, room
102) and by a movable block of group 3 (course 21, `Mate`, room 101). -/

def c1Timeslots : List TimeSlot :=
  [⟨1017, "Lunes", "17:00:00", "18:00:00"⟩,
   ⟨1018, "Lunes", "18:00:00", "19:00:00"⟩,
   ⟨2017, "Martes", "17:00:00", "18:00:00"⟩]

def c1CourseE : Course := ⟨20, "Ingles", 1, 1, 1, "aula", 0⟩
def c1CourseA : Course := ⟨21, "Mate", 1, 1, 1, "aula", 0⟩
def c1CourseX : Course := ⟨22, "Fisica", 1, 1, 1, "aula", 0⟩

def c1Data : SchedulingData :=
  mkData [c1CourseE, c1CourseA, c1CourseX] [] c1Timeslots
    [⟨1, "P1", [], 40⟩, ⟨2, "P2", [1018, 2017], 40⟩, ⟨3, "P3", [], 40⟩]
    [⟨1, 1, 20, 1, 1⟩, ⟨2, 3, 21, 3, 2⟩, ⟨3, 2, 22, 2, 3⟩]
    [(1, 102), (2, 101), (3, 101)]

def c1St : St :=
  { room_usage := [(102, [1017]), (101, [1017])]
    tracker :=
      { prof_schedule := [(1, [(1017, 1)]), (3, [(1017, 3)])]
        group_schedule := [(1, [(1017, 20)]), (3, [(1017, 21)])]
        course_fixed_hour := [((1, 20), "17:00:00")]
        group_course_days := [((1, 20), ["Lunes"]), ((3, 21), ["Lunes"])] }
    all_schedules :=
      [(1, [((1, 20, 1, 0), (1017, 102, 20))]), (2, []),
       (3, [((3, 21, 1, 0), (1017, 101, 21))])]
    rng := [0, 0, 1, 0, 0, 0] }

/-- The C1 scenario without the language-course block: the gather loop then
reports the window workable. -/
def c1StB : St :=
  { room_usage := [(101, [1017])]
    tracker :=
      { prof_schedule := [(3, [(1017, 3)])]
        group_schedule := [(3, [(1017, 21)])]
        course_fixed_hour := []
        group_course_days := [((3, 21), ["Lunes"])] }
    all_schedules := [(2, []), (3, [((3, 21, 1, 0), (1017, 101, 21))])]
    rng := [] }

/-! Concrete scenario for C6: a language course with
`max_block_duration = 2` whose single two-hour block necessarily spans two
distinct start hours. -/

def c6Course : Course := ⟨12, "Ingles", 2, 1, 2, "aula", 0⟩

def c6Timeslots : List TimeSlot :=
  [⟨1017, "Lunes", "17:00:00", "18:00:00"⟩,
   ⟨1018, "Lunes", "18:00:00", "19:00:00"⟩]

def c6Data : SchedulingData :=
  mkData [c6Course] [⟨101, "A", 30, "aula", "B"⟩] c6Timeslots [⟨1, "P", [], 40⟩]
    [⟨1, 1, 12, 1, 1⟩] [(1, 101)]

def c6Out : PyDict Nat (PyDict HourId SchedEntry) :=
  generate_schedule_for_all_groups [c6Course] [⟨101, "A", 30, "aula", "B"⟩]
    c6Timeslots [⟨1, "P", [], 40⟩] [⟨1, 1, 12, 1, 1⟩] [(1, 101)] [⟨1, "G1", "T"⟩]
    []

/-- What a successful run of either phase of the language placer commits:
some tried sequence, some hour, and a per-day position list that passed the
availability scan (direct phase) or the post-relocation re-check, of the
required length, written by `engCommit`. -/
def EngSuccessSpec (course : Course) (group_id prof_id room_id num_blocks : Nat)
    (fixed_hour : Option String) (data : SchedulingData)
    (sequences : List (List String)) (st2 : St) : Prop :=
  ∃ seq ∈ sequences, ∃ hour positions stPre,
    (engCheckSeq data stPre prof_id room_id group_id hour seq [] =
        some positions ∨
      engRecheckSeq stPre prof_id room_id group_id data hour seq [] =
        some positions) ∧
    positions.length = num_blocks ∧
    st2 = engCommit course group_id prof_id room_id positions hour fixed_hour
      stPre

/-! A concrete successful run of the language placer: a two-hour language
course over Lunes and Martes at 17:00. -/

def w5Course : Course := ⟨12, "Ingles", 2, 1, 1, "aula", 0⟩

def w5Timeslots : List TimeSlot :=
  [⟨1017, "Lunes", "17:00:00", "18:00:00"⟩,
   ⟨2017, "Martes", "17:00:00", "18:00:00"⟩]

def w5Data : SchedulingData :=
  mkData [w5Course] [⟨101, "A", 30, "aula", "B"⟩] w5Timeslots [⟨1, "P", [], 40⟩]
    [⟨1, 1, 12, 1, 1⟩] [(1, 101)]

def w5St : St :=
  { room_usage := []
    tracker :=
      { prof_schedule := []
        group_schedule := []
        course_fixed_hour := []
        group_course_days := [] }
    all_schedules := [(1, [])]
    rng := [0, 0, 0, 0, 0, 0, 0, 0] }

/-! A concrete failing relocation: a one-hour placed block whose professor
has no available slot, so no day can take the block and the restore path of
`try_relocate_block` runs. -/

def w2Course : Course := ⟨5, "Mate", 1, 1, 1, "tronco_comun", 0⟩

def w2Timeslots : List TimeSlot := [⟨11, "Lunes", "17:00:00", "18:00:00"⟩]

def w2Data : SchedulingData :=
  mkData [w2Course] [⟨101, "A", 40, "tronco_comun", "B"⟩] w2Timeslots
    [⟨3, "P", [11], 40⟩] [⟨1, 3, 5, 7, 1⟩] [(3, 101)]

def w2Conflict : Conflict :=
  ⟨(7, 5, 0), 7, 5, some w2Course, false, [⟨(7, 5, 0, 0), 11, 101⟩], [11]⟩

def w2St : St :=
  { room_usage := [(101, [11])]
    tracker :=
      { prof_schedule := [(3, [(11, 7)])]
        group_schedule := [(7, [(11, 5)])]
        course_fixed_hour := []
        group_course_days := [((7, 5), ["Lunes"])] }
    all_schedules := [(7, [((7, 5, 0, 0), (11, 101, 5))])]
    rng := [] }

/-- What a freshly written schedule entry must satisfy for `SchedInv` to
survive: a valid slot, the `G<g>_C<c>` key convention, and — when its course
is a one-hour-block language course — a recorded fixed hour matched by the
entry's slot. -/
def NewOK (data : SchedulingData) (stNew : St) (g : Nat)
    (kv : HourId × SchedEntry) : Prop :=
  (∃ t ∈ data.valid_slots, t.id = kv.2.1) ∧ kv.1.1 = g ∧
    kv.1.2.1 = kv.2.2.2 ∧
    (∀ crs, PyDict.get? data.courses kv.2.2.2 = some crs →
      isEnglishName crs.name = true → crs.max_block_duration = 1 →
      ∃ fh, stNew.tracker.get_fixed_hour_for_course g kv.2.2.2 = some fh ∧
        ∃ t ∈ data.valid_slots, t.id = kv.2.1 ∧ t.start_time = fh)

/-- The accumulator invariant of the block-reconstruction fold in
`get_conflicting_blocks`, for one group's schedule map. -/
def GcbGood (data : SchedulingData) (gid : Nat)
    (bkv : (Nat × Nat × Nat) × Nat × Nat × List ConflictHour) : Prop :=
  bkv.2.1 = gid ∧ bkv.2.2.1 = bkv.1.2.1 ∧
    ∀ h ∈ bkv.2.2.2, h.hour_id.1 = gid ∧ h.hour_id.2.1 = bkv.1.2.1 ∧
      ∃ t ∈ data.valid_slots, t.id = h.slot_id

/-! Python `==`-style state equivalence, for the transactional-restore claim:
same key sets at every level and equal contents (the consumed random stream
is not program state). -/

/-- Pointwise equivalence of two two-level dicts: same outer key set and the
same inner lookups everywhere (this is Python `==` for dicts of dicts). -/
def dict2Equiv {K1 K2 V : Type} [DecidableEq K1] [DecidableEq K2]
    (a b : PyDict K1 (PyDict K2 V)) : Prop :=
  ∀ k1, (PyDict.get? a k1).isSome = (PyDict.get? b k1).isSome ∧
    ∀ k2, PyDict.get? (PyDict.getD a k1 []) k2 = PyDict.get? (PyDict.getD b k1 []) k2

/-- Pointwise equivalence of two dicts of sets (Python `==` for
`dict[?, set]`). -/
def dictSetEquiv {K A : Type} [DecidableEq K] [DecidableEq A]
    (a b : PyDict K (PySet A)) : Prop :=
  ∀ k, (PyDict.get? a k).isSome = (PyDict.get? b k).isSome ∧
    ∀ x, (x ∈ PyDict.getD a k []) ↔ (x ∈ PyDict.getD b k [])

/-- Python `==` of the whole mutable state apart from the random stream. -/
def StEquiv (s1 s2 : St) : Prop :=
  dict2Equiv s1.all_schedules s2.all_schedules ∧
  dict2Equiv s1.tracker.prof_schedule s2.tracker.prof_schedule ∧
  dict2Equiv s1.tracker.group_schedule s2.tracker.group_schedule ∧
  s1.tracker.course_fixed_hour = s2.tracker.course_fixed_hour ∧
  dictSetEquiv s1.tracker.group_course_days s2.tracker.group_course_days ∧
  dictSetEquiv s1.room_usage s2.room_usage

/-- Consistency of a conflict record with the current state: the block's
hour entries are present in its group's schedule with exactly the recorded
slots, room and course; the tracker and the room-usage set hold the block's
slots; and, for one-hour-block courses placed on a real day, that day is
recorded.  Every conflict produced by `get_conflicting_blocks` on a state
reached from the empty state satisfies this. -/
def RelocWf (data : SchedulingData) (st : St) (conflict : Conflict) : Prop :=
  conflict.hours ≠ [] ∧
  (conflict.hours.map (·.hour_id)).Nodup ∧
  (∀ h ∈ conflict.hours,
    PyDict.get? (PyDict.getD st.all_schedules conflict.group_id []) h.hour_id =
        some (h.slot_id, h.room_id, conflict.course_id) ∧
      h.room_id = (conflict.hours.headD dummyConflictHour).room_id ∧
      profLookup st.tracker
          (data.get_professor_for_group_course conflict.group_id
            conflict.course_id) h.slot_id = some conflict.group_id ∧
      groupLookup st.tracker conflict.group_id h.slot_id =
        some conflict.course_id ∧
      h.slot_id ∈
        PyDict.getD st.room_usage
          (conflict.hours.headD dummyConflictHour).room_id []) ∧
  (PyDict.get? st.all_schedules conflict.group_id).isSome = true ∧
  (PyDict.get? st.room_usage
      (conflict.hours.headD dummyConflictHour).room_id).isSome = true ∧
  (PyDict.get? st.tracker.prof_schedule
      (data.get_professor_for_group_course conflict.group_id
        conflict.course_id)).isSome = true ∧
  (PyDict.get? st.tracker.group_schedule conflict.group_id).isSome = true ∧
  (∀ crs, conflict.course = some crs → crs.max_block_duration = 1 →
    ∀ d, (data.valid_slots.find?
        (fun s => decide (s.id = (conflict.hours.map (·.slot_id)).headD 0))).map
          (·.day) = some d →
      ¬ (d = "") →
      (PyDict.get? st.tracker.group_course_days
          (conflict.group_id, conflict.course_id)).isSome = true ∧
        d ∈ PyDict.getD st.tracker.group_course_days
          (conflict.group_id, conflict.course_id) [])

/-! Run invariants for the window claim (C7) and the language-course
fixed-hour claim (C6), stated over every entry of every group's schedule
map. -/

/-- Every placed entry's timeslot id is the id of some valid (17:00-22:00)
input timeslot. -/
def InvSlots (data : SchedulingData)
    (sched : PyDict Nat (PyDict HourId SchedEntry)) : Prop :=
  ∀ gkv ∈ sched, ∀ kv ∈ gkv.2, ∃ t ∈ data.valid_slots, t.id = kv.2.1

/-- Every entry's hour-id encodes its own group and its entry's course (the
`G<g>_C<c>` prefix convention). -/
def InvKV (sched : PyDict Nat (PyDict HourId SchedEntry)) : Prop :=
  ∀ gkv ∈ sched, ∀ kv ∈ gkv.2, kv.1.1 = gkv.1 ∧ kv.1.2.1 = kv.2.2.2

/-- For every placed hour of a language course with
`max_block_duration = 1`, the pair's fixed hour is recorded and the placed
slot starts at exactly that hour. -/
def InvEng (data : SchedulingData) (st : St) : Prop :=
  ∀ gkv ∈ st.all_schedules, ∀ kv ∈ gkv.2,
    ∀ crs, PyDict.get? data.courses kv.2.2.2 = some crs →
      isEnglishName crs.name = true → crs.max_block_duration = 1 →
      ∃ fh, st.tracker.get_fixed_hour_for_course gkv.1 kv.2.2.2 = some fh ∧
        ∃ t ∈ data.valid_slots, t.id = kv.2.1 ∧ t.start_time = fh

/-- Every fixed hour recorded for a one-hour-block language course is a
non-empty string (Python-truthy). -/
def InvFix (data : SchedulingData) (st : St) : Prop :=
  ∀ kv ∈ st.tracker.course_fixed_hour,
    ∀ crs, PyDict.get? data.courses kv.1.2 = some crs →
      isEnglishName crs.name = true → crs.max_block_duration = 1 →
      ¬ kv.2 = ""

/-- The combined schedule invariant maintained by every pass of the
scheduler. -/
def SchedInv (data : SchedulingData) (st : St) : Prop :=
  InvSlots data st.all_schedules ∧ InvKV st.all_schedules ∧ InvEng data st ∧
    InvFix data st

/-- Structural facts about the index that the passes rely on: `slots_by_day`
holds only valid-window slots, and valid-window start hours are non-empty
strings. -/
def DataWf (data : SchedulingData) : Prop :=
  (∀ (day : String) (t : TimeSlot),
    t ∈ PyDict.getD data.slots_by_day day [] → t ∈ data.valid_slots) ∧
  (∀ t ∈ data.valid_slots, ¬ t.start_time = "")

/-- The state-independent facts about a conflict record handed to the
relocation machinery: its course is not a one-hour-block language course,
and its recorded hours carry their own group and course in the hour id and
valid slots.  Both relocation call sites only pass non-language conflicts
harvested from an invariant-satisfying schedule. -/
def CFacts (data : SchedulingData) (conflict : Conflict) : Prop :=
  (∀ crs, PyDict.get? data.courses conflict.course_id = some crs →
    isEnglishName crs.name = true → crs.max_block_duration = 1 → False) ∧
  ∀ h ∈ conflict.hours, h.hour_id.1 = conflict.group_id ∧
    h.hour_id.2.1 = conflict.course_id ∧
    ∃ t ∈ data.valid_slots, t.id = h.slot_id

/-- Provenance of the hour strings tried by the language placer: the fixed
hour when one is set, otherwise start hours of day slots. -/
def HoursOK (data : SchedulingData) (fixed_hour : Option String)
    (hours : List String) : Prop :=
  ∀ hr ∈ hours,
    (strTruthy fixed_hour = true → hr = fixed_hour.getD "") ∧
    (strTruthy fixed_hour = false →
      ∃ day t, t ∈ PyDict.getD data.slots_by_day day [] ∧ t.start_time = hr)

/-! Lemmas. -/

namespace PyDict

variable {K V : Type} [DecidableEq K]

@[simp] theorem get?_nil (key : K) : get? ([] : PyDict K V) key = none := rfl

theorem get?_set_self (d : PyDict K V) (key : K) (val : V) :
    get? (set d key val) key = some val := by
  induction d with
  | nil => simp [set, get?]
  | cons kv rest ih =>
    by_cases h : kv.1 = key
    · cases kv with
      | mk k v => simp only at h; simp [set, h, get?]
    · cases kv with
      | mk k v => simp only at h; simp [set, h, get?, ih]

theorem get?_set_ne (d : PyDict K V) (key key' : K) (val : V) (h : key' ≠ key) :
    get? (set d key val) key' = get? d key' := by
  have h2 : ¬ (key = key') := fun hh => h hh.symm
  induction d with
  | nil => simp [set, get?, h2]
  | cons kv rest ih =>
    cases kv with
    | mk k v =>
      by_cases hk : k = key
      · subst hk
        simp [set, get?, h2]
      · by_cases hk' : k = key'
        · simp [set, hk, get?, hk', h]
        · simp [set, hk, get?, hk', ih]

theorem get?_pop_self (d : PyDict K V) (key : K) :
    get? (pop d key) key = none := by
  induction d with
  | nil => simp [pop, get?]
  | cons kv rest ih =>
    cases kv with
    | mk k v =>
      by_cases hk : k = key
      · simpa [pop, hk] using ih
      · simp [pop, hk, get?, ih]

theorem get?_pop_ne (d : PyDict K V) (key key' : K) (h : key' ≠ key) :
    get? (pop d key) key' = get? d key' := by
  induction d with
  | nil => simp [pop]
  | cons kv rest ih =>
    cases kv with
    | mk k v =>
      by_cases hk : k = key
      · subst hk
        have h2 : ¬ (k = key') := fun hh => h hh.symm
        simpa [pop, get?, h2] using ih
      · by_cases hk' : k = key'
        · simp [pop, hk, get?, hk', h]
        · simp [pop, hk, get?, hk', ih]

end PyDict

namespace PySet

variable {A : Type} [DecidableEq A]

theorem mem_add (s : PySet A) (x y : A) : y ∈ add s x ↔ y ∈ s ∨ y = x := by
  by_cases h : x ∈ s
  · simp only [add, if_pos h]
    constructor
    · exact Or.inl
    · rintro (hy | rfl) <;> [exact hy; exact h]
  · simp [add, if_neg h]

theorem mem_addAll (xs : List A) (s : PySet A) (y : A) :
    y ∈ addAll s xs ↔ y ∈ s ∨ y ∈ xs := by
  induction xs generalizing s with
  | nil => simp [addAll]
  | cons x rest ih =>
    simp only [addAll, List.foldl_cons]
    rw [show (List.foldl add (add s x) rest) = addAll (add s x) rest from rfl, ih, mem_add]
    constructor
    · rintro ((h | rfl) | h) <;> simp_all
    · rintro (h | h)
      · exact Or.inl (Or.inl h)
      · rcases List.mem_cons.mp h with h1 | h2
        · exact Or.inl (Or.inr h1)
        · exact Or.inr h2

theorem mem_ofList (xs : List A) (y : A) : y ∈ ofList xs ↔ y ∈ xs := by
  simp [ofList, mem_addAll]

theorem mem_diff (s t : PySet A) (y : A) : y ∈ diff s t ↔ y ∈ s ∧ y ∉ t := by
  simp [diff]

end PySet

/-! General lemmas about the PyDict folds used by `assign` / `unassign`. -/

theorem get?_foldl_set {K V : Type} [DecidableEq K] (slots : List K) (v : V)
    (d : PyDict K V) (s : K) :
    PyDict.get? (slots.foldl (fun m x => PyDict.set m x v) d) s =
      if s ∈ slots then some v else PyDict.get? d s := by
  induction slots generalizing d with
  | nil => simp
  | cons x xs ih =>
    simp only [List.foldl_cons]
    rw [ih]
    by_cases hx : s ∈ xs
    · simp [hx]
    · by_cases hsx : s = x
      · subst hsx
        simp [hx, PyDict.get?_set_self]
      · simp [hx, hsx, PyDict.get?_set_ne d x s v hsx]

theorem get?_foldl_pop {K V : Type} [DecidableEq K] (slots : List K)
    (d : PyDict K V) (s : K) :
    PyDict.get? (slots.foldl PyDict.pop d) s =
      if s ∈ slots then none else PyDict.get? d s := by
  induction slots generalizing d with
  | nil => simp
  | cons x xs ih =>
    simp only [List.foldl_cons]
    rw [ih]
    by_cases hx : s ∈ xs
    · simp [hx]
    · by_cases hsx : s = x
      · subst hsx
        simp [hx, PyDict.get?_pop_self]
      · simp [hx, hsx, PyDict.get?_pop_ne d x s hsx]

theorem get?_foldl_setf_of_not_mem {A K V : Type} [DecidableEq K] (l : List A)
    (key : A → K) (f : A → V) (d : PyDict K V) (k : K)
    (hk : k ∉ l.map key) :
    PyDict.get? (l.foldl (fun acc x => PyDict.set acc (key x) (f x)) d) k =
      PyDict.get? d k := by
  induction l generalizing d with
  | nil => simp
  | cons x xs ih =>
    simp only [List.map_cons, List.mem_cons, not_or] at hk
    simp only [List.foldl_cons]
    rw [ih _ hk.2]
    exact PyDict.get?_set_ne d (key x) k (f x) hk.1

theorem get?_foldl_setf_of_mem {A K V : Type} [DecidableEq K] (l : List A)
    (key : A → K) (f : A → V) (d : PyDict K V) (a : A)
    (hnodup : (l.map key).Nodup) (ha : a ∈ l) :
    PyDict.get? (l.foldl (fun acc x => PyDict.set acc (key x) (f x)) d) (key a) =
      some (f a) := by
  induction l generalizing d with
  | nil => cases ha
  | cons x xs ih =>
    simp only [List.map_cons, List.nodup_cons] at hnodup
    rcases List.mem_cons.mp ha with rfl | hmem
    · simp only [List.foldl_cons]
      rw [get?_foldl_setf_of_not_mem xs key f _ (key a) hnodup.1]
      exact PyDict.get?_set_self d (key a) (f a)
    · simp only [List.foldl_cons]
      exact ih _ hnodup.2 hmem

theorem PyDict.set_set {K V : Type} [DecidableEq K] (d : PyDict K V) (k : K)
    (v1 v2 : V) : PyDict.set (PyDict.set d k v1) k v2 = PyDict.set d k v2 := by
  induction d with
  | nil => simp [PyDict.set]
  | cons kv rest ih =>
    cases kv with
    | mk k0 v0 =>
      by_cases h : k0 = k
      · simp [PyDict.set, h]
      · simp [PyDict.set, h, ih]

/-- The normal form of `unassign` right after the matching `assign`: both
outer keys are present, so both pops run, and consecutive writes to the same
outer key collapse. -/
theorem unassign_assign_eq (t : GroupScheduleTracker) (p g c : Nat)
    (slots : List Nat) :
    (t.assign p g slots c).unassign p g slots =
      { t with
          prof_schedule := PyDict.set t.prof_schedule p
            (slots.foldl PyDict.pop
              (slots.foldl (fun m s => PyDict.set m s g)
                (PyDict.getD t.prof_schedule p []))),
          group_schedule := PyDict.set t.group_schedule g
            (slots.foldl PyDict.pop
              (slots.foldl (fun m s => PyDict.set m s c)
                (PyDict.getD t.group_schedule g []))) } := by
  unfold GroupScheduleTracker.assign GroupScheduleTracker.unassign
  simp only [PyDict.get?_set_self, PyDict.set_set]

theorem unassign_course_fixed_hour (t : GroupScheduleTracker) (p g : Nat)
    (slots : List Nat) :
    (t.unassign p g slots).course_fixed_hour = t.course_fixed_hour := by
  unfold GroupScheduleTracker.unassign
  cases h1 : PyDict.get? t.prof_schedule p <;>
    cases h2 : PyDict.get? t.group_schedule g <;>
    simp [h1, h2]

theorem unassign_group_course_days (t : GroupScheduleTracker) (p g : Nat)
    (slots : List Nat) :
    (t.unassign p g slots).group_course_days = t.group_course_days := by
  unfold GroupScheduleTracker.unassign
  cases h1 : PyDict.get? t.prof_schedule p <;>
    cases h2 : PyDict.get? t.group_schedule g <;>
    simp [h1, h2]

/-- `can_assign_professor` states exactly that every requested slot is free in
the professor's occupancy map. -/
theorem can_assign_professor_iff (t : GroupScheduleTracker) (p : Nat)
    (slots : List Nat) :
    t.can_assign_professor p slots = true ↔
      ∀ s ∈ slots, PyDict.get? (PyDict.getD t.prof_schedule p []) s = none := by
  unfold GroupScheduleTracker.can_assign_professor PyDict.getD
  cases hm : PyDict.get? t.prof_schedule p with
  | none => simp
  | some m =>
    simp only [Option.getD_some, List.all_eq_true, PyDict.hasKey,
      Bool.not_eq_true', Bool.not_eq_true]
    constructor
    · intro h s hs
      have := h s hs
      cases hg : PyDict.get? m s with
      | none => rfl
      | some v => rw [hg] at this; cases this
    · intro h s hs
      rw [h s hs]
      rfl

/-- `can_assign_group` states exactly that every requested slot is free in
the group's occupancy map. -/
theorem can_assign_group_iff (t : GroupScheduleTracker) (g : Nat)
    (slots : List Nat) :
    t.can_assign_group g slots = true ↔
      ∀ s ∈ slots, PyDict.get? (PyDict.getD t.group_schedule g []) s = none := by
  unfold GroupScheduleTracker.can_assign_group PyDict.getD
  cases hm : PyDict.get? t.group_schedule g with
  | none => simp
  | some m =>
    simp only [Option.getD_some, List.all_eq_true, PyDict.hasKey,
      Bool.not_eq_true', Bool.not_eq_true]
    constructor
    · intro h s hs
      have := h s hs
      cases hg : PyDict.get? m s with
      | none => rfl
      | some v => rw [hg] at this; cases this
    · intro h s hs
      rw [h s hs]
      rfl

theorem calcBlocksGo_zero (minB maxB fuel : Nat) :
    calcBlocksGo minB maxB fuel 0 = [] := by
  cases fuel <;> simp [calcBlocksGo]

theorem calcBlocksGo_spec (minB maxB : Nat) (hmin : 1 ≤ minB)
    (hle : minB ≤ maxB) :
    ∀ fuel remaining, remaining ≤ fuel →
      (calcBlocksGo minB maxB fuel remaining).sum = remaining ∧
        ∀ b ∈ calcBlocksGo minB maxB fuel remaining, 1 ≤ b ∧ b ≤ maxB := by
  intro fuel
  induction fuel with
  | zero =>
    intro remaining h
    have : remaining = 0 := Nat.le_zero.mp h
    subst this
    simp [calcBlocksGo]
  | succ fuel ih =>
    intro remaining hr
    by_cases h0 : remaining > 0
    · have hb0le : min remaining maxB ≤ remaining := Nat.min_le_left _ _
      have hb0max : min remaining maxB ≤ maxB := Nat.min_le_right _ _
      have hb0pos : 1 ≤ min remaining maxB := le_min h0 (le_trans hmin hle)
      have hbranch : ¬ (min remaining maxB < minB ∧ remaining ≥ minB) := by
        rintro ⟨h1, h2⟩
        rcases Nat.le_total maxB remaining with hc | hc
        · rw [Nat.min_eq_right hc] at h1
          exact absurd hle (Nat.not_le.mpr h1)
        · rw [Nat.min_eq_left hc] at h1
          exact absurd h2 (Nat.not_le.mpr h1)
      have hrest : remaining - min remaining maxB ≤ fuel := by omega
      obtain ⟨ihsum, ihmem⟩ := ih (remaining - min remaining maxB) hrest
      simp only [calcBlocksGo, if_pos h0, if_neg hbranch]
      constructor
      · rw [List.sum_cons, ihsum]
        omega
      · intro b hb
        rcases List.mem_cons.mp hb with rfl | hbm
        · exact ⟨hb0pos, hb0max⟩
        · exact ihmem b hbm
    · have : remaining = 0 := by omega
      subst this
      simp [calcBlocksGo]

theorem calcBlocksGo_single (m k : Nat) (hmk : m ≤ k + 1) :
    calcBlocksGo m (k + 1) (k + 1) (k + 1) = [k + 1] := by
  have h1 : (k + 1 > 0) := Nat.succ_pos k
  have h2 : ¬ (k + 1 < m ∧ k + 1 ≥ m) := by omega
  simp only [calcBlocksGo, Nat.min_self]
  rw [if_pos h1, if_neg h2, Nat.sub_self, calcBlocksGo_zero]

/-! Projection and pointwise-lookup lemmas for the composite state
operations, used by the transactional-restore proof (C2) and by the run
invariants (C6, C7). -/

theorem foldlSt_proj {α β : Type} (f : St → α → St) (proj : St → β)
    (hstep : ∀ st a, proj (f st a) = proj st) :
    ∀ (l : List α) (st : St), proj (l.foldl f st) = proj st := by
  intro l
  induction l with
  | nil => intro st; rfl
  | cons a as ih =>
    intro st
    simp only [List.foldl_cons]
    rw [ih, hstep]

theorem mark_room_used_all_schedules (st : St) (r : Nat) (s : List Nat) :
    (mark_room_used st r s).all_schedules = st.all_schedules := rfl

theorem mark_room_used_tracker (st : St) (r : Nat) (s : List Nat) :
    (mark_room_used st r s).tracker = st.tracker := rfl

theorem unmark_room_used_all_schedules (st : St) (r : Nat) (s : List Nat) :
    (unmark_room_used st r s).all_schedules = st.all_schedules := by
  unfold unmark_room_used
  split <;> rfl

theorem unmark_room_used_tracker (st : St) (r : Nat) (s : List Nat) :
    (unmark_room_used st r s).tracker = st.tracker := by
  unfold unmark_room_used
  split <;> rfl

theorem schedSet_room_usage (st : St) (g : Nat) (k : HourId) (v : SchedEntry) :
    (schedSet st g k v).room_usage = st.room_usage := by
  unfold schedSet
  split <;> rfl

theorem schedSet_tracker (st : St) (g : Nat) (k : HourId) (v : SchedEntry) :
    (schedSet st g k v).tracker = st.tracker := by
  unfold schedSet
  split <;> rfl

theorem schedDel_room_usage (st : St) (g : Nat) (k : HourId) :
    (schedDel st g k).room_usage = st.room_usage := by
  unfold schedDel
  split <;> rfl

theorem schedDel_tracker (st : St) (g : Nat) (k : HourId) :
    (schedDel st g k).tracker = st.tracker := by
  unfold schedDel
  split <;> rfl

theorem presence_schedSet (st : St) (g : Nat) (k : HourId) (v : SchedEntry)
    (g' : Nat) :
    (PyDict.get? (schedSet st g k v).all_schedules g').isSome =
      (PyDict.get? st.all_schedules g').isSome := by
  unfold schedSet
  cases hm : PyDict.get? st.all_schedules g with
  | none => rfl
  | some gd =>
    by_cases hg : g' = g
    · subst hg
      simp [PyDict.get?_set_self, hm]
    · simp [PyDict.get?_set_ne _ _ _ _ hg]

theorem presence_schedDel (st : St) (g : Nat) (k : HourId) (g' : Nat) :
    (PyDict.get? (schedDel st g k).all_schedules g').isSome =
      (PyDict.get? st.all_schedules g').isSome := by
  unfold schedDel
  cases hm : PyDict.get? st.all_schedules g with
  | none => rfl
  | some gd =>
    by_cases hg : g' = g
    · subst hg
      simp [PyDict.get?_set_self, hm]
    · simp [PyDict.get?_set_ne _ _ _ _ hg]

theorem get2_schedSet (st : St) (g : Nat) (k : HourId) (v : SchedEntry)
    (g' : Nat) (k' : HourId) :
    PyDict.get? (PyDict.getD (schedSet st g k v).all_schedules g' []) k' =
      if (PyDict.get? st.all_schedules g).isSome = true ∧ g' = g ∧ k' = k then
        some v
      else PyDict.get? (PyDict.getD st.all_schedules g' []) k' := by
  unfold schedSet
  cases hm : PyDict.get? st.all_schedules g with
  | none => simp [hm]
  | some gd =>
    by_cases hg : g' = g
    · subst hg
      unfold PyDict.getD
      rw [PyDict.get?_set_self, hm]
      simp only [Option.getD_some, Option.isSome_some, true_and]
      by_cases hk : k' = k
      · subst hk
        simp [PyDict.get?_set_self]
      · simp [hk, PyDict.get?_set_ne gd k k' v hk]
    · unfold PyDict.getD
      rw [PyDict.get?_set_ne _ _ _ _ hg]
      simp [hg]

theorem get2_schedDel (st : St) (g : Nat) (k : HourId) (g' : Nat) (k' : HourId) :
    PyDict.get? (PyDict.getD (schedDel st g k).all_schedules g' []) k' =
      if g' = g ∧ k' = k then none
      else PyDict.get? (PyDict.getD st.all_schedules g' []) k' := by
  unfold schedDel
  cases hm : PyDict.get? st.all_schedules g with
  | none =>
    by_cases hg : g' = g
    · subst hg
      unfold PyDict.getD
      rw [hm]
      simp
    · simp [hg]
  | some gd =>
    by_cases hg : g' = g
    · subst hg
      unfold PyDict.getD
      rw [PyDict.get?_set_self, hm]
      simp only [Option.getD_some, true_and]
      by_cases hk : k' = k
      · subst hk
        simp [PyDict.get?_pop_self]
      · simp [hk, PyDict.get?_pop_ne gd k k' hk]
    · unfold PyDict.getD
      rw [PyDict.get?_set_ne _ _ _ _ hg]
      simp [hg]

theorem mem_foldl_discard {A : Type} [DecidableEq A] (slots : List A) :
    ∀ (used : PySet A) (x : A),
      x ∈ slots.foldl PySet.discard used ↔ (x ∈ used ∧ x ∉ slots) := by
  induction slots with
  | nil => simp
  | cons a as ih =>
    intro used x
    simp only [List.foldl_cons]
    rw [ih]
    unfold PySet.discard
    simp only [List.mem_filter, List.mem_cons, ne_eq, decide_not,
      Bool.not_eq_true', decide_eq_false_iff_not]
    constructor
    · rintro ⟨⟨hu, hne⟩, hnotin⟩
      exact ⟨hu, by simp [hne, hnotin]⟩
    · rintro ⟨hu, hno⟩
      simp only [not_or] at hno
      exact ⟨⟨hu, hno.1⟩, hno.2⟩

theorem get2_schedDelFold (g : Nat) (hours : List ConflictHour) :
    ∀ (st : St) (g' : Nat) (k' : HourId),
      PyDict.get?
          (PyDict.getD
            ((hours.foldl (fun s h => schedDel s g h.hour_id) st)).all_schedules
            g' []) k' =
        if g' = g ∧ k' ∈ hours.map (·.hour_id) then none
        else PyDict.get? (PyDict.getD st.all_schedules g' []) k' := by
  induction hours with
  | nil => simp
  | cons h0 hs ih =>
    intro st g' k'
    simp only [List.foldl_cons]
    rw [ih]
    by_cases hg : g' = g
    · subst hg
      by_cases hmem : k' ∈ hs.map (·.hour_id)
      · simp [hmem]
      · rw [get2_schedDel]
        by_cases hk : k' = h0.hour_id
        · simp [hmem, hk]
        · simp [hmem, hk]
    · simp [hg, get2_schedDel]

theorem presence_schedDelFold (g : Nat) (hours : List ConflictHour) :
    ∀ (st : St) (g' : Nat),
      (PyDict.get?
          ((hours.foldl (fun s h => schedDel s g h.hour_id) st)).all_schedules
          g').isSome =
        (PyDict.get? st.all_schedules g').isSome := by
  induction hours with
  | nil => intro st g'; rfl
  | cons h0 hs ih =>
    intro st g'
    simp only [List.foldl_cons]
    rw [ih, presence_schedDel]

theorem presence_schedSetValFold (g cid : Nat) (hours : List ConflictHour) :
    ∀ (st : St) (g' : Nat),
      (PyDict.get?
          ((hours.foldl
            (fun s h => schedSet s g h.hour_id (h.slot_id, h.room_id, cid))
            st)).all_schedules g').isSome =
        (PyDict.get? st.all_schedules g').isSome := by
  induction hours with
  | nil => intro st g'; rfl
  | cons h0 hs ih =>
    intro st g'
    simp only [List.foldl_cons]
    rw [ih, presence_schedSet]

theorem get2_schedSetValFold_not_mem (g cid : Nat) (hours : List ConflictHour) :
    ∀ (st : St) (g' : Nat) (k' : HourId),
      (g' ≠ g ∨ k' ∉ hours.map (·.hour_id)) →
      PyDict.get?
          (PyDict.getD
            ((hours.foldl
              (fun s h => schedSet s g h.hour_id (h.slot_id, h.room_id, cid))
              st)).all_schedules g' []) k' =
        PyDict.get? (PyDict.getD st.all_schedules g' []) k' := by
  induction hours with
  | nil => intro st g' k' _; rfl
  | cons h0 hs ih =>
    intro st g' k' hcond
    simp only [List.foldl_cons]
    have hcond2 : g' ≠ g ∨ k' ∉ hs.map (·.hour_id) := by
      rcases hcond with h | h
      · exact Or.inl h
      · simp only [List.map_cons, List.mem_cons, not_or] at h
        exact Or.inr h.2
    rw [ih _ _ _ hcond2, get2_schedSet]
    have : ¬ ((PyDict.get? st.all_schedules g).isSome = true ∧ g' = g ∧
        k' = h0.hour_id) := by
      rintro ⟨_, rfl, rfl⟩
      rcases hcond with h | h
      · exact h rfl
      · simp at h
    simp [this]

theorem get2_schedSetValFold_mem (g cid : Nat) (hours : List ConflictHour) :
    ∀ (st : St),
      (PyDict.get? st.all_schedules g).isSome = true →
      (hours.map (·.hour_id)).Nodup →
      ∀ h ∈ hours,
        PyDict.get?
            (PyDict.getD
              ((hours.foldl
                (fun s h => schedSet s g h.hour_id (h.slot_id, h.room_id, cid))
                st)).all_schedules g []) h.hour_id =
          some (h.slot_id, h.room_id, cid) := by
  induction hours with
  | nil => intro st _ _ h hh; cases hh
  | cons h0 hs ih =>
    intro st hpres hnodup h hh
    simp only [List.map_cons, List.nodup_cons] at hnodup
    simp only [List.foldl_cons]
    rcases List.mem_cons.mp hh with rfl | hmem
    · rw [get2_schedSetValFold_not_mem g cid hs _ _ _ (Or.inr hnodup.1),
        get2_schedSet]
      simp [hpres]
    · exact ih _ (by rw [presence_schedSet]; exact hpres) hnodup.2 h hmem

theorem unassign_prof_schedule (t : GroupScheduleTracker) (p g : Nat)
    (slots : List Nat) :
    (t.unassign p g slots).prof_schedule =
      (match PyDict.get? t.prof_schedule p with
       | none => t.prof_schedule
       | some m =>
         PyDict.set t.prof_schedule p (slots.foldl PyDict.pop m)) := by
  unfold GroupScheduleTracker.unassign
  cases h1 : PyDict.get? t.prof_schedule p <;>
    cases h2 : PyDict.get? t.group_schedule g <;>
    simp [h1, h2]

theorem unassign_group_schedule (t : GroupScheduleTracker) (p g : Nat)
    (slots : List Nat) :
    (t.unassign p g slots).group_schedule =
      (match PyDict.get? t.group_schedule g with
       | none => t.group_schedule
       | some m =>
         PyDict.set t.group_schedule g (slots.foldl PyDict.pop m)) := by
  unfold GroupScheduleTracker.unassign
  cases h1 : PyDict.get? t.prof_schedule p <;>
    cases h2 : PyDict.get? t.group_schedule g <;>
    simp [h1, h2]

/-- After `unassign` and a later `assign` of the same block (with the
original occupancy facts), every professor-slot lookup and the professor key
set are restored. -/
theorem profLookup_unassign_assign (t : GroupScheduleTracker) (p g c : Nat)
    (slots : List Nat)
    (hpres : (PyDict.get? t.prof_schedule p).isSome = true)
    (hvals : ∀ s ∈ slots, profLookup t p s = some g) :
    (∀ q s', profLookup ((t.unassign p g slots).assign p g slots c) q s' =
        profLookup t q s') ∧
      (∀ q, (PyDict.get?
          ((t.unassign p g slots).assign p g slots c).prof_schedule q).isSome =
        (PyDict.get? t.prof_schedule q).isSome) := by
  obtain ⟨m, hm⟩ := Option.isSome_iff_exists.mp hpres
  have hup : (t.unassign p g slots).prof_schedule =
      PyDict.set t.prof_schedule p (slots.foldl PyDict.pop m) := by
    rw [unassign_prof_schedule, hm]
  have hap : ((t.unassign p g slots).assign p g slots c).prof_schedule =
      PyDict.set (t.unassign p g slots).prof_schedule p
        (slots.foldl (fun m2 s => PyDict.set m2 s g)
          (PyDict.getD (t.unassign p g slots).prof_schedule p [])) := rfl
  constructor
  · intro q s'
    by_cases hq : q = p
    · subst hq
      unfold profLookup
      rw [hap, hup]
      simp only [PyDict.getD, PyDict.get?_set_self, Option.getD_some, hm]
      rw [get?_foldl_set, get?_foldl_pop]
      have hv : ∀ s ∈ slots, PyDict.get? m s = some g := by
        intro s hs
        have hv0 := hvals s hs
        unfold profLookup PyDict.getD at hv0
        rw [hm] at hv0
        simpa using hv0
      by_cases hs : s' ∈ slots
      · simp [hs, hv s' hs]
      · simp [hs]
    · unfold profLookup PyDict.getD
      rw [hap, hup, PyDict.get?_set_ne _ _ _ _ hq, PyDict.get?_set_ne _ _ _ _ hq]
  · intro q
    rw [hap, hup]
    by_cases hq : q = p
    · subst hq
      rw [PyDict.get?_set_self, hm]
      simp
    · rw [PyDict.get?_set_ne _ _ _ _ hq, PyDict.get?_set_ne _ _ _ _ hq]

/-- Group-side counterpart of `profLookup_unassign_assign`. -/
theorem groupLookup_unassign_assign (t : GroupScheduleTracker) (p g c : Nat)
    (slots : List Nat)
    (hpres : (PyDict.get? t.group_schedule g).isSome = true)
    (hvals : ∀ s ∈ slots, groupLookup t g s = some c) :
    (∀ q s', groupLookup ((t.unassign p g slots).assign p g slots c) q s' =
        groupLookup t q s') ∧
      (∀ q, (PyDict.get?
          ((t.unassign p g slots).assign p g slots c).group_schedule q).isSome =
        (PyDict.get? t.group_schedule q).isSome) := by
  obtain ⟨m, hm⟩ := Option.isSome_iff_exists.mp hpres
  have hug : (t.unassign p g slots).group_schedule =
      PyDict.set t.group_schedule g (slots.foldl PyDict.pop m) := by
    rw [unassign_group_schedule, hm]
  have hag : ((t.unassign p g slots).assign p g slots c).group_schedule =
      PyDict.set (t.unassign p g slots).group_schedule g
        (slots.foldl (fun m2 s => PyDict.set m2 s c)
          (PyDict.getD (t.unassign p g slots).group_schedule g [])) := rfl
  constructor
  · intro q s'
    by_cases hq : q = g
    · subst hq
      unfold groupLookup
      rw [hag, hug]
      simp only [PyDict.getD, PyDict.get?_set_self, Option.getD_some, hm]
      rw [get?_foldl_set, get?_foldl_pop]
      have hv : ∀ s ∈ slots, PyDict.get? m s = some c := by
        intro s hs
        have hv0 := hvals s hs
        unfold groupLookup PyDict.getD at hv0
        rw [hm] at hv0
        simpa using hv0
      by_cases hs : s' ∈ slots
      · simp [hs, hv s' hs]
      · simp [hs]
    · unfold groupLookup PyDict.getD
      rw [hag, hug, PyDict.get?_set_ne _ _ _ _ hq, PyDict.get?_set_ne _ _ _ _ hq]
  · intro q
    rw [hag, hug]
    by_cases hq : q = g
    · subst hq
      rw [PyDict.get?_set_self, hm]
      simp
    · rw [PyDict.get?_set_ne _ _ _ _ hq, PyDict.get?_set_ne _ _ _ _ hq]

/-- A failed relocation day loop only consumes randomness. -/
theorem relocDayLoop_false (course : Course) (group_id course_id duration : Nat)
    (data : SchedulingData) (is_english : Bool) (fixed_hour : Option String) :
    ∀ (days : List String) (st st' : St),
      relocDayLoop course group_id course_id duration data is_english
          fixed_hour days st = (false, st') →
      st'.all_schedules = st.all_schedules ∧ st'.tracker = st.tracker ∧
        st'.room_usage = st.room_usage := by
  intro days
  induction days with
  | nil =>
    intro st st' h
    rw [relocDayLoop] at h
    cases h
    exact ⟨rfl, rfl, rfl⟩
  | cons day rest ih =>
    intro st st' h
    rw [relocDayLoop] at h
    by_cases hskip : course.max_block_duration = 1 ∧
        day ∈ st.tracker.get_used_days_for_course group_id course_id
    · rw [if_pos hskip] at h
      exact ih st st' h
    · rw [if_neg hskip] at h
      by_cases hempty : (find_all_valid_positions course group_id duration day
          data st is_english fixed_hour).isEmpty = true
      · rw [if_pos hempty] at h
        exact ih st st' h
      · rw [if_neg hempty] at h
        cases hchoice : pyChoice (find_all_valid_positions course group_id
            duration day data st is_english fixed_hour) st.rng with
        | mk posOpt rng1 =>
          rw [hchoice] at h
          cases posOpt with
          | none =>
            simp only at h
            obtain ⟨h1, h2, h3⟩ := ih _ st' h
            exact ⟨h1, h2, h3⟩
          | some pos => simp at h

theorem StEquiv_refl (st : St) : StEquiv st st := by
  refine ⟨fun k1 => ⟨rfl, fun k2 => rfl⟩, fun k1 => ⟨rfl, fun k2 => rfl⟩,
    fun k1 => ⟨rfl, fun k2 => rfl⟩, rfl, fun k => ⟨rfl, fun x => Iff.rfl⟩,
    fun k => ⟨rfl, fun x => Iff.rfl⟩⟩

theorem remove_day_prof_schedule (t : GroupScheduleTracker) (g c : Nat)
    (d : String) :
    (t.remove_day_for_course g c d).prof_schedule = t.prof_schedule := by
  unfold GroupScheduleTracker.remove_day_for_course
  split <;> rfl

theorem remove_day_group_schedule (t : GroupScheduleTracker) (g c : Nat)
    (d : String) :
    (t.remove_day_for_course g c d).group_schedule = t.group_schedule := by
  unfold GroupScheduleTracker.remove_day_for_course
  split <;> rfl

theorem remove_day_course_fixed_hour (t : GroupScheduleTracker) (g c : Nat)
    (d : String) :
    (t.remove_day_for_course g c d).course_fixed_hour = t.course_fixed_hour := by
  unfold GroupScheduleTracker.remove_day_for_course
  split <;> rfl

theorem dayFlagRemove_all_schedules (course : Course) (g c : Nat)
    (od : Option String) (st : St) :
    (dayFlagRemove course g c od st).all_schedules = st.all_schedules := by
  unfold dayFlagRemove
  cases od with
  | none => rfl
  | some d =>
    dsimp only
    split <;> rfl

theorem dayFlagRemove_room_usage (course : Course) (g c : Nat)
    (od : Option String) (st : St) :
    (dayFlagRemove course g c od st).room_usage = st.room_usage := by
  unfold dayFlagRemove
  cases od with
  | none => rfl
  | some d =>
    dsimp only
    split <;> rfl

theorem dayFlagRemove_prof_schedule (course : Course) (g c : Nat)
    (od : Option String) (st : St) :
    (dayFlagRemove course g c od st).tracker.prof_schedule =
      st.tracker.prof_schedule := by
  unfold dayFlagRemove
  cases od with
  | none => rfl
  | some d =>
    dsimp only
    split
    · exact remove_day_prof_schedule _ _ _ _
    · rfl

theorem dayFlagRemove_group_schedule (course : Course) (g c : Nat)
    (od : Option String) (st : St) :
    (dayFlagRemove course g c od st).tracker.group_schedule =
      st.tracker.group_schedule := by
  unfold dayFlagRemove
  cases od with
  | none => rfl
  | some d =>
    dsimp only
    split
    · exact remove_day_group_schedule _ _ _ _
    · rfl

theorem dayFlagRemove_course_fixed_hour (course : Course) (g c : Nat)
    (od : Option String) (st : St) :
    (dayFlagRemove course g c od st).tracker.course_fixed_hour =
      st.tracker.course_fixed_hour := by
  unfold dayFlagRemove
  cases od with
  | none => rfl
  | some d =>
    dsimp only
    split
    · exact remove_day_course_fixed_hour _ _ _ _
    · rfl

theorem dayFlagAdd_all_schedules (course : Course) (g c : Nat)
    (od : Option String) (st : St) :
    (dayFlagAdd course g c od st).all_schedules = st.all_schedules := by
  unfold dayFlagAdd
  cases od with
  | none => rfl
  | some d =>
    dsimp only
    split <;> rfl

theorem dayFlagAdd_room_usage (course : Course) (g c : Nat)
    (od : Option String) (st : St) :
    (dayFlagAdd course g c od st).room_usage = st.room_usage := by
  unfold dayFlagAdd
  cases od with
  | none => rfl
  | some d =>
    dsimp only
    split <;> rfl

theorem dayFlagAdd_prof_schedule (course : Course) (g c : Nat)
    (od : Option String) (st : St) :
    (dayFlagAdd course g c od st).tracker.prof_schedule =
      st.tracker.prof_schedule := by
  unfold dayFlagAdd
  cases od with
  | none => rfl
  | some d =>
    dsimp only
    split <;> rfl

theorem dayFlagAdd_group_schedule (course : Course) (g c : Nat)
    (od : Option String) (st : St) :
    (dayFlagAdd course g c od st).tracker.group_schedule =
      st.tracker.group_schedule := by
  unfold dayFlagAdd
  cases od with
  | none => rfl
  | some d =>
    dsimp only
    split <;> rfl

theorem dayFlagAdd_course_fixed_hour (course : Course) (g c : Nat)
    (od : Option String) (st : St) :
    (dayFlagAdd course g c od st).tracker.course_fixed_hour =
      st.tracker.course_fixed_hour := by
  unfold dayFlagAdd
  cases od with
  | none => rfl
  | some d =>
    dsimp only
    split <;> rfl

theorem unmark_room_used_room (st : St) (r : Nat) (slots : List Nat) :
    (unmark_room_used st r slots).room_usage =
      (match PyDict.get? st.room_usage r with
       | none => st.room_usage
       | some used =>
         PyDict.set st.room_usage r (slots.foldl PySet.discard used)) := by
  unfold unmark_room_used
  cases h : PyDict.get? st.room_usage r <;> simp [h]

theorem roomDict_restore (ru : PyDict Nat (PySet Nat)) (r : Nat)
    (slots : List Nat) (used : PySet Nat) (hm : PyDict.get? ru r = some used)
    (hmem : ∀ x ∈ slots, x ∈ used) :
    dictSetEquiv
      (PyDict.set ru r (PySet.addAll (slots.foldl PySet.discard used) slots))
      ru := by
  intro k
  by_cases hk : k = r
  · subst hk
    constructor
    · rw [PyDict.get?_set_self, hm]
      rfl
    · intro x
      unfold PyDict.getD
      rw [PyDict.get?_set_self, hm]
      simp only [Option.getD_some]
      rw [show PySet.addAll (slots.foldl PySet.discard used) slots =
        slots.foldl PySet.add (slots.foldl PySet.discard used) from rfl]
      rw [show (slots.foldl PySet.add (slots.foldl PySet.discard used)) =
        PySet.addAll (slots.foldl PySet.discard used) slots from rfl]
      rw [PySet.mem_addAll, mem_foldl_discard]
      constructor
      · rintro (⟨hu, _⟩ | hin)
        · exact hu
        · exact hmem x hin
      · intro hu
        by_cases hin : x ∈ slots
        · exact Or.inr hin
        · exact Or.inl ⟨hu, hin⟩
  · constructor
    · rw [PyDict.get?_set_ne _ _ _ _ hk]
    · intro x
      unfold PyDict.getD
      rw [PyDict.get?_set_ne _ _ _ _ hk]

theorem daysDict_restore {K : Type} [DecidableEq K]
    (dd : PyDict K (PySet String)) (key : K) (d : String) (ds : PySet String)
    (hm : PyDict.get? dd key = some ds) (hd : d ∈ ds) :
    dictSetEquiv (PyDict.set dd key (PySet.add (PySet.discard ds d) d)) dd := by
  intro k
  by_cases hk : k = key
  · subst hk
    constructor
    · rw [PyDict.get?_set_self, hm]
      rfl
    · intro x
      unfold PyDict.getD
      rw [PyDict.get?_set_self, hm]
      simp only [Option.getD_some]
      rw [PySet.mem_add]
      unfold PySet.discard
      simp only [List.mem_filter, ne_eq, decide_not, Bool.not_eq_true',
        decide_eq_false_iff_not]
      constructor
      · rintro (⟨hx, _⟩ | rfl)
        · exact hx
        · exact hd
      · intro hx
        by_cases hxd : x = d
        · exact Or.inr hxd
        · exact Or.inl ⟨hx, hxd⟩
  · constructor
    · rw [PyDict.get?_set_ne _ _ _ _ hk]
    · intro x
      unfold PyDict.getD
      rw [PyDict.get?_set_ne _ _ _ _ hk]

theorem assign_prof_schedule_eq (t : GroupScheduleTracker) (p g : Nat)
    (slots : List Nat) (c : Nat) :
    (t.assign p g slots c).prof_schedule =
      PyDict.set t.prof_schedule p
        (slots.foldl (fun m x => PyDict.set m x g)
          (PyDict.getD t.prof_schedule p [])) := rfl

theorem assign_group_schedule_eq (t : GroupScheduleTracker) (p g : Nat)
    (slots : List Nat) (c : Nat) :
    (t.assign p g slots c).group_schedule =
      PyDict.set t.group_schedule g
        (slots.foldl (fun m x => PyDict.set m x c)
          (PyDict.getD t.group_schedule g [])) := rfl

theorem trbRemove_all_schedules (conflict : Conflict) (course : Course)
    (prof_id : Nat) (data : SchedulingData) (st : St) :
    (trbRemove conflict course prof_id data st).all_schedules =
      ((conflict.hours.foldl
        (fun s h => schedDel s conflict.group_id h.hour_id) st)).all_schedules := by
  unfold trbRemove
  rw [dayFlagRemove_all_schedules, unmark_room_used_all_schedules]

theorem trbRemove_prof_schedule (conflict : Conflict) (course : Course)
    (prof_id : Nat) (data : SchedulingData) (st : St) :
    (trbRemove conflict course prof_id data st).tracker.prof_schedule =
      (st.tracker.unassign prof_id conflict.group_id
        (conflict.hours.map (·.slot_id))).prof_schedule := by
  unfold trbRemove
  rw [dayFlagRemove_prof_schedule]
  rw [show (unmark_room_used _ _ _).tracker = _ from unmark_room_used_tracker _ _ _]
  have hfold := foldlSt_proj
    (fun s h => schedDel s conflict.group_id h.hour_id) St.tracker
    (fun st2 a => schedDel_tracker st2 conflict.group_id a.hour_id)
    conflict.hours st
  simp only [hfold]

theorem trbRemove_group_schedule (conflict : Conflict) (course : Course)
    (prof_id : Nat) (data : SchedulingData) (st : St) :
    (trbRemove conflict course prof_id data st).tracker.group_schedule =
      (st.tracker.unassign prof_id conflict.group_id
        (conflict.hours.map (·.slot_id))).group_schedule := by
  unfold trbRemove
  rw [dayFlagRemove_group_schedule]
  rw [show (unmark_room_used _ _ _).tracker = _ from unmark_room_used_tracker _ _ _]
  have hfold := foldlSt_proj
    (fun s h => schedDel s conflict.group_id h.hour_id) St.tracker
    (fun st2 a => schedDel_tracker st2 conflict.group_id a.hour_id)
    conflict.hours st
  simp only [hfold]

theorem trbRemove_course_fixed_hour (conflict : Conflict) (course : Course)
    (prof_id : Nat) (data : SchedulingData) (st : St) :
    (trbRemove conflict course prof_id data st).tracker.course_fixed_hour =
      st.tracker.course_fixed_hour := by
  unfold trbRemove
  rw [dayFlagRemove_course_fixed_hour]
  rw [show (unmark_room_used _ _ _).tracker = _ from unmark_room_used_tracker _ _ _]
  have hfold := foldlSt_proj
    (fun s h => schedDel s conflict.group_id h.hour_id) St.tracker
    (fun st2 a => schedDel_tracker st2 conflict.group_id a.hour_id)
    conflict.hours st
  simp only [unassign_course_fixed_hour, hfold]

theorem trbRemove_room_usage (conflict : Conflict) (course : Course)
    (prof_id : Nat) (data : SchedulingData) (st : St) :
    (trbRemove conflict course prof_id data st).room_usage =
      (match PyDict.get? st.room_usage
          ((conflict.hours.headD dummyConflictHour).room_id) with
       | none => st.room_usage
       | some used =>
         PyDict.set st.room_usage
           ((conflict.hours.headD dummyConflictHour).room_id)
           ((conflict.hours.map (·.slot_id)).foldl PySet.discard used)) := by
  unfold trbRemove
  rw [dayFlagRemove_room_usage, unmark_room_used_room]
  have hfold := foldlSt_proj
    (fun s h => schedDel s conflict.group_id h.hour_id) St.room_usage
    (fun st2 a => schedDel_room_usage st2 conflict.group_id a.hour_id)
    conflict.hours st
  simp only [hfold]

theorem remove_day_days_congr (t1 t2 : GroupScheduleTracker) (g c : Nat)
    (d : String) (h : t1.group_course_days = t2.group_course_days) :
    (t1.remove_day_for_course g c d).group_course_days =
      (t2.remove_day_for_course g c d).group_course_days := by
  unfold GroupScheduleTracker.remove_day_for_course
  rw [h]
  cases PyDict.get? t2.group_course_days (g, c) <;> simp [h]

theorem add_day_days_congr (t1 t2 : GroupScheduleTracker) (g c : Nat)
    (d : String) (h : t1.group_course_days = t2.group_course_days) :
    (t1.add_day_for_course g c d).group_course_days =
      (t2.add_day_for_course g c d).group_course_days := by
  unfold GroupScheduleTracker.add_day_for_course
  dsimp only
  rw [h]

theorem remove_day_days_eq (t : GroupScheduleTracker) (g c : Nat) (d : String)
    (ds : PySet String)
    (hm : PyDict.get? t.group_course_days (g, c) = some ds) :
    (t.remove_day_for_course g c d).group_course_days =
      PyDict.set t.group_course_days (g, c) (PySet.discard ds d) := by
  unfold GroupScheduleTracker.remove_day_for_course
  rw [hm]

theorem add_day_days_eq (t : GroupScheduleTracker) (g c : Nat) (d : String) :
    (t.add_day_for_course g c d).group_course_days =
      PyDict.set t.group_course_days (g, c)
        (PySet.add (PyDict.getD t.group_course_days (g, c) []) d) := rfl

theorem assign_days_eq (t : GroupScheduleTracker) (p g : Nat)
    (slots : List Nat) (c : Nat) :
    (t.assign p g slots c).group_course_days = t.group_course_days := rfl

theorem assign_fixed_eq (t : GroupScheduleTracker) (p g : Nat)
    (slots : List Nat) (c : Nat) :
    (t.assign p g slots c).course_fixed_hour = t.course_fixed_hour := rfl

theorem dayFlagRemove_days_eq (course : Course) (g c : Nat)
    (od : Option String) (st : St) :
    (dayFlagRemove course g c od st).tracker.group_course_days =
      (match od with
       | none => st.tracker.group_course_days
       | some d =>
         if ¬ (d = "") ∧ course.max_block_duration = 1 then
           (st.tracker.remove_day_for_course g c d).group_course_days
         else st.tracker.group_course_days) := by
  unfold dayFlagRemove
  cases od with
  | none => rfl
  | some d =>
    dsimp only
    split <;> rfl

theorem dayFlagAdd_days_eq (course : Course) (g c : Nat) (od : Option String)
    (st : St) :
    (dayFlagAdd course g c od st).tracker.group_course_days =
      (match od with
       | none => st.tracker.group_course_days
       | some d =>
         if ¬ (d = "") ∧ course.max_block_duration = 1 then
           (st.tracker.add_day_for_course g c d).group_course_days
         else st.tracker.group_course_days) := by
  unfold dayFlagAdd
  cases od with
  | none => rfl
  | some d =>
    dsimp only
    split <;> rfl

theorem trbRemove_days_eq (conflict : Conflict) (course : Course)
    (prof_id : Nat) (data : SchedulingData) (st : St) :
    (trbRemove conflict course prof_id data st).tracker.group_course_days =
      (match trbOldDay conflict data with
       | none => st.tracker.group_course_days
       | some d =>
         if ¬ (d = "") ∧ course.max_block_duration = 1 then
           (st.tracker.remove_day_for_course conflict.group_id
             conflict.course_id d).group_course_days
         else st.tracker.group_course_days) := by
  unfold trbRemove
  rw [dayFlagRemove_days_eq]
  rw [show (unmark_room_used _ _ _).tracker = _ from unmark_room_used_tracker _ _ _]
  have hfold := foldlSt_proj
    (fun s h => schedDel s conflict.group_id h.hour_id) St.tracker
    (fun st2 a => schedDel_tracker st2 conflict.group_id a.hour_id)
    conflict.hours st
  cases hod : trbOldDay conflict data with
  | none => simp only [hfold, unassign_group_course_days]
  | some d =>
    dsimp only
    split
    · simp only [hfold]
      exact remove_day_days_congr _ _ _ _ _ (unassign_group_course_days _ _ _ _)
    · simp only [hfold, unassign_group_course_days]

theorem trbRestore_all_schedules (conflict : Conflict) (course : Course)
    (prof_id : Nat) (data : SchedulingData) (st : St) :
    (trbRestore conflict course prof_id data st).all_schedules =
      ((conflict.hours.foldl
        (fun s h =>
          schedSet s conflict.group_id h.hour_id
            (h.slot_id, h.room_id, conflict.course_id)) st)).all_schedules := by
  unfold trbRestore
  rw [dayFlagAdd_all_schedules, mark_room_used_all_schedules]

theorem trbRestore_prof_schedule (conflict : Conflict) (course : Course)
    (prof_id : Nat) (data : SchedulingData) (st : St) :
    (trbRestore conflict course prof_id data st).tracker.prof_schedule =
      (st.tracker.assign prof_id conflict.group_id
        (conflict.hours.map (·.slot_id)) conflict.course_id).prof_schedule := by
  unfold trbRestore
  rw [dayFlagAdd_prof_schedule]
  rw [show (mark_room_used _ _ _).tracker = _ from mark_room_used_tracker _ _ _]
  have hfold := foldlSt_proj
    (fun s h =>
      schedSet s conflict.group_id h.hour_id
        (h.slot_id, h.room_id, conflict.course_id)) St.tracker
    (fun st2 a => schedSet_tracker st2 conflict.group_id a.hour_id _)
    conflict.hours st
  simp only [assign_prof_schedule_eq, hfold]

theorem trbRestore_group_schedule (conflict : Conflict) (course : Course)
    (prof_id : Nat) (data : SchedulingData) (st : St) :
    (trbRestore conflict course prof_id data st).tracker.group_schedule =
      (st.tracker.assign prof_id conflict.group_id
        (conflict.hours.map (·.slot_id)) conflict.course_id).group_schedule := by
  unfold trbRestore
  rw [dayFlagAdd_group_schedule]
  rw [show (mark_room_used _ _ _).tracker = _ from mark_room_used_tracker _ _ _]
  have hfold := foldlSt_proj
    (fun s h =>
      schedSet s conflict.group_id h.hour_id
        (h.slot_id, h.room_id, conflict.course_id)) St.tracker
    (fun st2 a => schedSet_tracker st2 conflict.group_id a.hour_id _)
    conflict.hours st
  simp only [assign_group_schedule_eq, hfold]

theorem trbRestore_course_fixed_hour (conflict : Conflict) (course : Course)
    (prof_id : Nat) (data : SchedulingData) (st : St) :
    (trbRestore conflict course prof_id data st).tracker.course_fixed_hour =
      st.tracker.course_fixed_hour := by
  unfold trbRestore
  rw [dayFlagAdd_course_fixed_hour]
  rw [show (mark_room_used _ _ _).tracker = _ from mark_room_used_tracker _ _ _]
  have hfold := foldlSt_proj
    (fun s h =>
      schedSet s conflict.group_id h.hour_id
        (h.slot_id, h.room_id, conflict.course_id)) St.tracker
    (fun st2 a => schedSet_tracker st2 conflict.group_id a.hour_id _)
    conflict.hours st
  simp only [assign_fixed_eq, hfold]

theorem trbRestore_days_eq (conflict : Conflict) (course : Course)
    (prof_id : Nat) (data : SchedulingData) (st : St) :
    (trbRestore conflict course prof_id data st).tracker.group_course_days =
      (match trbOldDay conflict data with
       | none => st.tracker.group_course_days
       | some d =>
         if ¬ (d = "") ∧ course.max_block_duration = 1 then
           (st.tracker.add_day_for_course conflict.group_id
             conflict.course_id d).group_course_days
         else st.tracker.group_course_days) := by
  unfold trbRestore
  rw [dayFlagAdd_days_eq]
  rw [show (mark_room_used _ _ _).tracker = _ from mark_room_used_tracker _ _ _]
  have hfold := foldlSt_proj
    (fun s h =>
      schedSet s conflict.group_id h.hour_id
        (h.slot_id, h.room_id, conflict.course_id)) St.tracker
    (fun st2 a => schedSet_tracker st2 conflict.group_id a.hour_id _)
    conflict.hours st
  cases hod : trbOldDay conflict data with
  | none => simp only [hfold, assign_days_eq]
  | some d =>
    dsimp only
    split
    · simp only [hfold]
      exact add_day_days_congr _ _ _ _ _ (assign_days_eq _ _ _ _ _)
    · simp only [hfold, assign_days_eq]

theorem trbRestore_room_usage (conflict : Conflict) (course : Course)
    (prof_id : Nat) (data : SchedulingData) (st : St) :
    (trbRestore conflict course prof_id data st).room_usage =
      PyDict.set st.room_usage
        ((conflict.hours.headD dummyConflictHour).room_id)
        (PySet.addAll
          (PyDict.getD st.room_usage
            ((conflict.hours.headD dummyConflictHour).room_id) [])
          (conflict.hours.map (·.slot_id))) := by
  unfold trbRestore
  rw [dayFlagAdd_room_usage]
  have hfold := foldlSt_proj
    (fun s h =>
      schedSet s conflict.group_id h.hour_id
        (h.slot_id, h.room_id, conflict.course_id)) St.room_usage
    (fun st2 a => schedSet_room_usage st2 conflict.group_id a.hour_id _)
    conflict.hours st
  show PyDict.set _ _ _ = _
  simp only [hfold]

theorem dictSetEquiv_of_eq {K A : Type} [DecidableEq K] [DecidableEq A]
    {a b : PyDict K (PySet A)} (h : a = b) : dictSetEquiv a b := by
  subst h
  exact fun k => ⟨rfl, fun x => Iff.rfl⟩

theorem day_order_nodup : day_order.Nodup := by decide

theorem gcds_mem_spec (days_list : List String) (n : Nat) :
    ∀ seq ∈ get_consecutive_day_sequences days_list n,
      seq.length = n ∧ seq.Nodup ∧
        pairwiseConsecutive (seq.map (fun d => day_order.indexOf d)) = true := by
  intro seq hseq
  simp only [get_consecutive_day_sequences] at hseq
  obtain ⟨i, hi, hsome⟩ := List.mem_filterMap.mp hseq
  split at hsome
  · rename_i hpc
    injection hsome with hs
    subst hs
    have hlen : ((day_order.filter (fun d => decide (d ∈ days_list))).drop
        i).length =
        (day_order.filter (fun d => decide (d ∈ days_list))).length - i :=
      List.length_drop _ _
    refine ⟨?_, ?_, hpc⟩
    · have hrange := List.mem_range.mp hi
      rw [List.length_take, hlen]
      omega
    · have hsub : (((day_order.filter
          (fun d => decide (d ∈ days_list))).drop i).take n).Sublist
          (day_order.filter (fun d => decide (d ∈ days_list))) :=
        (List.take_sublist _ _).trans (List.drop_sublist _ _)
      exact hsub.nodup (List.Nodup.filter _ day_order_nodup)
  · exact absurd hsome (by simp)

theorem engCheckSeq_spec (data : SchedulingData) (st : St)
    (prof room gid : Nat) (hour : String) :
    ∀ (days : List String) (acc ps : List EngPos),
      engCheckSeq data st prof room gid hour days acc = some ps →
      ∃ sfx, ps = acc ++ sfx ∧ sfx.map (fun p => p.day) = days ∧
        ∀ p ∈ sfx, p.slot.start_time = hour ∧
          p.slot ∈ PyDict.getD data.slots_by_day p.day [] ∧
          p.slot_ids = [p.slot.id] ∧ p.hour = hour := by
  intro days
  induction days with
  | nil =>
    intro acc ps h
    rw [engCheckSeq] at h
    injection h with h
    refine ⟨[], by simp [h], rfl, by intro p hp; cases hp⟩
  | cons day rest ih =>
    intro acc ps h
    rw [engCheckSeq] at h
    cases hf : findSlotAtHour (PyDict.getD data.slots_by_day day []) hour with
    | none => rw [hf] at h; simp at h
    | some slot =>
      rw [hf] at h
      dsimp only at h
      split at h
      · obtain ⟨sfx, hps, hmap, hprops⟩ := ih _ _ h
        have hf' : (PyDict.getD data.slots_by_day day []).find?
            (fun s => decide (s.start_time = hour)) = some slot := hf
        refine ⟨⟨day, slot, [slot.id], hour⟩ :: sfx, ?_, ?_, ?_⟩
        · rw [hps]
          simp
        · simp [hmap]
        · intro p hp
          rcases List.mem_cons.mp hp with rfl | hmem
          · refine ⟨?_, List.mem_of_find?_eq_some hf', rfl, rfl⟩
            simpa using List.find?_some hf'
          · exact hprops p hmem
      · simp at h

theorem engRecheckSeq_spec (st : St) (prof room gid : Nat)
    (data : SchedulingData) (hour : String) :
    ∀ (days : List String) (acc ps : List EngPos),
      engRecheckSeq st prof room gid data hour days acc = some ps →
      ∃ sfx, ps = acc ++ sfx ∧ sfx.map (fun p => p.day) = days ∧
        ∀ p ∈ sfx, p.slot.start_time = hour ∧
          p.slot ∈ PyDict.getD data.slots_by_day p.day [] ∧
          p.slot_ids = [p.slot.id] ∧ p.hour = hour := by
  intro days
  induction days with
  | nil =>
    intro acc ps h
    rw [engRecheckSeq] at h
    injection h with h
    refine ⟨[], by simp [h], rfl, by intro p hp; cases hp⟩
  | cons day rest ih =>
    intro acc ps h
    rw [engRecheckSeq] at h
    cases hf : findSlotAtHour (PyDict.getD data.slots_by_day day []) hour with
    | none => rw [hf] at h; simp at h
    | some slot =>
      rw [hf] at h
      dsimp only at h
      split at h
      · obtain ⟨sfx, hps, hmap, hprops⟩ := ih _ _ h
        have hf' : (PyDict.getD data.slots_by_day day []).find?
            (fun s => decide (s.start_time = hour)) = some slot := hf
        refine ⟨⟨day, slot, [slot.id], hour⟩ :: sfx, ?_, ?_, ?_⟩
        · rw [hps]
          simp
        · simp [hmap]
        · intro p hp
          rcases List.mem_cons.mp hp with rfl | hmem
          · refine ⟨?_, List.mem_of_find?_eq_some hf', rfl, rfl⟩
            simpa using List.find?_some hf'
          · exact hprops p hmem
      · simp at h

theorem engStep_get2 (course : Course) (g p r : Nat) (s : St)
    (ip : Nat × EngPos) (g' : Nat) (k' : HourId) :
    PyDict.get? (PyDict.getD (engStep course g p r s ip).all_schedules g' [])
        k' =
      if (PyDict.get? s.all_schedules g).isSome = true ∧ g' = g ∧
          k' = (g, course.id, ip.1 + 1, 0) then
        some (ip.2.slot.id, r, course.id)
      else PyDict.get? (PyDict.getD s.all_schedules g' []) k' := by
  have h : (engStep course g p r s ip).all_schedules =
      (schedSet s g (g, course.id, ip.1 + 1, 0)
        (ip.2.slot.id, r, course.id)).all_schedules := rfl
  rw [h]
  exact get2_schedSet s g _ _ g' k'

theorem engStep_presence (course : Course) (g p r : Nat) (s : St)
    (ip : Nat × EngPos) (g' : Nat) :
    (PyDict.get? (engStep course g p r s ip).all_schedules g').isSome =
      (PyDict.get? s.all_schedules g').isSome := by
  have h : (engStep course g p r s ip).all_schedules =
      (schedSet s g (g, course.id, ip.1 + 1, 0)
        (ip.2.slot.id, r, course.id)).all_schedules := rfl
  rw [h]
  exact presence_schedSet s g _ _ g'

theorem engFold_presence (course : Course) (g p r : Nat)
    (L : List (Nat × EngPos)) :
    ∀ (st : St) (g' : Nat),
      (PyDict.get?
          ((L.foldl (engStep course g p r) st)).all_schedules g').isSome =
        (PyDict.get? st.all_schedules g').isSome := by
  induction L with
  | nil => intro st g'; rfl
  | cons ip L ih =>
    intro st g'
    simp only [List.foldl_cons]
    rw [ih, engStep_presence]

theorem engFold_get2_not_mem (course : Course) (g p r : Nat)
    (L : List (Nat × EngPos)) :
    ∀ (st : St) (g' : Nat) (k' : HourId),
      (g' ≠ g ∨ k' ∉ L.map (fun ip => (g, course.id, ip.1 + 1, (0 : Nat)))) →
      PyDict.get?
          (PyDict.getD
            ((L.foldl (engStep course g p r) st)).all_schedules g' []) k' =
        PyDict.get? (PyDict.getD st.all_schedules g' []) k' := by
  induction L with
  | nil => intro st g' k' _; rfl
  | cons ip L ih =>
    intro st g' k' hcond
    simp only [List.foldl_cons]
    have hcond2 : g' ≠ g ∨
        k' ∉ L.map (fun ip => (g, course.id, ip.1 + 1, (0 : Nat))) := by
      rcases hcond with h | h
      · exact Or.inl h
      · simp only [List.map_cons, List.mem_cons, not_or] at h
        exact Or.inr h.2
    rw [ih _ _ _ hcond2, engStep_get2]
    have : ¬ ((PyDict.get? st.all_schedules g).isSome = true ∧ g' = g ∧
        k' = (g, course.id, ip.1 + 1, 0)) := by
      rintro ⟨_, rfl, rfl⟩
      rcases hcond with h | h
      · exact h rfl
      · simp at h
    simp [this]

theorem engFold_get2_mem (course : Course) (g p r : Nat)
    (L : List (Nat × EngPos)) :
    ∀ (st : St),
      (PyDict.get? st.all_schedules g).isSome = true →
      (L.map (fun ip => (g, course.id, ip.1 + 1, (0 : Nat)))).Nodup →
      ∀ ip ∈ L,
        PyDict.get?
            (PyDict.getD
              ((L.foldl (engStep course g p r) st)).all_schedules g [])
            (g, course.id, ip.1 + 1, 0) =
          some (ip.2.slot.id, r, course.id) := by
  induction L with
  | nil => intro st _ _ ip hip; cases hip
  | cons ip0 L ih =>
    intro st hpres hnodup ip hip
    simp only [List.map_cons, List.nodup_cons] at hnodup
    simp only [List.foldl_cons]
    rcases List.mem_cons.mp hip with rfl | hmem
    · rw [engFold_get2_not_mem course g p r L _ _ _ (Or.inr hnodup.1),
        engStep_get2]
      simp [hpres]
    · exact ih _ (by rw [engStep_presence]; exact hpres) hnodup.2 ip hmem

theorem enum_keys_nodup (g c : Nat) (positions : List EngPos) :
    (positions.enum.map
      (fun ip => (g, c, ip.1 + 1, (0 : Nat)))).Nodup := by
  have h1 : positions.enum.map (fun ip => (g, c, ip.1 + 1, (0 : Nat))) =
      (positions.enum.map Prod.fst).map
        (fun i => (g, c, i + 1, (0 : Nat))) := by
    rw [List.map_map]
    rfl
  rw [h1, List.enum_map_fst]
  refine List.Nodup.map ?_ (List.nodup_range _)
  intro a b hab
  simp at hab
  omega

theorem engCommit_get2_mem (course : Course) (g p r : Nat)
    (positions : List EngPos) (hour : String) (fixed : Option String)
    (st : St) (hpres : (PyDict.get? st.all_schedules g).isSome = true) :
    ∀ ip ∈ positions.enum,
      PyDict.get?
          (PyDict.getD
            (engCommit course g p r positions hour fixed st).all_schedules
            g [])
          (g, course.id, ip.1 + 1, 0) =
        some (ip.2.slot.id, r, course.id) := by
  have hall : (engCommit course g p r positions hour fixed st).all_schedules =
      ((positions.enum.foldl (engStep course g p r) st)).all_schedules := by
    unfold engCommit
    split <;> rfl
  intro ip hip
  rw [hall]
  exact engFold_get2_mem course g p r positions.enum st hpres
    (enum_keys_nodup g course.id positions) ip hip

theorem shuffleGo_subset {A : Type} :
    ∀ (n : Nat) (l : List A) (r : List Nat) (x : A),
      x ∈ (shuffleGo n l r).1 → x ∈ l := by
  intro n
  induction n with
  | zero => intro l r x hx; simp [shuffleGo] at hx
  | succ n ih =>
    intro l r x hx
    cases l with
    | nil =>
      rw [shuffleGo.eq_def] at hx
      simp at hx
    | cons a as =>
      rw [shuffleGo.eq_def] at hx
      dsimp only at hx
      cases hr : rngNext r with
      | mk k r1 =>
        rw [hr] at hx
        dsimp only at hx
        cases hd : (a :: as).drop (k % (a :: as).length) with
        | nil => rw [hd] at hx; simp at hx
        | cons y ys =>
          rw [hd] at hx
          dsimp only at hx
          cases hs : shuffleGo n
              ((a :: as).take (k % (a :: as).length) ++
                (a :: as).drop (k % (a :: as).length + 1)) r1 with
          | mk res r2 =>
            rw [hs] at hx
            dsimp only at hx
            rcases List.mem_cons.mp hx with rfl | hmem
            · have hy : x ∈ (a :: as).drop (k % (a :: as).length) := by
                rw [hd]
                exact List.mem_cons_self _ _
              exact List.mem_of_mem_drop hy
            · have hmem' : x ∈ (a :: as).take (k % (a :: as).length) ++
                  (a :: as).drop (k % (a :: as).length + 1) :=
                ih _ r1 x (by rw [hs]; exact hmem)
              rcases List.mem_append.mp hmem' with h | h
              · exact List.take_subset _ _ h
              · exact List.drop_subset _ _ h

theorem pyShuffle_subset {A : Type} (l : List A) (r : List Nat) :
    ∀ x ∈ (pyShuffle l r).1, x ∈ l :=
  fun x hx => shuffleGo_subset _ _ _ _ hx

theorem engTryHours_true (course : Course) (gid prof room nb : Nat)
    (fixed : Option String) (data : SchedulingData) (seq : List String) :
    ∀ (hours : List String) (st st2 : St),
      engTryHours course gid prof room nb fixed data seq hours st =
        (true, st2) →
      ∃ hour positions stPre,
        engCheckSeq data stPre prof room gid hour seq [] = some positions ∧
        positions.length = nb ∧
        st2 = engCommit course gid prof room positions hour fixed stPre := by
  intro hours
  induction hours with
  | nil =>
    intro st st2 h
    rw [engTryHours] at h
    simp at h
  | cons hour hrest ih =>
    intro st st2 h
    rw [engTryHours] at h
    cases hc : engCheckSeq data st prof room gid hour seq [] with
    | some positions =>
      rw [hc] at h
      dsimp only at h
      split at h
      · rename_i hlen
        injection h with h1 h2
        exact ⟨hour, positions, st, hc, hlen, h2.symm⟩
      · exact ih _ _ h
    | none =>
      rw [hc] at h
      dsimp only at h
      exact ih _ _ h

theorem engPhase1_true (course : Course) (gid prof room nb : Nat)
    (fixed : Option String) (data : SchedulingData) :
    ∀ (seqs : List (List String)) (st : St) (hcur : List String) (st2 : St)
      (hrs : List String),
      engPhase1 course gid prof room nb fixed data seqs st hcur =
        (true, st2, hrs) →
      EngSuccessSpec course gid prof room nb fixed data seqs st2 := by
  intro seqs
  induction seqs with
  | nil =>
    intro st hcur st2 hrs h
    rw [engPhase1] at h
    simp at h
  | cons seq rest ih =>
    intro st hcur st2 hrs h
    rw [engPhase1] at h
    split at h
    · rename_i stX heq
      injection h with h1 h23
      injection h23 with h2a h2b
      obtain ⟨hour, positions, stPre, hc, hlen, hcommit⟩ :=
        engTryHours_true course gid prof room nb fixed data seq _ _ _ heq
      exact ⟨seq, List.mem_cons_self _ _, hour, positions, stPre, Or.inl hc,
        hlen, h2a ▸ hcommit⟩
    · rename_i stX heq
      obtain ⟨seq', hmem, hrest⟩ := ih _ _ _ _ h
      exact ⟨seq', List.mem_cons_of_mem _ hmem, hrest⟩

theorem engPhase2Hours_true (course : Course) (gid prof room nb : Nat)
    (fixed : Option String) (data : SchedulingData) (seq : List String) :
    ∀ (hours : List String) (st st2 : St),
      engPhase2Hours course gid prof room nb fixed data seq hours st =
        (true, st2) →
      ∃ hour positions stPre,
        engRecheckSeq stPre prof room gid data hour seq [] = some positions ∧
        positions.length = nb ∧
        st2 = engCommit course gid prof room positions hour fixed stPre := by
  intro hours
  induction hours with
  | nil =>
    intro st st2 h
    rw [engPhase2Hours] at h
    simp at h
  | cons hour hrest ih =>
    intro st st2 h
    rw [engPhase2Hours] at h
    split at h
    · split at h
      · rename_i st1 heq1
        cases hr : engRecheckSeq st1 prof room gid data hour seq [] with
        | some positions =>
          rw [hr] at h
          dsimp only at h
          split at h
          · rename_i hlen
            injection h with h1 h2
            exact ⟨hour, positions, st1, hr, hlen, h2.symm⟩
          · exact ih _ _ h
        | none =>
          rw [hr] at h
          dsimp only at h
          exact ih _ _ h
      · rename_i st1 heq1
        exact ih _ _ h
    · exact ih _ _ h

theorem engPhase2_true (course : Course) (gid prof room nb : Nat)
    (fixed : Option String) (data : SchedulingData) :
    ∀ (seqs : List (List String)) (hoursLeft : List String) (st st2 : St),
      engPhase2 course gid prof room nb fixed data seqs hoursLeft st =
        (true, st2) →
      EngSuccessSpec course gid prof room nb fixed data seqs st2 := by
  intro seqs
  induction seqs with
  | nil =>
    intro hoursLeft st st2 h
    rw [engPhase2] at h
    simp at h
  | cons seq rest ih =>
    intro hoursLeft st st2 h
    rw [engPhase2] at h
    split at h
    · rename_i st1 heq
      injection h with h1 h2
      obtain ⟨hour, positions, stPre, hr, hlen, hcommit⟩ :=
        engPhase2Hours_true course gid prof room nb fixed data seq _ _ _ heq
      exact ⟨seq, List.mem_cons_self _ _, hour, positions, stPre, Or.inr hr,
        hlen, h2 ▸ hcommit⟩
    · rename_i st1 heq
      obtain ⟨seq', hmem, hrest⟩ := ih _ _ _ h
      exact ⟨seq', List.mem_cons_of_mem _ hmem, hrest⟩

theorem engAttempts_true (course : Course) (gid prof room nb : Nat)
    (fixed : Option String) (data : SchedulingData)
    (seqs : List (List String)) :
    ∀ (fuel : Nat) (st st2 : St),
      engAttempts course gid prof room nb fixed data seqs fuel st =
        (true, st2) →
      EngSuccessSpec course gid prof room nb fixed data seqs st2 := by
  intro fuel
  induction fuel with
  | zero =>
    intro st st2 h
    rw [engAttempts] at h
    simp at h
  | succ n ih =>
    intro st st2 h
    rw [engAttempts] at h
    split at h
    · rename_i st1 x heq
      injection h with h1 h2
      exact h2 ▸ engPhase1_true course gid prof room nb fixed data seqs _ _ _ _
        heq
    · rename_i st1 hoursLeft heq
      split at h
      · rename_i stY heq2
        injection h with h1 h2
        exact h2 ▸ engPhase2_true course gid prof room nb fixed data seqs _ _ _
          heq2
      · exact ih _ _ h

theorem PyDict.mem_set {K V : Type} [DecidableEq K] :
    ∀ (d : PyDict K V) (key : K) (val : V) (kv : K × V),
      kv ∈ PyDict.set d key val → (kv.1 = key ∧ kv.2 = val) ∨ kv ∈ d := by
  intro d
  induction d with
  | nil =>
    intro key val kv h
    simp only [PyDict.set, List.mem_singleton] at h
    exact Or.inl ⟨by rw [h], by rw [h]⟩
  | cons kv0 rest ih =>
    intro key val kv h
    obtain ⟨k0, v0⟩ := kv0
    simp only [PyDict.set] at h
    split at h
    · rename_i heq
      rcases List.mem_cons.mp h with rfl | hm
      · exact Or.inl ⟨heq, rfl⟩
      · exact Or.inr (List.mem_cons_of_mem _ hm)
    · rcases List.mem_cons.mp h with rfl | hm
      · exact Or.inr (List.mem_cons_self _ _)
      · rcases ih key val kv hm with h' | h'
        · exact Or.inl h'
        · exact Or.inr (List.mem_cons_of_mem _ h')

theorem PyDict.mem_pop {K V : Type} [DecidableEq K] :
    ∀ (d : PyDict K V) (key : K) (kv : K × V),
      kv ∈ PyDict.pop d key → kv ∈ d := by
  intro d
  induction d with
  | nil => intro key kv h; simp [PyDict.pop] at h
  | cons kv0 rest ih =>
    intro key kv h
    obtain ⟨k0, v0⟩ := kv0
    simp only [PyDict.pop] at h
    split at h
    · exact List.mem_cons_of_mem _ (ih key kv h)
    · rcases List.mem_cons.mp h with rfl | hm
      · exact List.mem_cons_self _ _
      · exact List.mem_cons_of_mem _ (ih key kv hm)

theorem PyDict.mem_of_get? {K V : Type} [DecidableEq K] :
    ∀ (d : PyDict K V) (k : K) (v : V),
      PyDict.get? d k = some v → (k, v) ∈ d := by
  intro d
  induction d with
  | nil => intro k v h; simp [PyDict.get?] at h
  | cons kv0 rest ih =>
    intro k v h
    obtain ⟨k0, v0⟩ := kv0
    simp only [PyDict.get?] at h
    split at h
    · rename_i heq
      injection h with h
      subst heq
      subst h
      exact List.mem_cons_self _ _
    · exact List.mem_cons_of_mem _ (ih k v h)

theorem mem_foldl_setf {A K V : Type} [DecidableEq K] (key : A → K)
    (val : A → V) :
    ∀ (l : List A) (d : PyDict K V) (kv : K × V),
      kv ∈ l.foldl (fun d2 a => PyDict.set d2 (key a) (val a)) d →
        kv ∈ d ∨ ∃ a ∈ l, kv.1 = key a ∧ kv.2 = val a := by
  intro l
  induction l with
  | nil => intro d kv h; exact Or.inl h
  | cons a l ih =>
    intro d kv h
    simp only [List.foldl_cons] at h
    rcases ih _ kv h with h' | ⟨a', ha', h1, h2⟩
    · rcases PyDict.mem_set _ _ _ _ h' with ⟨h1, h2⟩ | h''
      · exact Or.inr ⟨a, List.mem_cons_self _ _, h1, h2⟩
      · exact Or.inl h''
    · exact Or.inr ⟨a', List.mem_cons_of_mem _ ha', h1, h2⟩

theorem dictById_get? {A : Type} (key : A → Nat) (l : List A) (k : Nat)
    (x : A) (h : PyDict.get? (dictById key l) k = some x) :
    key x = k ∧ x ∈ l := by
  have hmem := PyDict.mem_of_get? _ _ _ h
  unfold dictById at hmem
  rcases mem_foldl_setf key id l [] (k, x) hmem with h' | ⟨a, ha, h1, h2⟩
  · cases h'
  · simp only at h1 h2
    subst h2
    exact ⟨h1.symm, ha⟩

theorem schedSet_entry (st : St) (g : Nat) (k : HourId) (v : SchedEntry) :
    ∀ gkv ∈ (schedSet st g k v).all_schedules, ∀ kv ∈ gkv.2,
      (∃ gkv0 ∈ st.all_schedules, gkv0.1 = gkv.1 ∧ kv ∈ gkv0.2) ∨
        (gkv.1 = g ∧ kv = (k, v)) := by
  intro gkv hg kv hkv
  unfold schedSet at hg
  cases hm : PyDict.get? st.all_schedules g with
  | none =>
    rw [hm] at hg
    exact Or.inl ⟨gkv, hg, rfl, hkv⟩
  | some gd =>
    rw [hm] at hg
    dsimp only at hg
    rcases PyDict.mem_set _ _ _ _ hg with ⟨h1, h2⟩ | hin
    · rcases PyDict.mem_set _ _ _ _ (h2 ▸ hkv) with ⟨hk1, hk2⟩ | hkin
      · exact Or.inr ⟨h1, Prod.ext hk1 hk2⟩
      · refine Or.inl ⟨(g, gd), PyDict.mem_of_get? _ _ _ hm, ?_, hkin⟩
        rw [h1]
    · exact Or.inl ⟨gkv, hin, rfl, hkv⟩

theorem schedDel_entry (st : St) (g : Nat) (k : HourId) :
    ∀ gkv ∈ (schedDel st g k).all_schedules, ∀ kv ∈ gkv.2,
      ∃ gkv0 ∈ st.all_schedules, gkv0.1 = gkv.1 ∧ kv ∈ gkv0.2 := by
  intro gkv hg kv hkv
  unfold schedDel at hg
  cases hm : PyDict.get? st.all_schedules g with
  | none =>
    rw [hm] at hg
    exact ⟨gkv, hg, rfl, hkv⟩
  | some gd =>
    rw [hm] at hg
    dsimp only at hg
    rcases PyDict.mem_set _ _ _ _ hg with ⟨h1, h2⟩ | hin
    · refine ⟨(g, gd), PyDict.mem_of_get? _ _ _ hm, ?_, PyDict.mem_pop _ _ _ (h2 ▸ hkv)⟩
      rw [h1]
    · exact ⟨gkv, hin, rfl, hkv⟩

theorem foldl_entry {α : Type} (F : St → α → St) (g : Nat) (key : α → HourId)
    (val : α → SchedEntry)
    (hF : ∀ (s : St) (x : α), ∀ gkv ∈ (F s x).all_schedules, ∀ kv ∈ gkv.2,
      (∃ gkv0 ∈ s.all_schedules, gkv0.1 = gkv.1 ∧ kv ∈ gkv0.2) ∨
        (gkv.1 = g ∧ kv = (key x, val x))) :
    ∀ (L : List α) (st : St), ∀ gkv ∈ (L.foldl F st).all_schedules,
      ∀ kv ∈ gkv.2,
      (∃ gkv0 ∈ st.all_schedules, gkv0.1 = gkv.1 ∧ kv ∈ gkv0.2) ∨
        (gkv.1 = g ∧ ∃ x ∈ L, kv = (key x, val x)) := by
  intro L
  induction L with
  | nil => intro st gkv hg kv hkv; exact Or.inl ⟨gkv, hg, rfl, hkv⟩
  | cons x L ih =>
    intro st gkv hg kv hkv
    simp only [List.foldl_cons] at hg
    rcases ih (F st x) gkv hg kv hkv with ⟨gkv0, h0, h1, h2⟩ | ⟨h1, x', hx', h2⟩
    · rcases hF st x gkv0 h0 kv h2 with ⟨gkv1, h3, h4, h5⟩ | ⟨h3, h4⟩
      · exact Or.inl ⟨gkv1, h3, h4.trans h1, h5⟩
      · exact Or.inr ⟨h1 ▸ h3, x, List.mem_cons_self _ _, h4⟩
    · exact Or.inr ⟨h1, x', List.mem_cons_of_mem _ hx', h2⟩

theorem add_day_course_fixed_hour (t : GroupScheduleTracker) (g c : Nat)
    (d : String) :
    (t.add_day_for_course g c d).course_fixed_hour = t.course_fixed_hour := rfl

theorem set_fixed_course_fixed_hour (t : GroupScheduleTracker) (g c : Nat)
    (h : String) :
    (t.set_fixed_hour_for_course g c h).course_fixed_hour =
      PyDict.set t.course_fixed_hour (g, c) h := rfl

theorem get_fixed_eq (t : GroupScheduleTracker) (g c : Nat) :
    t.get_fixed_hour_for_course g c =
      PyDict.get? t.course_fixed_hour (g, c) := rfl

theorem PyDict.get?_mapval {K V W : Type} [DecidableEq K] (g : V → W) :
    ∀ (d : PyDict K V) (k : K),
      PyDict.get? (d.map (fun kv => (kv.1, g kv.2))) k =
        (PyDict.get? d k).map g := by
  intro d
  induction d with
  | nil => intro k; rfl
  | cons kv0 rest ih =>
    intro k
    obtain ⟨k0, v0⟩ := kv0
    simp only [List.map_cons, PyDict.get?]
    split <;> simp [ih]

theorem mem_stableInsert {A : Type} (lt : A → A → Bool) (x : A) :
    ∀ (l : List A) (y : A), y ∈ stableInsert lt x l → y = x ∨ y ∈ l := by
  intro l
  induction l with
  | nil =>
    intro y h
    simp [stableInsert] at h
    exact Or.inl h
  | cons a rest ih =>
    intro y h
    simp only [stableInsert] at h
    split at h
    · rcases List.mem_cons.mp h with rfl | hm
      · exact Or.inr (List.mem_cons_self _ _)
      · rcases ih y hm with h' | h'
        · exact Or.inl h'
        · exact Or.inr (List.mem_cons_of_mem _ h')
    · rcases List.mem_cons.mp h with rfl | hm
      · exact Or.inl rfl
      · exact Or.inr hm

theorem mem_stableSort {A : Type} (lt : A → A → Bool) :
    ∀ (l : List A) (y : A), y ∈ stableSort lt l → y ∈ l := by
  intro l
  induction l with
  | nil => intro y h; simp [stableSort] at h
  | cons a rest ih =>
    intro y h
    simp only [stableSort] at h
    rcases mem_stableInsert _ _ _ _ h with rfl | hm
    · exact List.mem_cons_self _ _
    · exact List.mem_cons_of_mem _ (ih y hm)

theorem byDay0_mem (valid : List TimeSlot) :
    ∀ (l : List TimeSlot) (acc : PyDict String (List TimeSlot)),
      (∀ (day : String) (t : TimeSlot), t ∈ PyDict.getD acc day [] → t ∈ valid) →
      (∀ t ∈ l, t ∈ valid) →
      ∀ (day : String) (t : TimeSlot),
        t ∈ PyDict.getD
          (l.foldl
            (fun d s => PyDict.set d s.day (PyDict.getD d s.day [] ++ [s]))
            acc) day [] →
        t ∈ valid := by
  intro l
  induction l with
  | nil => intro acc hacc _ day t ht; exact hacc day t ht
  | cons s l ih =>
    intro acc hacc hl day t ht
    simp only [List.foldl_cons] at ht
    have hacc2 : ∀ (day2 : String) (t2 : TimeSlot),
        t2 ∈ PyDict.getD
          (PyDict.set acc s.day (PyDict.getD acc s.day [] ++ [s])) day2 [] →
        t2 ∈ valid := by
      intro day2 t2 ht2
      by_cases hd : day2 = s.day
      · subst hd
        unfold PyDict.getD at ht2
        rw [PyDict.get?_set_self] at ht2
        simp only [Option.getD_some] at ht2
        rcases List.mem_append.mp ht2 with h' | h'
        · exact hacc _ t2 h'
        · rw [List.mem_singleton] at h'
          subst h'
          exact hl _ (List.mem_cons_self _ _)
      · unfold PyDict.getD at ht2
        rw [PyDict.get?_set_ne _ _ _ _ hd] at ht2
        exact hacc day2 t2 ht2
    exact ih _ hacc2 (fun t2 ht2 => hl t2 (List.mem_cons_of_mem _ ht2)) day t ht

theorem mkData_wf (courses : List Course) (rooms : List Room)
    (timeslots : List TimeSlot) (professors : List Professor)
    (assignments : List ProfessorCourseGroupAssignment)
    (professor_rooms : PyDict Nat Nat) :
    DataWf (mkData courses rooms timeslots professors assignments
      professor_rooms) := by
  constructor
  · intro day t ht
    have hm : PyDict.get?
        (mkData courses rooms timeslots professors assignments
          professor_rooms).slots_by_day day =
        (PyDict.get?
          ((timeslots.filter inValidWindow).foldl
            (fun d s => PyDict.set d s.day (PyDict.getD d s.day [] ++ [s]))
            []) day).map (stableSort (fun a b => a.id < b.id)) :=
      PyDict.get?_mapval _ _ _
    unfold PyDict.getD at ht
    rw [hm] at ht
    cases hb : PyDict.get?
        ((timeslots.filter inValidWindow).foldl
          (fun d s => PyDict.set d s.day (PyDict.getD d s.day [] ++ [s]))
          []) day with
    | none =>
      rw [hb] at ht
      exact absurd ht (List.not_mem_nil t)
    | some l =>
      rw [hb] at ht
      have hts : t ∈ stableSort (fun a b => a.id < b.id) l := ht
      have hl : t ∈ l := mem_stableSort _ _ _ hts
      have hgd : PyDict.getD
          ((timeslots.filter inValidWindow).foldl
            (fun d s => PyDict.set d s.day (PyDict.getD d s.day [] ++ [s]))
            []) day [] = l := by
        show (PyDict.get?
          ((timeslots.filter inValidWindow).foldl
            (fun d s => PyDict.set d s.day (PyDict.getD d s.day [] ++ [s]))
            []) day).getD [] = l
        rw [hb]
        rfl
      exact byDay0_mem (timeslots.filter inValidWindow) _ []
        (by intro d2 t2 h2; cases h2) (fun t2 h2 => h2) day t (by rw [hgd]; exact hl)
  · intro t ht
    have hw : inValidWindow t = true := List.of_mem_filter ht
    unfold inValidWindow at hw
    intro heq
    rw [heq] at hw
    rw [Bool.and_eq_true] at hw
    exact absurd hw.1 (by decide)

theorem pyChoice_mem {A : Type} (l : List A) (r : List Nat) (x : A)
    (h : (pyChoice l r).1 = some x) : x ∈ l := by
  unfold pyChoice at h
  cases hr : rngNext r with
  | mk k r1 =>
    rw [hr] at h
    dsimp only at h
    exact List.get?_mem h

theorem favp_mem (course : Course) (g dur : Nat) (day : String)
    (data : SchedulingData) (st : St) (eng : Bool) (fx : Option String) :
    ∀ pos ∈ find_all_valid_positions course g dur day data st eng fx,
      (∀ s ∈ pos.slots, s ∈ PyDict.getD data.slots_by_day day []) ∧
        pos.slot_ids = pos.slots.map (fun s => s.id) := by
  intro pos hpos
  unfold find_all_valid_positions at hpos
  dsimp only at hpos
  by_cases hp : data.get_professor_for_group_course g course.id = 0
  · rw [if_pos hp] at hpos
    cases hpos
  · rw [if_neg hp] at hpos
    by_cases hr : data.get_professor_room
        (data.get_professor_for_group_course g course.id) = 0
    · rw [if_pos hr] at hpos
      cases hpos
    · rw [if_neg hr] at hpos
      cases hms : PyDict.get? data.slots_by_day day with
      | none =>
        rw [hms] at hpos
        cases hpos
      | some day_slots =>
        rw [hms] at hpos
        obtain ⟨i, hi, heq⟩ := List.mem_filterMap.mp hpos
        split at heq
        · exact Option.noConfusion heq
        · split at heq
          · exact Option.noConfusion heq
          · split at heq
            · exact Option.noConfusion heq
            · split at heq
              · exact Option.noConfusion heq
              · split at heq
                · exact Option.noConfusion heq
                · split at heq
                  · exact Option.noConfusion heq
                  · injection heq with heq
                    subst heq
                    refine ⟨?_, rfl⟩
                    intro sl hs
                    unfold PyDict.getD
                    rw [hms]
                    exact List.drop_subset _ _ (List.take_subset _ _ hs)

theorem uniqueCourses_lookup (data : SchedulingData)
    (hById : ∀ (k : Nat) (x : Course),
      PyDict.get? data.courses k = some x → x.id = k) :
    ∀ (l : List ProfessorCourseGroupAssignment) (acc : PyDict Nat Course),
      (∀ kv ∈ acc, PyDict.get? data.courses kv.2.id = some kv.2) →
      ∀ kv ∈ l.foldl
        (fun d a =>
          if PyDict.hasKey d a.course_id then d
          else
            match PyDict.get? data.courses a.course_id with
            | some c => PyDict.set d a.course_id c
            | none => d)
        acc,
        PyDict.get? data.courses kv.2.id = some kv.2 := by
  intro l
  induction l with
  | nil => intro acc hacc kv hkv; exact hacc kv hkv
  | cons a l ih =>
    intro acc hacc kv hkv
    simp only [List.foldl_cons] at hkv
    refine ih _ ?_ kv hkv
    intro kv2 hkv2
    split at hkv2
    · exact hacc kv2 hkv2
    · cases hc : PyDict.get? data.courses a.course_id with
      | none => rw [hc] at hkv2; exact hacc kv2 hkv2
      | some c =>
        rw [hc] at hkv2
        rcases PyDict.mem_set _ _ _ _ hkv2 with ⟨h1, h2⟩ | h'
        · rw [h2, hById _ _ hc]
          exact hc
        · exact hacc kv2 h'

theorem SchedInv_of_desc (data : SchedulingData) (st st' : St)
    (hdesc : ∀ gkv ∈ st'.all_schedules, ∀ kv ∈ gkv.2,
      (∃ gkv0 ∈ st.all_schedules, gkv0.1 = gkv.1 ∧ kv ∈ gkv0.2) ∨
        NewOK data st' gkv.1 kv)
    (hfix : st'.tracker.course_fixed_hour = st.tracker.course_fixed_hour)
    (hInv : SchedInv data st) : SchedInv data st' := by
  obtain ⟨h1, h2, h3, h4⟩ := hInv
  refine ⟨?_, ?_, ?_, ?_⟩
  · intro gkv hg kv hkv
    rcases hdesc gkv hg kv hkv with ⟨gkv0, h0, he1, he2⟩ | hnew
    · exact h1 gkv0 h0 kv he2
    · exact hnew.1
  · intro gkv hg kv hkv
    rcases hdesc gkv hg kv hkv with ⟨gkv0, h0, he1, he2⟩ | hnew
    · obtain ⟨ha, hb⟩ := h2 gkv0 h0 kv he2
      exact ⟨ha.trans he1, hb⟩
    · exact ⟨hnew.2.1, hnew.2.2.1⟩
  · intro gkv hg kv hkv crs hcrs he hm
    rcases hdesc gkv hg kv hkv with ⟨gkv0, h0, he1, he2⟩ | hnew
    · obtain ⟨fh, hfh, hrest⟩ := h3 gkv0 h0 kv he2 crs hcrs he hm
      refine ⟨fh, ?_, hrest⟩
      rw [get_fixed_eq, hfix, ← get_fixed_eq, ← he1]
      exact hfh
    · exact hnew.2.2.2 crs hcrs he hm
  · intro kv hkv
    rw [hfix] at hkv
    exact h4 kv hkv

theorem SchedInv_congr (data : SchedulingData) (st st' : St)
    (hall : st'.all_schedules = st.all_schedules)
    (hfix : st'.tracker.course_fixed_hour = st.tracker.course_fixed_hour)
    (hInv : SchedInv data st) : SchedInv data st' := by
  refine SchedInv_of_desc data st st' ?_ hfix hInv
  intro gkv hg kv hkv
  rw [hall] at hg
  exact Or.inl ⟨gkv, hg, rfl, hkv⟩

theorem SchedInv_setFixed (data : SchedulingData) (st : St) (g c : Nat)
    (h : String)
    (hok : ∀ crs, PyDict.get? data.courses c = some crs →
      isEnglishName crs.name = true → crs.max_block_duration = 1 →
      (¬ h = "") ∧ ∀ gkv ∈ st.all_schedules, ∀ kv ∈ gkv.2, gkv.1 = g →
        kv.2.2.2 = c → ∃ t ∈ data.valid_slots, t.id = kv.2.1 ∧
          t.start_time = h)
    (hInv : SchedInv data st) :
    SchedInv data
      { st with tracker := st.tracker.set_fixed_hour_for_course g c h } := by
  obtain ⟨h1, h2, h3, h4⟩ := hInv
  refine ⟨h1, h2, ?_, ?_⟩
  · intro gkv hg kv hkv crs hcrs he hm
    by_cases hpc : ((gkv.1, kv.2.2.2) : Nat × Nat) = (g, c)
    · have hg1 : gkv.1 = g := congrArg Prod.fst hpc
      have hc1 : kv.2.2.2 = c := congrArg Prod.snd hpc
      refine ⟨h, ?_, ?_⟩
      · show PyDict.get? (PyDict.set st.tracker.course_fixed_hour (g, c) h)
          (gkv.1, kv.2.2.2) = some h
        rw [hpc, PyDict.get?_set_self]
      · exact (hok crs (hc1 ▸ hcrs) he hm).2 gkv hg kv hkv hg1 hc1
    · obtain ⟨fh, hfh, hrest⟩ := h3 gkv hg kv hkv crs hcrs he hm
      refine ⟨fh, ?_, hrest⟩
      show PyDict.get? (PyDict.set st.tracker.course_fixed_hour (g, c) h)
        (gkv.1, kv.2.2.2) = some fh
      rw [PyDict.get?_set_ne _ _ _ _ hpc]
      exact hfh
  · intro kv hkv
    have hkv' : kv ∈ PyDict.set st.tracker.course_fixed_hour (g, c) h := hkv
    rcases PyDict.mem_set _ _ _ _ hkv' with ⟨hk1, hk2⟩ | hold
    · intro crs hcrs he hm
      rw [hk2]
      have hc2 : kv.1.2 = c := by rw [hk1]
      exact (hok crs (hc2 ▸ hcrs) he hm).1
    · exact h4 kv hold

theorem schedDelFold_entry (g : Nat) (hours : List ConflictHour) :
    ∀ (st : St),
      ∀ gkv ∈ ((hours.foldl (fun s h => schedDel s g h.hour_id)
          st)).all_schedules,
        ∀ kv ∈ gkv.2,
          ∃ gkv0 ∈ st.all_schedules, gkv0.1 = gkv.1 ∧ kv ∈ gkv0.2 := by
  induction hours with
  | nil => intro st gkv hg kv hkv; exact ⟨gkv, hg, rfl, hkv⟩
  | cons h0 hs ih =>
    intro st gkv hg kv hkv
    simp only [List.foldl_cons] at hg
    obtain ⟨gkv0, h0', he1, he2⟩ := ih _ gkv hg kv hkv
    obtain ⟨gkv1, h1', he3, he4⟩ := schedDel_entry st g h0.hour_id gkv0 h0' kv he2
    exact ⟨gkv1, h1', he3.trans he1, he4⟩

theorem enumFrom_snd_mem {A : Type} :
    ∀ (l : List A) (n : Nat) (je : Nat × A), je ∈ l.enumFrom n → je.2 ∈ l := by
  intro l
  induction l with
  | nil => intro n je h; cases h
  | cons a l ih =>
    intro n je h
    simp only [List.enumFrom] at h
    rcases List.mem_cons.mp h with rfl | hm
    · exact List.mem_cons_self _ _
    · exact List.mem_cons_of_mem _ (ih _ _ hm)

theorem enum_snd_mem {A : Type} (l : List A) (je : Nat × A)
    (h : je ∈ l.enum) : je.2 ∈ l :=
  enumFrom_snd_mem l 0 je h

theorem mem_foldl_append {A B : Type} (f : A → List B) :
    ∀ (l : List A) (acc : List B) (x : B),
      x ∈ l.foldl (fun acc2 a => acc2 ++ f a) acc →
        x ∈ acc ∨ ∃ a ∈ l, x ∈ f a := by
  intro l
  induction l with
  | nil => intro acc x h; exact Or.inl h
  | cons a l ih =>
    intro acc x h
    simp only [List.foldl_cons] at h
    rcases ih _ x h with h' | ⟨a', ha', hx⟩
    · rcases List.mem_append.mp h' with h'' | h''
      · exact Or.inl h''
      · exact Or.inr ⟨a, List.mem_cons_self _ _, h''⟩
    · exact Or.inr ⟨a', List.mem_cons_of_mem _ ha', hx⟩

theorem gcbFold_good (data : SchedulingData) (sids : List Nat) (gid : Nat)
    (gdict : PyDict HourId SchedEntry)
    (hek : ∀ kv ∈ gdict, kv.1.1 = gid ∧ kv.1.2.1 = kv.2.2.2)
    (hes : ∀ kv ∈ gdict, ∃ t ∈ data.valid_slots, t.id = kv.2.1) :
    ∀ (E : List (HourId × SchedEntry))
      (acc : PyDict (Nat × Nat × Nat) (Nat × Nat × List ConflictHour)),
      (∀ kv ∈ E, kv ∈ gdict) → (∀ bkv ∈ acc, GcbGood data gid bkv) →
      ∀ bkv ∈ E.foldl (gcbAddEntry sids gid) acc, GcbGood data gid bkv := by
  intro E
  induction E with
  | nil => intro acc hE hacc bkv hb; exact hacc bkv hb
  | cons kv0 E ih =>
    intro acc hE hacc bkv hb
    simp only [List.foldl_cons] at hb
    refine ih _ (fun kv h => hE kv (List.mem_cons_of_mem _ h)) ?_ bkv hb
    intro bkv2 hb2
    unfold gcbAddEntry at hb2
    split at hb2
    · dsimp only at hb2
      have hkv0 : kv0 ∈ gdict := hE kv0 (List.mem_cons_self _ _)
      obtain ⟨hek1, hek2⟩ := hek kv0 hkv0
      rcases PyDict.mem_set _ _ _ _ hb2 with ⟨hb1, hbv⟩ | hold
      · cases hge : PyDict.get? acc (blockKeyOf kv0.1) with
        | none =>
          have hinfo : PyDict.getD acc (blockKeyOf kv0.1)
              (gid, kv0.2.2.2, []) = (gid, kv0.2.2.2, []) := by
            show (PyDict.get? acc (blockKeyOf kv0.1)).getD _ = _
            rw [hge]
            rfl
          rw [hinfo] at hbv
          refine ⟨by rw [hbv], ?_, ?_⟩
          · rw [hbv, hb1]
            show kv0.2.2.2 = kv0.1.2.1
            exact hek2.symm
          · intro h hh
            rw [hbv] at hh
            simp only [List.nil_append, List.mem_singleton] at hh
            subst hh
            refine ⟨hek1, ?_, hes kv0 hkv0⟩
            rw [hb1]
            rfl
        | some info0 =>
          have hgood0 : GcbGood data gid (blockKeyOf kv0.1, info0) :=
            hacc _ (PyDict.mem_of_get? _ _ _ hge)
          have hinfo : PyDict.getD acc (blockKeyOf kv0.1)
              (gid, kv0.2.2.2, []) = info0 := by
            show (PyDict.get? acc (blockKeyOf kv0.1)).getD _ = _
            rw [hge]
            rfl
          rw [hinfo] at hbv
          obtain ⟨hg1, hg2, hg3⟩ := hgood0
          refine ⟨by rw [hbv]; exact hg1, ?_, ?_⟩
          · rw [hbv, hb1]
            exact hg2
          · intro h hh
            rw [hbv] at hh
            rcases List.mem_append.mp hh with hh' | hh'
            · obtain ⟨ha, hb', hc⟩ := hg3 h hh'
              refine ⟨ha, ?_, hc⟩
              rw [hb1]
              exact hb'
            · rw [List.mem_singleton] at hh'
              subst hh'
              refine ⟨hek1, ?_, hes kv0 hkv0⟩
              rw [hb1]
              rfl
      · exact hacc bkv2 hold
    · exact hacc bkv2 hb2

theorem gcb_conflict_facts (data : SchedulingData) (st : St)
    (hS : InvSlots data st.all_schedules) (hK : InvKV st.all_schedules) :
    ∀ (sids : List Nat) (g2 : Nat),
      ∀ c ∈ get_conflicting_blocks sids g2 st data,
        c.course = PyDict.get? data.courses c.course_id ∧
        c.is_english = (match PyDict.get? data.courses c.course_id with
          | none => false
          | some crs => isEnglishName crs.name) ∧
        ∀ h ∈ c.hours, h.hour_id.1 = c.group_id ∧
          h.hour_id.2.1 = c.course_id ∧
          ∃ t ∈ data.valid_slots, t.id = h.slot_id := by
  intro sids g2 c hc
  unfold get_conflicting_blocks at hc
  rcases mem_foldl_append
      (fun gkv => ((gkv.2.foldl (gcbAddEntry sids gkv.1) []).map
        (fun bkv =>
          ({ block_key := bkv.1
             group_id := bkv.2.1
             course_id := bkv.2.2.1
             course := PyDict.get? data.courses bkv.2.2.1
             is_english :=
               (match PyDict.get? data.courses bkv.2.2.1 with
                | none => false
                | some c2 => isEnglishName c2.name)
             hours := bkv.2.2.2
             all_slot_ids := bkv.2.2.2.map (·.slot_id) } : Conflict))))
      st.all_schedules [] c hc with h' | ⟨gkv, hg, hcm⟩
  · cases h'
  · obtain ⟨bkv, hbkv, hmk⟩ := List.mem_map.mp hcm
    have hgood : GcbGood data gkv.1 bkv :=
      gcbFold_good data sids gkv.1 gkv.2
        (fun kv hkv => hK gkv hg kv hkv)
        (fun kv hkv => hS gkv hg kv hkv)
        gkv.2 [] (fun kv h => h) (by intro b hb; cases hb) bkv hbkv
    obtain ⟨hg1, hg2, hg3⟩ := hgood
    subst hmk
    refine ⟨rfl, rfl, ?_⟩
    intro h hh
    obtain ⟨ha, hb', hc'⟩ := hg3 h hh
    refine ⟨?_, ?_, hc'⟩
    · show h.hour_id.1 = bkv.2.1
      rw [hg1]
      exact ha
    · show h.hour_id.2.1 = bkv.2.2.1
      rw [hg2]
      exact hb'

theorem engScan_mem :
    ∀ (l acc : List Conflict), ∀ c ∈ (engScanConflicts l acc).2,
      c ∈ acc ∨ (c ∈ l ∧ c.is_english = false) := by
  intro l
  induction l with
  | nil => intro acc c h; exact Or.inl h
  | cons c0 l ih =>
    intro acc c h
    rw [engScanConflicts] at h
    split at h
    · exact Or.inl h
    · rename_i hcond
      have hc0 : c0.is_english = false := by
        revert hcond
        cases c0.is_english <;> simp
      rcases ih _ c h with h' | ⟨h1, h2⟩
      · rcases List.mem_append.mp h' with ha | hb
        · exact Or.inl ha
        · rw [List.mem_singleton] at hb
          subst hb
          exact Or.inr ⟨List.mem_cons_self _ _, hc0⟩
      · exact Or.inr ⟨List.mem_cons_of_mem _ h1, h2⟩

theorem engGather_mem (data : SchedulingData) (prof g : Nat) (hour : String)
    (st : St) :
    ∀ (days : List String) (acc : List Conflict),
      ∀ c ∈ (engGather data prof g hour st days acc).2,
        c ∈ acc ∨ ∃ sids g2,
          c ∈ get_conflicting_blocks sids g2 st data ∧
            c.is_english = false := by
  intro days
  induction days with
  | nil => intro acc c h; exact Or.inl h
  | cons day rest ih =>
    intro acc c h
    rw [engGather] at h
    cases hf : findSlotAtHour (PyDict.getD data.slots_by_day day []) hour with
    | none =>
      rw [hf] at h
      exact Or.inl h
    | some slot =>
      rw [hf] at h
      dsimp only at h
      split at h
      · exact Or.inl h
      · split at h
        · rename_i acc2 hsc
          rcases ih _ c h with h' | hrest
          · rcases engScan_mem _ _ c (by rw [hsc]; exact h') with ha | ⟨h1, h2⟩
            · exact Or.inl ha
            · exact Or.inr ⟨_, _, h1, h2⟩
          · exact Or.inr hrest
        · rename_i acc2 hsc
          rcases engScan_mem _ _ c (by rw [hsc]; exact h) with ha | ⟨h1, h2⟩
          · exact Or.inl ha
          · exact Or.inr ⟨_, _, h1, h2⟩

theorem mem_hours0 (data : SchedulingData) (seq : List String) (x : String)
    (h : x ∈ PySet.ofList
      (seq.foldl
        (fun acc day =>
          acc ++ (PyDict.getD data.slots_by_day day []).map (·.start_time))
        [])) :
    ∃ day t, t ∈ PyDict.getD data.slots_by_day day [] ∧ t.start_time = x := by
  rw [PySet.mem_ofList] at h
  rcases mem_foldl_append
      (fun day => (PyDict.getD data.slots_by_day day []).map (·.start_time))
      seq [] x h with h' | ⟨day, hday, hx⟩
  · cases h'
  · obtain ⟨t, ht, hteq⟩ := List.mem_map.mp hx
    exact ⟨day, t, ht, hteq⟩

theorem relocCommit_fixed (course : Course) (g c : Nat) (day : String)
    (pos : Position) (rb : Nat) (st1 : St) :
    (relocCommit course g c day pos rb st1).tracker.course_fixed_hour =
      st1.tracker.course_fixed_hour := by
  unfold relocCommit
  have hfold := foldlSt_proj
    (fun s2 je =>
      schedSet s2 g (g, c, rb, je.1) (je.2, pos.room_id, c)) St.tracker
    (fun s2 a => schedSet_tracker s2 g _ _) pos.slot_ids.enum st1
  split
  · rw [add_day_course_fixed_hour]
    rw [show (mark_room_used _ _ _).tracker = _ from mark_room_used_tracker _ _ _]
    show ((List.foldl _ st1 _).tracker.assign _ _ _ _).course_fixed_hour = _
    rw [assign_fixed_eq, hfold]
  · rw [show (mark_room_used _ _ _).tracker = _ from mark_room_used_tracker _ _ _]
    show ((List.foldl _ st1 _).tracker.assign _ _ _ _).course_fixed_hour = _
    rw [assign_fixed_eq, hfold]

theorem relocCommit_all (course : Course) (g c : Nat) (day : String)
    (pos : Position) (rb : Nat) (st1 : St) :
    (relocCommit course g c day pos rb st1).all_schedules =
      ((pos.slot_ids.enum).foldl
        (fun s2 je =>
          schedSet s2 g (g, c, rb, je.1) (je.2, pos.room_id, c))
        st1).all_schedules := by
  unfold relocCommit
  split <;> rfl

theorem relocDayLoop_fixed (course : Course) (g c dur : Nat)
    (data : SchedulingData) (eng : Bool) (fx : Option String) :
    ∀ (days : List String) (st : St),
      ((relocDayLoop course g c dur data eng fx days st).2).tracker.course_fixed_hour =
        st.tracker.course_fixed_hour := by
  intro days
  induction days with
  | nil => intro st; rfl
  | cons day rest ih =>
    intro st
    rw [relocDayLoop]
    split
    · exact ih st
    · dsimp only
      split
      · exact ih st
      · cases hch : pyChoice (find_all_valid_positions course g dur day data st
            eng fx) st.rng with
        | mk posOpt rng1 =>
          cases posOpt with
          | none =>
            dsimp only
            exact ih _
          | some pos =>
            dsimp only
            exact relocCommit_fixed course g c day pos _ _

theorem try_relocate_fixed (conflict : Conflict) (data : SchedulingData)
    (st : St) :
    ((try_relocate_block conflict data st).2).tracker.course_fixed_hour =
      st.tracker.course_fixed_hour := by
  unfold try_relocate_block
  cases hcc : conflict.course with
  | none => rfl
  | some course =>
    dsimp only
    split
    · rfl
    · split
      · rename_i stR heq
        have h1 := congrArg (fun p => (p.2).tracker.course_fixed_hour) heq
        dsimp only at h1
        rw [relocDayLoop_fixed] at h1
        rw [← h1]
        show (trbRemove conflict course _ data st).tracker.course_fixed_hour =
          st.tracker.course_fixed_hour
        exact trbRemove_course_fixed_hour conflict course _ data st
      · rename_i st6 heq
        have h1 := congrArg (fun p => (p.2).tracker.course_fixed_hour) heq
        dsimp only at h1
        rw [relocDayLoop_fixed] at h1
        show (trbRestore conflict course _ data
          st6).tracker.course_fixed_hour = st.tracker.course_fixed_hour
        rw [trbRestore_course_fixed_hour, ← h1]
        show (trbRemove conflict course _ data st).tracker.course_fixed_hour =
          st.tracker.course_fixed_hour
        exact trbRemove_course_fixed_hour conflict course _ data st

theorem relocateAll_fixed (data : SchedulingData) :
    ∀ (cs : List Conflict) (st : St),
      ((relocateAll data cs st).2).tracker.course_fixed_hour =
        st.tracker.course_fixed_hour := by
  intro cs
  induction cs with
  | nil => intro st; rfl
  | cons c cs ih =>
    intro st
    rw [relocateAll]
    split
    · rename_i st1 heq
      rw [ih]
      have h1 := congrArg (fun p => (p.2).tracker.course_fixed_hour) heq
      dsimp only at h1
      rw [← h1, try_relocate_fixed]
    · rename_i st1 heq
      have h1 := congrArg (fun p => (p.2).tracker.course_fixed_hour) heq
      dsimp only at h1
      show st1.tracker.course_fixed_hour = _
      rw [← h1, try_relocate_fixed]

theorem SchedInv_relocCommit (data : SchedulingData) (course : Course)
    (g c : Nat) (day : String) (pos : Position) (rb : Nat) (st1 : St)
    (hInv : SchedInv data st1)
    (hslots : ∀ sid ∈ pos.slot_ids, ∃ t ∈ data.valid_slots, t.id = sid)
    (hne : ∀ crs, PyDict.get? data.courses c = some crs →
      isEnglishName crs.name = true → crs.max_block_duration = 1 → False) :
    SchedInv data (relocCommit course g c day pos rb st1) := by
  refine SchedInv_of_desc data st1 _ ?_
    (relocCommit_fixed course g c day pos rb st1) hInv
  intro gkv hg kv hkv
  rw [relocCommit_all] at hg
  rcases foldl_entry
      (fun s2 je => schedSet s2 g (g, c, rb, je.1) (je.2, pos.room_id, c)) g
      (fun je => (g, c, rb, je.1)) (fun je => (je.2, pos.room_id, c))
      (fun s x => schedSet_entry s g _ _)
      pos.slot_ids.enum st1 gkv hg kv hkv with hold | ⟨hg1, je, hje, hkveq⟩
  · exact Or.inl hold
  · right
    subst hkveq
    exact ⟨hslots je.2 (enum_snd_mem _ _ hje), hg1.symm, rfl,
      fun crs hc he hm => (hne crs hc he hm).elim⟩

theorem SchedInv_relocDayLoop (data : SchedulingData) (hwf : DataWf data)
    (course : Course) (g c dur : Nat) (eng : Bool) (fx : Option String)
    (hne : ∀ crs, PyDict.get? data.courses c = some crs →
      isEnglishName crs.name = true → crs.max_block_duration = 1 → False) :
    ∀ (days : List String) (st : St), SchedInv data st →
      SchedInv data ((relocDayLoop course g c dur data eng fx days st).2) := by
  intro days
  induction days with
  | nil => intro st h; exact h
  | cons day rest ih =>
    intro st h
    rw [relocDayLoop]
    split
    · exact ih st h
    · dsimp only
      split
      · exact ih st h
      · cases hch : pyChoice
            (find_all_valid_positions course g dur day data st eng fx)
            st.rng with
        | mk posOpt rng1 =>
          cases posOpt with
          | none =>
            dsimp only
            exact ih _ (SchedInv_congr data st _ rfl rfl h)
          | some pos =>
            dsimp only
            have hpm : pos ∈ find_all_valid_positions course g dur day data st
                eng fx :=
              pyChoice_mem _ _ _ (by rw [hch])
            obtain ⟨hsl, hsid⟩ := favp_mem course g dur day data st eng fx pos
              hpm
            refine SchedInv_relocCommit data course g c day pos _ _
              (SchedInv_congr data st _ rfl rfl h) ?_ hne
            intro sid hs
            rw [hsid] at hs
            obtain ⟨s2, hs2, hseq⟩ := List.mem_map.mp hs
            exact ⟨s2, hwf.1 day s2 (hsl s2 hs2), hseq⟩

theorem SchedInv_trbRemove (data : SchedulingData) (conflict : Conflict)
    (course : Course) (prof_id : Nat) (st : St) (h : SchedInv data st) :
    SchedInv data (trbRemove conflict course prof_id data st) := by
  refine SchedInv_of_desc data st _ ?_
    (trbRemove_course_fixed_hour conflict course prof_id data st) h
  intro gkv hg kv hkv
  rw [trbRemove_all_schedules] at hg
  exact Or.inl
    (schedDelFold_entry conflict.group_id conflict.hours st gkv hg kv hkv)

theorem SchedInv_trbRestore (data : SchedulingData) (conflict : Conflict)
    (course : Course) (prof_id : Nat) (st : St)
    (hcf : CFacts data conflict) (h : SchedInv data st) :
    SchedInv data (trbRestore conflict course prof_id data st) := by
  refine SchedInv_of_desc data st _ ?_
    (trbRestore_course_fixed_hour conflict course prof_id data st) h
  intro gkv hg kv hkv
  rw [trbRestore_all_schedules] at hg
  rcases foldl_entry
      (fun s h2 =>
        schedSet s conflict.group_id h2.hour_id
          (h2.slot_id, h2.room_id, conflict.course_id))
      conflict.group_id (fun h2 => h2.hour_id)
      (fun h2 => (h2.slot_id, h2.room_id, conflict.course_id))
      (fun s x => schedSet_entry s conflict.group_id _ _)
      conflict.hours st gkv hg kv hkv with hold | ⟨hg1, h2, hh2, hkveq⟩
  · exact Or.inl hold
  · right
    subst hkveq
    obtain ⟨hek1, hek2, hslot⟩ := hcf.2 h2 hh2
    exact ⟨hslot, hek1.trans hg1.symm, hek2,
      fun crs hc he hm => (hcf.1 crs hc he hm).elim⟩

theorem SchedInv_try_relocate (data : SchedulingData) (conflict : Conflict)
    (st : St) (hwf : DataWf data) (hcf : CFacts data conflict)
    (h : SchedInv data st) :
    SchedInv data ((try_relocate_block conflict data st).2) := by
  unfold try_relocate_block
  cases hcc : conflict.course with
  | none => exact h
  | some course =>
    dsimp only
    split
    · exact h
    · split
      · rename_i stR heq
        have h1 := congrArg Prod.snd heq
        dsimp only at h1
        show SchedInv data stR
        rw [← h1]
        exact SchedInv_relocDayLoop data hwf course conflict.group_id
          conflict.course_id conflict.hours.length conflict.is_english _
          hcf.1 _ _
          (SchedInv_congr data
            (trbRemove conflict course
              (data.get_professor_for_group_course conflict.group_id
                conflict.course_id) data st) _ rfl rfl
            (SchedInv_trbRemove data conflict course _ st h))
      · rename_i st6 heq
        have h1 := congrArg Prod.snd heq
        dsimp only at h1
        show SchedInv data (trbRestore conflict course _ data st6)
        refine SchedInv_trbRestore data conflict course _ st6 hcf ?_
        rw [← h1]
        exact SchedInv_relocDayLoop data hwf course conflict.group_id
          conflict.course_id conflict.hours.length conflict.is_english _
          hcf.1 _ _
          (SchedInv_congr data
            (trbRemove conflict course
              (data.get_professor_for_group_course conflict.group_id
                conflict.course_id) data st) _ rfl rfl
            (SchedInv_trbRemove data conflict course _ st h))

theorem SchedInv_relocateAll (data : SchedulingData) (hwf : DataWf data) :
    ∀ (cs : List Conflict) (st : St), (∀ c ∈ cs, CFacts data c) →
      SchedInv data st → SchedInv data ((relocateAll data cs st).2) := by
  intro cs
  induction cs with
  | nil => intro st _ h; exact h
  | cons c cs ih =>
    intro st hcf h
    rw [relocateAll]
    split
    · rename_i st1 heq
      have h1 := congrArg Prod.snd heq
      dsimp only at h1
      refine ih _ (fun c2 hc2 => hcf c2 (List.mem_cons_of_mem _ hc2)) ?_
      rw [← h1]
      exact SchedInv_try_relocate data c st hwf
        (hcf c (List.mem_cons_self _ _)) h
    · rename_i st1 heq
      have h1 := congrArg Prod.snd heq
      dsimp only at h1
      show SchedInv data st1
      rw [← h1]
      exact SchedInv_try_relocate data c st hwf
        (hcf c (List.mem_cons_self _ _)) h

theorem CFacts_of_gcb (data : SchedulingData) (st : St)
    (hS : InvSlots data st.all_schedules) (hK : InvKV st.all_schedules)
    (c : Conflict) (sids : List Nat) (g2 : Nat)
    (hc : c ∈ get_conflicting_blocks sids g2 st data)
    (heng : c.is_english = false) : CFacts data c := by
  obtain ⟨hcourse, hengeq, hhours⟩ := gcb_conflict_facts data st hS hK sids g2
    c hc
  constructor
  · intro crs hcrs he hm
    rw [hcrs] at hengeq
    dsimp only at hengeq
    rw [heng] at hengeq
    rw [← hengeq] at he
    exact Bool.noConfusion he
  · exact hhours

theorem engStep_entry (course : Course) (g p r : Nat) (s : St)
    (ip : Nat × EngPos) :
    ∀ gkv ∈ (engStep course g p r s ip).all_schedules, ∀ kv ∈ gkv.2,
      (∃ gkv0 ∈ s.all_schedules, gkv0.1 = gkv.1 ∧ kv ∈ gkv0.2) ∨
        (gkv.1 = g ∧
          kv = ((g, course.id, ip.1 + 1, 0),
            (ip.2.slot.id, r, course.id))) := by
  intro gkv hg kv hkv
  have hall : (engStep course g p r s ip).all_schedules =
      (schedSet s g (g, course.id, ip.1 + 1, 0)
        (ip.2.slot.id, r, course.id)).all_schedules := rfl
  rw [hall] at hg
  exact schedSet_entry s g _ _ gkv hg kv hkv

theorem engStep_fixed (course : Course) (g p r : Nat) (s : St)
    (ip : Nat × EngPos) :
    (engStep course g p r s ip).tracker.course_fixed_hour =
      s.tracker.course_fixed_hour := by
  show (((schedSet s g (g, course.id, ip.1 + 1, 0)
      (ip.2.slot.id, r, course.id)).tracker.assign p g ip.2.slot_ids
        course.id).add_day_for_course g course.id
          ip.2.day).course_fixed_hour = s.tracker.course_fixed_hour
  rw [add_day_course_fixed_hour, assign_fixed_eq, schedSet_tracker]

theorem engCommit_all (course : Course) (g p r : Nat)
    (positions : List EngPos) (hour : String) (fixed_arg : Option String)
    (st : St) :
    (engCommit course g p r positions hour fixed_arg st).all_schedules =
      ((positions.enum.foldl (engStep course g p r) st)).all_schedules := by
  unfold engCommit
  split <;> rfl

theorem engCommit_fixed (course : Course) (g p r : Nat)
    (positions : List EngPos) (hour : String) (fixed_arg : Option String)
    (st : St) :
    (engCommit course g p r positions hour fixed_arg
        st).tracker.course_fixed_hour =
      (if strTruthy fixed_arg = true then st.tracker.course_fixed_hour
       else
         PyDict.set st.tracker.course_fixed_hour (g, course.id) hour) := by
  have hfold := foldlSt_proj (engStep course g p r)
    (fun s => s.tracker.course_fixed_hour)
    (fun s ip => engStep_fixed course g p r s ip) positions.enum st
  unfold engCommit
  split
  · exact hfold
  · dsimp only
    rw [set_fixed_course_fixed_hour, hfold]

theorem SchedInv_engCommit (data : SchedulingData) (hwf : DataWf data)
    (course : Course) (g p r : Nat) (positions : List EngPos) (hour : String)
    (fixed_arg : Option String) (st : St) (hInv : SchedInv data st)
    (hpos : ∀ pp ∈ positions,
      ∃ t ∈ data.valid_slots, t.id = pp.slot.id ∧ t.start_time = hour)
    (hsync : fixed_arg = st.tracker.get_fixed_hour_for_course g course.id)
    (hhour : strTruthy fixed_arg = true → hour = fixed_arg.getD "")
    (hne : strTruthy fixed_arg = false → ¬ hour = "") :
    SchedInv data (engCommit course g p r positions hour fixed_arg st) := by
  have hdesc : ∀ gkv ∈ (engCommit course g p r positions hour fixed_arg
      st).all_schedules, ∀ kv ∈ gkv.2,
      (∃ gkv0 ∈ st.all_schedules, gkv0.1 = gkv.1 ∧ kv ∈ gkv0.2) ∨
        (gkv.1 = g ∧ ∃ ip ∈ positions.enum,
          kv = ((g, course.id, ip.1 + 1, 0),
            (ip.2.slot.id, r, course.id))) := by
    intro gkv hg kv hkv
    rw [engCommit_all] at hg
    exact foldl_entry (engStep course g p r) g
      (fun ip => (g, course.id, ip.1 + 1, 0))
      (fun ip => (ip.2.slot.id, r, course.id))
      (fun s x => engStep_entry course g p r s x)
      positions.enum st gkv hg kv hkv
  obtain ⟨h1, h2, h3, h4⟩ := hInv
  by_cases hst : strTruthy fixed_arg = true
  · have hcf : (engCommit course g p r positions hour fixed_arg
        st).tracker.course_fixed_hour = st.tracker.course_fixed_hour := by
      rw [engCommit_fixed, if_pos hst]
    refine SchedInv_of_desc data st _ ?_ hcf ⟨h1, h2, h3, h4⟩
    intro gkv hg kv hkv
    rcases hdesc gkv hg kv hkv with hold | ⟨hg1, ip, hip, hkveq⟩
    · exact Or.inl hold
    · right
      subst hkveq
      have hp := enum_snd_mem _ _ hip
      obtain ⟨t, ht, htid, hts⟩ := hpos ip.2 hp
      refine ⟨⟨t, ht, htid⟩, hg1.symm, rfl, ?_⟩
      intro crs hcrs he hm
      refine ⟨hour, ?_, ⟨t, ht, htid, hts⟩⟩
      rw [get_fixed_eq, hcf, hg1, ← get_fixed_eq, ← hsync]
      cases hfx : fixed_arg with
      | none =>
        rw [hfx] at hst
        exact absurd hst (by decide)
      | some s2 =>
        have h5 : hour = s2 := by
          have := hhour hst
          rw [hfx] at this
          exact this
        rw [h5]
  · have hst' : strTruthy fixed_arg = false := by
      revert hst
      cases strTruthy fixed_arg <;> simp
    have hcf : (engCommit course g p r positions hour fixed_arg
        st).tracker.course_fixed_hour =
        PyDict.set st.tracker.course_fixed_hour (g, course.id) hour := by
      rw [engCommit_fixed, if_neg (by rw [hst']; simp)]
    refine ⟨?_, ?_, ?_, ?_⟩
    · intro gkv hg kv hkv
      rcases hdesc gkv hg kv hkv with ⟨gkv0, h0, he1, he2⟩ | ⟨hg1, ip, hip, hkveq⟩
      · exact h1 gkv0 h0 kv he2
      · subst hkveq
        obtain ⟨t, ht, htid, hts⟩ := hpos ip.2 (enum_snd_mem _ _ hip)
        exact ⟨t, ht, htid⟩
    · intro gkv hg kv hkv
      rcases hdesc gkv hg kv hkv with ⟨gkv0, h0, he1, he2⟩ | ⟨hg1, ip, hip, hkveq⟩
      · obtain ⟨ha, hb⟩ := h2 gkv0 h0 kv he2
        exact ⟨ha.trans he1, hb⟩
      · subst hkveq
        exact ⟨hg1.symm, rfl⟩
    · intro gkv hg kv hkv crs hcrs he hm
      rcases hdesc gkv hg kv hkv with ⟨gkv0, h0, he1, he2⟩ | ⟨hg1, ip, hip, hkveq⟩
      · by_cases hpc : ((gkv.1, kv.2.2.2) : Nat × Nat) = (g, course.id)
        · exfalso
          obtain ⟨fh, hfh, _⟩ := h3 gkv0 h0 kv he2 crs hcrs he hm
          have hfh' : PyDict.get? st.tracker.course_fixed_hour
              (g, course.id) = some fh := by
            rw [get_fixed_eq] at hfh
            rw [← hpc, ← he1]
            exact hfh
          have hfa : fixed_arg = some fh := by
            rw [hsync, get_fixed_eq]
            exact hfh'
          have h5 : strTruthy (some fh) = false := by
            rw [← hfa]
            exact hst'
          have h6 : fh = "" := by simpa [strTruthy] using h5
          have hc1 : kv.2.2.2 = course.id := congrArg Prod.snd hpc
          rw [hc1] at hcrs
          exact h4 ((g, course.id), fh) (PyDict.mem_of_get? _ _ _ hfh') crs
            hcrs he hm h6
        · obtain ⟨fh, hfh, hrest⟩ := h3 gkv0 h0 kv he2 crs hcrs he hm
          refine ⟨fh, ?_, hrest⟩
          rw [get_fixed_eq, hcf, PyDict.get?_set_ne _ _ _ _ hpc,
            ← get_fixed_eq, ← he1]
          exact hfh
      · subst hkveq
        obtain ⟨t, ht, htid, hts⟩ := hpos ip.2 (enum_snd_mem _ _ hip)
        refine ⟨hour, ?_, ⟨t, ht, htid, hts⟩⟩
        rw [get_fixed_eq, hcf, hg1, PyDict.get?_set_self]
    · intro kv hkv
      rw [hcf] at hkv
      rcases PyDict.mem_set _ _ _ _ hkv with ⟨hk1, hk2⟩ | hold
      · intro crs hcrs he hm
        rw [hk2]
        exact hne hst'
      · exact h4 kv hold

theorem engTryHours_false (course : Course) (g p r nb : Nat)
    (fx : Option String) (data : SchedulingData) (seq : List String) :
    ∀ (hours : List String) (st st2 : St),
      engTryHours course g p r nb fx data seq hours st = (false, st2) →
      st2 = st := by
  intro hours
  induction hours with
  | nil =>
    intro st st2 h
    rw [engTryHours] at h
    injection h with h1 h2
    exact h2.symm
  | cons hour hrest ih =>
    intro st st2 h
    rw [engTryHours] at h
    cases hc : engCheckSeq data st p r g hour seq [] with
    | some positions =>
      rw [hc] at h
      dsimp only at h
      split at h
      · simp at h
      · exact ih _ _ h
    | none =>
      rw [hc] at h
      dsimp only at h
      exact ih _ _ h

theorem SchedInv_engTryHours (data : SchedulingData) (hwf : DataWf data)
    (course : Course) (g p r nb : Nat) (fx : Option String)
    (seq : List String) :
    ∀ (hours : List String) (st : St), SchedInv data st →
      fx = st.tracker.get_fixed_hour_for_course g course.id →
      HoursOK data fx hours →
      SchedInv data ((engTryHours course g p r nb fx data seq hours st).2) := by
  intro hours
  induction hours with
  | nil => intro st h _ _; exact h
  | cons hour hrest ih =>
    intro st h hsync hok
    rw [engTryHours]
    cases hc : engCheckSeq data st p r g hour seq [] with
    | some positions =>
      dsimp only
      split
      · obtain ⟨sfx, hps, hmap, hprops⟩ :=
          engCheckSeq_spec data st p r g hour seq [] positions hc
        have hsx : positions = sfx := by simpa using hps
        refine SchedInv_engCommit data hwf course g p r positions hour fx st h
          ?_ hsync ?_ ?_
        · intro pp hpp
          rw [hsx] at hpp
          obtain ⟨hp1, hp2, _, _⟩ := hprops pp hpp
          exact ⟨pp.slot, hwf.1 pp.day pp.slot hp2, rfl, hp1⟩
        · intro hstT
          exact (hok hour (List.mem_cons_self _ _)).1 hstT
        · intro hstF
          obtain ⟨day, t, ht, hts⟩ :=
            (hok hour (List.mem_cons_self _ _)).2 hstF
          intro hhe
          exact hwf.2 t (hwf.1 day t ht) (hts.trans hhe)
      · exact ih st h hsync (fun hr hhr => hok hr (List.mem_cons_of_mem _ hhr))
    | none =>
      dsimp only
      exact ih st h hsync (fun hr hhr => hok hr (List.mem_cons_of_mem _ hhr))

theorem HoursOK_target (data : SchedulingData) (fx : Option String)
    (alt : List String)
    (halt : ∀ hr ∈ alt, strTruthy fx = false →
      ∃ day t, t ∈ PyDict.getD data.slots_by_day day [] ∧
        t.start_time = hr) :
    HoursOK data fx
      (if strTruthy fx = true then [fx.getD ""] else alt) := by
  intro hr hhr
  by_cases hstT : strTruthy fx = true
  · rw [if_pos hstT] at hhr
    rw [List.mem_singleton] at hhr
    subst hhr
    exact ⟨fun _ => rfl, fun hF => absurd (hF ▸ hstT) (by decide)⟩
  · rw [if_neg hstT] at hhr
    exact ⟨fun hT => absurd hT hstT, fun hF => halt hr hhr hF⟩

theorem SchedInv_engPhase1 (data : SchedulingData) (hwf : DataWf data)
    (course : Course) (g p r nb : Nat) (fx : Option String) :
    ∀ (seqs : List (List String)) (st : St) (hcur : List String),
      SchedInv data st →
      fx = st.tracker.get_fixed_hour_for_course g course.id →
      HoursOK data fx hcur →
      SchedInv data (engPhase1 course g p r nb fx data seqs st hcur).2.1 ∧
        ((engPhase1 course g p r nb fx data seqs st hcur).1 = false →
          (engPhase1 course g p r nb fx data seqs st
              hcur).2.1.tracker.course_fixed_hour =
              st.tracker.course_fixed_hour ∧
            HoursOK data fx
              (engPhase1 course g p r nb fx data seqs st hcur).2.2) := by
  intro seqs
  induction seqs with
  | nil =>
    intro st hcur h hsync hok
    rw [engPhase1]
    exact ⟨h, fun _ => ⟨rfl, hok⟩⟩
  | cons seq rest ih =>
    intro st hcur h hsync hok
    rw [engPhase1]
    have hokT : HoursOK data fx
        (if strTruthy fx = true then [fx.getD ""]
         else (pyShuffle (PySet.ofList
           (seq.foldl
             (fun acc day =>
               acc ++ (PyDict.getD data.slots_by_day day []).map
                 (·.start_time)) [])) st.rng).1) := by
      refine HoursOK_target data fx _ ?_
      intro hr hhr _
      exact mem_hours0 data seq hr (pyShuffle_subset _ _ hr hhr)
    split
    · rename_i stX heq
      constructor
      · have hin := SchedInv_engTryHours data hwf course g p r nb fx seq _
          { st with rng := (pyShuffle (PySet.ofList
              (seq.foldl
                (fun acc day =>
                  acc ++ (PyDict.getD data.slots_by_day day []).map
                    (·.start_time)) [])) st.rng).2 }
          (SchedInv_congr data st _ rfl rfl h) hsync hokT
        rw [heq] at hin
        exact hin
      · intro hF
        exact absurd hF (by simp)
    · rename_i stX heq
      have hX : stX = { st with rng := (pyShuffle (PySet.ofList
          (seq.foldl
            (fun acc day =>
              acc ++ (PyDict.getD data.slots_by_day day []).map
                (·.start_time)) [])) st.rng).2 } :=
        engTryHours_false course g p r nb fx data seq _ _ _ heq
      have hrec := ih stX _
        (by rw [hX]; exact SchedInv_congr data st _ rfl rfl h)
        (by rw [hX]; exact hsync) hokT
      refine ⟨hrec.1, ?_⟩
      intro hF
      obtain ⟨hfix, hok2⟩ := hrec.2 hF
      refine ⟨?_, hok2⟩
      rw [hfix, hX]

theorem SchedInv_engPhase2Hours (data : SchedulingData) (hwf : DataWf data)
    (course : Course) (g p r nb : Nat) (fx : Option String)
    (seq : List String) :
    ∀ (hours : List String) (st : St), SchedInv data st →
      fx = st.tracker.get_fixed_hour_for_course g course.id →
      HoursOK data fx hours →
      SchedInv data
          ((engPhase2Hours course g p r nb fx data seq hours st).2) ∧
        ((engPhase2Hours course g p r nb fx data seq hours st).1 = false →
          ((engPhase2Hours course g p r nb fx data seq hours
              st).2).tracker.course_fixed_hour =
            st.tracker.course_fixed_hour) := by
  intro hours
  induction hours with
  | nil =>
    intro st h _ _
    rw [engPhase2Hours]
    exact ⟨h, fun _ => rfl⟩
  | cons hour hrest ih =>
    intro st h hsync hok
    rw [engPhase2Hours]
    split
    · split
      · rename_i st1 heq
        have hcfs : ∀ c ∈ (engGather data p g hour st seq []).2,
            CFacts data c := by
          intro c hc
          rcases engGather_mem data p g hour st seq [] c hc with
            h' | ⟨sids, g2, hgcb, hne2⟩
          · cases h'
          · exact CFacts_of_gcb data st h.1 h.2.1 c sids g2 hgcb hne2
        have hrel := SchedInv_relocateAll data hwf _ st hcfs h
        rw [heq] at hrel
        have hInv1 : SchedInv data st1 := hrel
        have hfix1 : st1.tracker.course_fixed_hour =
            st.tracker.course_fixed_hour := by
          have h6 := relocateAll_fixed data
            (engGather data p g hour st seq []).2 st
          rw [heq] at h6
          exact h6
        have hsync1 : fx = st1.tracker.get_fixed_hour_for_course g
            course.id := by
          rw [get_fixed_eq, hfix1, ← get_fixed_eq]
          exact hsync
        cases hr : engRecheckSeq st1 p r g data hour seq [] with
        | some positions =>
          dsimp only
          split
          · constructor
            · obtain ⟨sfx, hps, hmap, hprops⟩ :=
                engRecheckSeq_spec st1 p r g data hour seq [] positions hr
              have hsx : positions = sfx := by simpa using hps
              refine SchedInv_engCommit data hwf course g p r positions hour
                fx st1 hInv1 ?_ hsync1 ?_ ?_
              · intro pp hpp
                rw [hsx] at hpp
                obtain ⟨hp1, hp2, _, _⟩ := hprops pp hpp
                exact ⟨pp.slot, hwf.1 pp.day pp.slot hp2, rfl, hp1⟩
              · exact fun hT => (hok hour (List.mem_cons_self _ _)).1 hT
              · intro hF
                obtain ⟨day, t, ht, hts⟩ :=
                  (hok hour (List.mem_cons_self _ _)).2 hF
                intro hhe
                exact hwf.2 t (hwf.1 day t ht) (hts.trans hhe)
            · intro hF
              exact absurd hF (by simp)
          · have hrec := ih st1 hInv1 hsync1
              (fun x hx => hok x (List.mem_cons_of_mem _ hx))
            exact ⟨hrec.1, fun hF => (hrec.2 hF).trans hfix1⟩
        | none =>
          dsimp only
          have hrec := ih st1 hInv1 hsync1
            (fun x hx => hok x (List.mem_cons_of_mem _ hx))
          exact ⟨hrec.1, fun hF => (hrec.2 hF).trans hfix1⟩
      · rename_i st1 heq
        have hcfs : ∀ c ∈ (engGather data p g hour st seq []).2,
            CFacts data c := by
          intro c hc
          rcases engGather_mem data p g hour st seq [] c hc with
            h' | ⟨sids, g2, hgcb, hne2⟩
          · cases h'
          · exact CFacts_of_gcb data st h.1 h.2.1 c sids g2 hgcb hne2
        have hrel := SchedInv_relocateAll data hwf _ st hcfs h
        rw [heq] at hrel
        have hInv1 : SchedInv data st1 := hrel
        have hfix1 : st1.tracker.course_fixed_hour =
            st.tracker.course_fixed_hour := by
          have h6 := relocateAll_fixed data
            (engGather data p g hour st seq []).2 st
          rw [heq] at h6
          exact h6
        have hsync1 : fx = st1.tracker.get_fixed_hour_for_course g
            course.id := by
          rw [get_fixed_eq, hfix1, ← get_fixed_eq]
          exact hsync
        have hrec := ih st1 hInv1 hsync1
          (fun x hx => hok x (List.mem_cons_of_mem _ hx))
        exact ⟨hrec.1, fun hF => (hrec.2 hF).trans hfix1⟩
    · exact ih st h hsync (fun x hx => hok x (List.mem_cons_of_mem _ hx))

theorem SchedInv_engPhase2 (data : SchedulingData) (hwf : DataWf data)
    (course : Course) (g p r nb : Nat) (fx : Option String) :
    ∀ (seqs : List (List String)) (hoursLeft : List String) (st : St),
      SchedInv data st →
      fx = st.tracker.get_fixed_hour_for_course g course.id →
      HoursOK data fx hoursLeft →
      SchedInv data
          ((engPhase2 course g p r nb fx data seqs hoursLeft st).2) ∧
        ((engPhase2 course g p r nb fx data seqs hoursLeft st).1 = false →
          ((engPhase2 course g p r nb fx data seqs hoursLeft
              st).2).tracker.course_fixed_hour =
            st.tracker.course_fixed_hour) := by
  intro seqs
  induction seqs with
  | nil =>
    intro hoursLeft st h _ _
    rw [engPhase2]
    exact ⟨h, fun _ => rfl⟩
  | cons seq rest ih =>
    intro hoursLeft st h hsync hok
    rw [engPhase2]
    have hokT : HoursOK data fx
        (if strTruthy fx = true then [fx.getD ""] else hoursLeft) :=
      HoursOK_target data fx hoursLeft (fun hr hhr hF => (hok hr hhr).2 hF)
    have hph := SchedInv_engPhase2Hours data hwf course g p r nb fx seq
      (if strTruthy fx = true then [fx.getD ""] else hoursLeft) st h hsync
      hokT
    split
    · rename_i st1 heq
      rw [heq] at hph
      exact ⟨hph.1, fun hF => absurd hF (by simp)⟩
    · rename_i st1 heq
      rw [heq] at hph
      have hInv1 : SchedInv data st1 := hph.1
      have hfix1 : st1.tracker.course_fixed_hour =
          st.tracker.course_fixed_hour := hph.2 rfl
      have hsync1 : fx = st1.tracker.get_fixed_hour_for_course g
          course.id := by
        rw [get_fixed_eq, hfix1, ← get_fixed_eq]
        exact hsync
      have hrec := ih hoursLeft st1 hInv1 hsync1 hok
      exact ⟨hrec.1, fun hF => (hrec.2 hF).trans hfix1⟩

theorem SchedInv_engAttempts (data : SchedulingData) (hwf : DataWf data)
    (course : Course) (g p r nb : Nat) (fx : Option String)
    (seqs : List (List String)) :
    ∀ (fuel : Nat) (st : St), SchedInv data st →
      fx = st.tracker.get_fixed_hour_for_course g course.id →
      SchedInv data ((engAttempts course g p r nb fx data seqs fuel st).2) := by
  intro fuel
  induction fuel with
  | zero => intro st h _; rw [engAttempts]; exact h
  | succ n ih =>
    intro st h hsync
    rw [engAttempts]
    have hp1 := SchedInv_engPhase1 data hwf course g p r nb fx seqs st [] h
      hsync (fun hr hhr => absurd hhr (List.not_mem_nil hr))
    split
    · rename_i st1 x heq
      rw [heq] at hp1
      exact hp1.1
    · rename_i st1 hoursLeft heq
      rw [heq] at hp1
      obtain ⟨hInv1, hrest1⟩ := hp1
      obtain ⟨hfix1, hok1⟩ := hrest1 rfl
      have hInv1' : SchedInv data st1 := hInv1
      have hfix1' : st1.tracker.course_fixed_hour =
          st.tracker.course_fixed_hour := hfix1
      have hok1' : HoursOK data fx hoursLeft := hok1
      have hsync1 : fx = st1.tracker.get_fixed_hour_for_course g
          course.id := by
        rw [get_fixed_eq, hfix1', ← get_fixed_eq]
        exact hsync
      have hp2 := SchedInv_engPhase2 data hwf course g p r nb fx seqs
        hoursLeft st1 hInv1' hsync1 hok1'
      split
      · rename_i st2 heq2
        rw [heq2] at hp2
        exact hp2.1
      · rename_i st2 heq2
        rw [heq2] at hp2
        have hInv2 : SchedInv data st2 := hp2.1
        have hfix2 : st2.tracker.course_fixed_hour =
            st1.tracker.course_fixed_hour := hp2.2 rfl
        have hsync2 : fx = st2.tracker.get_fixed_hour_for_course g
            course.id := by
          rw [get_fixed_eq, hfix2, ← get_fixed_eq]
          exact hsync1
        exact ih st2 hInv2 hsync2

theorem SchedInv_assign_english (data : SchedulingData) (hwf : DataWf data)
    (course : Course) (g : Nat) (bd : List Nat) (fx : Option String)
    (maxA : Nat) (st : St) (h : SchedInv data st)
    (hsync : fx = st.tracker.get_fixed_hour_for_course g course.id) :
    SchedInv data
      ((assign_english_consecutive_days course g data bd fx maxA st).2) := by
  unfold assign_english_consecutive_days
  dsimp only
  split
  · exact h
  · exact SchedInv_engAttempts data hwf course g
      (data.get_professor_for_group_course g course.id)
      (data.get_professor_room
        (data.get_professor_for_group_course g course.id))
      bd.length fx _ maxA _ (SchedInv_congr data st _ rfl rfl h) hsync

theorem faCommit_all (course : Course) (g : Nat) (eng : Bool) (bn : Nat)
    (day : String) (pos : Position) (fx : Option String) (st : St) :
    ((faCommit course g eng bn day pos fx st).2).all_schedules =
      ((pos.slot_ids.enum).foldl
        (fun s je =>
          schedSet s g (g, course.id, bn, je.1)
            (je.2, pos.room_id, course.id))
        st).all_schedules := by
  unfold faCommit
  dsimp only
  split
  · split <;> rfl
  · split <;> rfl

theorem faCommit_fixed (course : Course) (g : Nat) (eng : Bool) (bn : Nat)
    (day : String) (pos : Position) (fx : Option String) (st : St) :
    ((faCommit course g eng bn day pos fx st).2).tracker.course_fixed_hour =
      (if (eng && !(strTruthy fx)) = true then
        PyDict.set st.tracker.course_fixed_hour (g, course.id) pos.first_hour
       else st.tracker.course_fixed_hour) := by
  have hfold := foldlSt_proj
    (fun s je =>
      schedSet s g (g, course.id, bn, je.1) (je.2, pos.room_id, course.id))
    (fun s => s.tracker.course_fixed_hour)
    (fun s a => congrArg (fun t => t.course_fixed_hour)
      (schedSet_tracker s g _ _))
    pos.slot_ids.enum st
  unfold faCommit
  dsimp only
  split
  · dsimp only
    rw [set_fixed_course_fixed_hour]
    congr 1
    split
    · rw [add_day_course_fixed_hour]
      rw [show (mark_room_used _ _ _).tracker = _ from
        mark_room_used_tracker _ _ _]
      show ((List.foldl _ st _).tracker.assign _ _ _ _).course_fixed_hour = _
      rw [assign_fixed_eq]
      exact hfold
    · rw [show (mark_room_used _ _ _).tracker = _ from
        mark_room_used_tracker _ _ _]
      show ((List.foldl _ st _).tracker.assign _ _ _ _).course_fixed_hour = _
      rw [assign_fixed_eq]
      exact hfold
  · split
    · rw [add_day_course_fixed_hour]
      rw [show (mark_room_used _ _ _).tracker = _ from
        mark_room_used_tracker _ _ _]
      show ((List.foldl _ st _).tracker.assign _ _ _ _).course_fixed_hour = _
      rw [assign_fixed_eq]
      exact hfold
    · rw [show (mark_room_used _ _ _).tracker = _ from
        mark_room_used_tracker _ _ _]
      show ((List.foldl _ st _).tracker.assign _ _ _ _).course_fixed_hour = _
      rw [assign_fixed_eq]
      exact hfold

theorem SchedInv_faCommit (data : SchedulingData) (course : Course) (g : Nat)
    (eng : Bool) (bn : Nat) (day : String) (pos : Position)
    (fx : Option String) (st : St) (hInv : SchedInv data st)
    (hslots : ∀ sid ∈ pos.slot_ids, ∃ t ∈ data.valid_slots, t.id = sid)
    (hnoteng : ∀ crs, PyDict.get? data.courses course.id = some crs →
      isEnglishName crs.name = true → crs.max_block_duration = 1 → False) :
    SchedInv data ((faCommit course g eng bn day pos fx st).2) := by
  obtain ⟨h1, h2, h3, h4⟩ := hInv
  have hdesc : ∀ gkv ∈ ((faCommit course g eng bn day pos fx
      st).2).all_schedules, ∀ kv ∈ gkv.2,
      (∃ gkv0 ∈ st.all_schedules, gkv0.1 = gkv.1 ∧ kv ∈ gkv0.2) ∨
        (gkv.1 = g ∧ ∃ je ∈ pos.slot_ids.enum,
          kv = ((g, course.id, bn, je.1), (je.2, pos.room_id, course.id))) := by
    intro gkv hg kv hkv
    rw [faCommit_all] at hg
    exact foldl_entry
      (fun s je =>
        schedSet s g (g, course.id, bn, je.1) (je.2, pos.room_id, course.id))
      g (fun je => (g, course.id, bn, je.1))
      (fun je => (je.2, pos.room_id, course.id))
      (fun s x => schedSet_entry s g _ _)
      pos.slot_ids.enum st gkv hg kv hkv
  refine ⟨?_, ?_, ?_, ?_⟩
  · intro gkv hg kv hkv
    rcases hdesc gkv hg kv hkv with ⟨gkv0, h0, he1, he2⟩ | ⟨hg1, je, hje, hkveq⟩
    · exact h1 gkv0 h0 kv he2
    · subst hkveq
      exact hslots je.2 (enum_snd_mem _ _ hje)
  · intro gkv hg kv hkv
    rcases hdesc gkv hg kv hkv with ⟨gkv0, h0, he1, he2⟩ | ⟨hg1, je, hje, hkveq⟩
    · obtain ⟨ha, hb⟩ := h2 gkv0 h0 kv he2
      exact ⟨ha.trans he1, hb⟩
    · subst hkveq
      exact ⟨hg1.symm, rfl⟩
  · intro gkv hg kv hkv crs hcrs he hm
    rcases hdesc gkv hg kv hkv with ⟨gkv0, h0, he1, he2⟩ | ⟨hg1, je, hje, hkveq⟩
    · obtain ⟨fh, hfh, hrest⟩ := h3 gkv0 h0 kv he2 crs hcrs he hm
      refine ⟨fh, ?_, hrest⟩
      rw [get_fixed_eq, faCommit_fixed]
      split
      · by_cases hpc : ((gkv.1, kv.2.2.2) : Nat × Nat) = (g, course.id)
        · exfalso
          have hc1 : kv.2.2.2 = course.id := congrArg Prod.snd hpc
          rw [hc1] at hcrs
          exact hnoteng crs hcrs he hm
        · rw [PyDict.get?_set_ne _ _ _ _ hpc, ← get_fixed_eq, ← he1]
          exact hfh
      · rw [← get_fixed_eq, ← he1]
        exact hfh
    · subst hkveq
      exact (hnoteng crs hcrs he hm).elim
  · intro kv hkv
    rw [faCommit_fixed] at hkv
    split at hkv
    · rcases PyDict.mem_set _ _ _ _ hkv with ⟨hk1, hk2⟩ | hold
      · intro crs hcrs he hm
        have hc1 : kv.1.2 = course.id := by rw [hk1]
        rw [hc1] at hcrs
        exact (hnoteng crs hcrs he hm).elim
      · exact h4 kv hold
    · exact h4 kv hkv

theorem SchedInv_faTryDays (data : SchedulingData) (hwf : DataWf data)
    (course : Course) (g : Nat) (eng : Bool) (dur bn : Nat)
    (fx : Option String)
    (hnoteng : ∀ crs, PyDict.get? data.courses course.id = some crs →
      isEnglishName crs.name = true → crs.max_block_duration = 1 → False) :
    ∀ (days : List String) (st : St), SchedInv data st →
      SchedInv data ((faTryDays course g data eng dur bn fx days st).2.2) := by
  intro days
  induction days with
  | nil => intro st h; rw [faTryDays]; exact h
  | cons day rest ih =>
    intro st h
    rw [faTryDays]
    split
    · exact ih st h
    · dsimp only
      split
      · exact ih st h
      · cases hch : pyChoice
            (find_all_valid_positions course g dur day data st eng fx)
            st.rng with
        | mk posOpt rng1 =>
          cases posOpt with
          | none =>
            dsimp only
            exact ih _ (SchedInv_congr data st _ rfl rfl h)
          | some pos =>
            dsimp only
            have hpm : pos ∈ find_all_valid_positions course g dur day data st
                eng fx :=
              pyChoice_mem _ _ _ (by rw [hch])
            obtain ⟨hsl, hsid⟩ := favp_mem course g dur day data st eng fx pos
              hpm
            refine SchedInv_faCommit data course g eng bn day pos fx _
              (SchedInv_congr data st _ rfl rfl h) ?_ hnoteng
            intro sid hs
            rw [hsid] at hs
            obtain ⟨s2, hs2, hseq⟩ := List.mem_map.mp hs
            exact ⟨s2, hwf.1 day s2 (hsl s2 hs2), hseq⟩

theorem SchedInv_faWindows (data : SchedulingData) (hwf : DataWf data)
    (course : Course) (g : Nat) (eng : Bool) (dur bn p : Nat)
    (fx : Option String) (day : String) (day_slots : List TimeSlot)
    (hnoteng : ∀ crs, PyDict.get? data.courses course.id = some crs →
      isEnglishName crs.name = true → crs.max_block_duration = 1 → False) :
    ∀ (idxs : List Nat) (st : St), SchedInv data st →
      SchedInv data
        ((faWindows course g data eng dur bn p fx day day_slots
          idxs st).2.2) := by
  intro idxs
  induction idxs with
  | nil => intro st h; rw [faWindows]; exact h
  | cons i irest ih =>
    intro st h
    rw [faWindows]
    split
    · exact ih st h
    · split
      · exact ih st h
      · dsimp only
        split
        · exact ih st h
        · have hcfs : ∀ c ∈ (get_conflicting_blocks
              (((day_slots.drop i).take dur).map (·.id)) g st data).filter
              (fun c => !c.is_english), CFacts data c := by
            intro c hc
            obtain ⟨hcin, hcne⟩ := List.mem_filter.mp hc
            have hcne' : c.is_english = false := by
              revert hcne
              cases c.is_english <;> simp
            exact CFacts_of_gcb data st h.1 h.2.1 c _ _ hcin hcne'
          split
          · rename_i st1 heq
            have hrel := SchedInv_relocateAll data hwf _ st hcfs h
            rw [heq] at hrel
            have hInv1 : SchedInv data st1 := hrel
            split
            · exact ih st1 hInv1
            · rename_i pos tail heq2
              dsimp only
              have hpm : pos ∈ find_all_valid_positions course g dur day data
                  st1 eng fx := by
                rw [heq2]
                exact List.mem_cons_self _ _
              obtain ⟨hsl, hsid⟩ := favp_mem course g dur day data st1 eng fx
                pos hpm
              refine SchedInv_faCommit data course g eng bn day pos fx st1
                hInv1 ?_ hnoteng
              intro sid hs
              rw [hsid] at hs
              obtain ⟨s2, hs2, hseq⟩ := List.mem_map.mp hs
              exact ⟨s2, hwf.1 day s2 (hsl s2 hs2), hseq⟩
          · rename_i st1 heq
            have hrel := SchedInv_relocateAll data hwf _ st hcfs h
            rw [heq] at hrel
            exact ih st1 hrel

theorem SchedInv_faDisplaceDays (data : SchedulingData) (hwf : DataWf data)
    (course : Course) (g : Nat) (eng : Bool) (dur bn p : Nat)
    (fx : Option String)
    (hnoteng : ∀ crs, PyDict.get? data.courses course.id = some crs →
      isEnglishName crs.name = true → crs.max_block_duration = 1 → False) :
    ∀ (days : List String) (st : St), SchedInv data st →
      SchedInv data
        ((faDisplaceDays course g data eng dur bn p fx days st).2.2) := by
  intro days
  induction days with
  | nil => intro st h; rw [faDisplaceDays]; exact h
  | cons day rest ih =>
    intro st h
    rw [faDisplaceDays]
    split
    · exact ih st h
    · dsimp only
      have hW := SchedInv_faWindows data hwf course g eng dur bn p fx day
        (PyDict.getD data.slots_by_day day []) hnoteng
        (List.range ((PyDict.getD data.slots_by_day day []).length + 1 - dur))
        st h
      split
      · rename_i fh st1 heq
        rw [heq] at hW
        exact hW
      · rename_i x st1 heq
        rw [heq] at hW
        exact ih st1 hW

theorem SchedInv_faAttempts (data : SchedulingData) (hwf : DataWf data)
    (course : Course) (g : Nat) (eng : Bool) (dur bn p : Nat)
    (hnoteng : ∀ crs, PyDict.get? data.courses course.id = some crs →
      isEnglishName crs.name = true → crs.max_block_duration = 1 → False) :
    ∀ (fuel : Nat) (fx : Option String) (st : St), SchedInv data st →
      SchedInv data
        ((faAttempts course g data eng dur bn p fuel fx st).2.2) := by
  intro fuel
  induction fuel with
  | zero => intro fx st h; rw [faAttempts]; exact h
  | succ n ih =>
    intro fx st h
    rw [faAttempts]
    have hT := SchedInv_faTryDays data hwf course g eng dur bn fx hnoteng
      (pyShuffle (data.slots_by_day.map (·.1)) st.rng).1
      { st with rng := (pyShuffle (data.slots_by_day.map (·.1)) st.rng).2 }
      (SchedInv_congr data st _ rfl rfl h)
    split
    · rename_i fh st2 heq
      rw [heq] at hT
      exact hT
    · rename_i fh0 st2 heq
      rw [heq] at hT
      have hInv2 : SchedInv data st2 := hT
      have hD := SchedInv_faDisplaceDays data hwf course g eng dur bn p fx
        hnoteng (pyShuffle (data.slots_by_day.map (·.1)) st.rng).1 st2 hInv2
      split
      · rename_i fh st3 heq2
        rw [heq2] at hD
        exact hD
      · rename_i x st3 heq2
        rw [heq2] at hD
        exact ih fx st3 hD

theorem SchedInv_faBlocks (data : SchedulingData) (hwf : DataWf data)
    (course : Course) (g : Nat) (eng : Bool) (p maxA : Nat)
    (hnoteng : ∀ crs, PyDict.get? data.courses course.id = some crs →
      isEnglishName crs.name = true → crs.max_block_duration = 1 → False) :
    ∀ (durations : List Nat) (bn : Nat) (fx : Option String) (cnt : Nat)
      (st : St), SchedInv data st →
      SchedInv data
        ((faBlocks course g data eng p maxA durations bn fx cnt st).2) := by
  intro durations
  induction durations with
  | nil => intro bn fx cnt st h; rw [faBlocks]; exact h
  | cons dur rest ih =>
    intro bn fx cnt st h
    rw [faBlocks]
    have hA := SchedInv_faAttempts data hwf course g eng dur bn p hnoteng
      maxA fx st h
    split
    · rename_i fh st1 heq
      rw [heq] at hA
      exact ih _ _ _ st1 hA
    · rename_i fh st1 heq
      rw [heq] at hA
      exact ih _ _ _ st1 hA

theorem SchedInv_force_assign (data : SchedulingData) (hwf : DataWf data)
    (course : Course) (g : Nat) (eng : Bool) (bd : List Nat) (maxA : Nat)
    (st : St) (hInv : SchedInv data st)
    (hlook : PyDict.get? data.courses course.id = some course)
    (hengname : eng = isEnglishName course.name) :
    SchedInv data
      ((force_assign_with_displacement course g data eng bd maxA st).2) := by
  unfold force_assign_with_displacement
  dsimp only
  split
  · exact hInv
  · split
    · exact hInv
    · split
      · rename_i hcond
        refine SchedInv_assign_english data hwf course g bd _ maxA st hInv ?_
        simp [hcond.1]
      · rename_i hcond
        have hnoteng : ∀ crs, PyDict.get? data.courses course.id = some crs →
            isEnglishName crs.name = true → crs.max_block_duration = 1 →
            False := by
          intro crs hcrs he hm
          have hcc : crs = course := by
            rw [hlook] at hcrs
            injection hcrs with h'
            exact h'.symm
          subst hcc
          exact hcond ⟨by rw [hengname]; exact he, hm⟩
        exact SchedInv_faBlocks data hwf course g eng _ maxA hnoteng bd 1 _ 0
          st hInv

theorem foldl_pres {α : Type} (f : St → α → St) (P : St → Prop)
    (hf : ∀ s a, P s → P (f s a)) :
    ∀ (l : List α) (st : St), P st → P (l.foldl f st) := by
  intro l
  induction l with
  | nil => intro st h; exact h
  | cons a l ih =>
    intro st h
    simp only [List.foldl_cons]
    exact ih _ (hf st a h)

theorem SchedInv_init (data : SchedulingData) (groups : List Group)
    (rng : List Nat) :
    SchedInv data
      { room_usage := []
        tracker := GroupScheduleTracker.empty
        all_schedules := groups.foldl (fun d g => PyDict.set d g.id []) []
        rng := rng } := by
  have hempty : ∀ gkv ∈ groups.foldl
      (fun d g => PyDict.set d g.id ([] : PyDict HourId SchedEntry)) [],
      gkv.2 = [] := by
    intro gkv hg
    rcases mem_foldl_setf (fun g => g.id)
        (fun _ => ([] : PyDict HourId SchedEntry)) groups [] gkv hg with
      h' | ⟨a, ha, h1, h2⟩
    · cases h'
    · exact h2
  refine ⟨?_, ?_, ?_, ?_⟩
  · intro gkv hg kv hkv
    rw [hempty gkv hg] at hkv
    cases hkv
  · intro gkv hg kv hkv
    rw [hempty gkv hg] at hkv
    cases hkv
  · intro gkv hg kv hkv
    rw [hempty gkv hg] at hkv
    cases hkv
  · intro kv hkv
    cases hkv

theorem SchedInv_courseLoop (data : SchedulingData) (hwf : DataWf data)
    (assignments : List ProfessorCourseGroupAssignment)
    (english : List Course) :
    ∀ (cl : List Course) (st : St), SchedInv data st →
      (∀ course ∈ cl,
        PyDict.get? data.courses course.id = some course ∧
          decide (course ∈ english) = isEnglishName course.name) →
      SchedInv data (courseLoop data assignments english cl st) := by
  intro cl
  induction cl with
  | nil => intro st h _; rw [courseLoop]; exact h
  | cons course rest ih =>
    intro st h hfacts
    rw [courseLoop]
    refine ih _ ?_ (fun c2 h2 => hfacts c2 (List.mem_cons_of_mem _ h2))
    refine foldl_pres _ (SchedInv data) ?_
      (groupsWithCourse assignments course.id) st h
    intro s g2 hs
    exact SchedInv_force_assign data hwf course g2 _ _ 50 s hs
      (hfacts course (List.mem_cons_self _ _)).1
      (hfacts course (List.mem_cons_self _ _)).2

theorem SchedInv_verifyGroup (data : SchedulingData) (hwf : DataWf data)
    (assignments : List ProfessorCourseGroupAssignment) (gid : Nat) (st : St)
    (h : SchedInv data st)
    (hById : ∀ (k : Nat) (x : Course),
      PyDict.get? data.courses k = some x → x.id = k) :
    SchedInv data (verifyGroup data assignments gid st) := by
  unfold verifyGroup
  refine foldl_pres _ (SchedInv data) ?_ assignments st h
  intro s a hs
  split
  · cases hc : PyDict.get? data.courses a.course_id with
    | some course =>
      dsimp only
      split
      · refine SchedInv_force_assign data hwf course gid _ _ 100 s hs ?_ rfl
        have hid : course.id = a.course_id := hById _ _ hc
        rw [hid]
        exact hc
      · exact hs
    | none => exact hs
  · exact hs

theorem pipelineState_inv (courses : List Course) (rooms : List Room)
    (timeslots : List TimeSlot) (professors : List Professor)
    (assignments : List ProfessorCourseGroupAssignment)
    (professor_rooms : PyDict Nat Nat) (groups : List Group)
    (rng : List Nat) :
    SchedInv (mkData courses rooms timeslots professors assignments
        professor_rooms)
      (pipelineState courses rooms timeslots professors assignments
        professor_rooms groups rng) := by
  have hwf := mkData_wf courses rooms timeslots professors assignments
    professor_rooms
  have hById : ∀ (k : Nat) (x : Course),
      PyDict.get? (mkData courses rooms timeslots professors assignments
        professor_rooms).courses k = some x → x.id = k := by
    intro k x hx
    have hx' : PyDict.get? (dictById (fun x2 => x2.id) courses) k = some x :=
      hx
    exact (dictById_get? (fun x2 => x2.id) courses k x hx').1
  unfold pipelineState
  refine foldl_pres _
    (SchedInv (mkData courses rooms timeslots professors assignments
      professor_rooms)) ?_ groups _ ?_
  · intro s g2 hs
    exact SchedInv_verifyGroup _ hwf assignments g2.id s hs hById
  · refine SchedInv_courseLoop _ hwf assignments _ _ _
      (SchedInv_init _ groups rng) ?_
    intro course hcs
    have hcl : course ∈ (uniqueCoursesFromAssignments
        (mkData courses rooms timeslots professors assignments
          professor_rooms) assignments).map (·.2) := by
      rcases List.mem_append.mp hcs with h' | h'
      · exact List.mem_of_mem_filter h'
      · exact List.mem_of_mem_filter (mem_stableSort _ _ _ h')
    constructor
    · obtain ⟨kv, hkv, hkveq⟩ := List.mem_map.mp hcl
      have hu := uniqueCourses_lookup
        (mkData courses rooms timeslots professors assignments professor_rooms)
        hById assignments [] (by intro kv2 h2; cases h2) kv hkv
      rw [hkveq] at hu
      exact hu
    · by_cases he : course ∈
          ((uniqueCoursesFromAssignments
            (mkData courses rooms timeslots professors assignments
              professor_rooms) assignments).map (·.2)).filter
            (fun c => isEnglishName c.name)
      · rw [decide_eq_true he]
        exact (List.of_mem_filter he).symm
      · rw [decide_eq_false he]
        cases hne : isEnglishName course.name
        · rfl
        · exact absurd (List.mem_filter.mpr ⟨hcl, hne⟩) he

/-! Claim theorems. -/


/-- C3 (corrected): the block decomposer returns durations summing to
`weekly_hours`, each positive and at most `max_block_duration`; a course with
`weekly_hours = max_block_duration` decomposes to exactly one block.  (The
claim's lower bound `min_block_duration ≤ b` fails — see the
counterexample.) -/
theorem C3_block_decomposer (c : Course) (hmin : 1 ≤ c.min_block_duration)
    (hle : c.min_block_duration ≤ c.max_block_duration) :
    ((calculate_course_blocks c).sum = c.weekly_hours ∧
        ∀ b ∈ calculate_course_blocks c, 1 ≤ b ∧ b ≤ c.max_block_duration) ∧
      (c.weekly_hours = c.max_block_duration →
        calculate_course_blocks c = [c.weekly_hours]) := by
  constructor
  · exact calcBlocksGo_spec _ _ hmin hle c.weekly_hours c.weekly_hours (le_refl _)
  · intro heq
    have hmax1 : 1 ≤ c.max_block_duration := le_trans hmin hle
    unfold calculate_course_blocks
    rw [heq]
    obtain ⟨k, hk⟩ : ∃ k, c.max_block_duration = k + 1 :=
      ⟨c.max_block_duration - 1, by omega⟩
    rw [hk]
    exact calcBlocksGo_single c.min_block_duration k (by omega)

/-- C3 witness: a concrete course exercising the hypotheses. -/
theorem C3_block_decomposer_witness :
    1 ≤ (2 : Nat) ∧ (2 : Nat) ≤ 3 ∧
      (((calculate_course_blocks ⟨1, "Algo", 5, 2, 3, "aula", 0⟩).sum = 5 ∧
          ∀ b ∈ calculate_course_blocks ⟨1, "Algo", 5, 2, 3, "aula", 0⟩,
            1 ≤ b ∧ b ≤ 3) ∧
        ((5 : Nat) = 3 → calculate_course_blocks ⟨1, "Algo", 5, 2, 3, "aula", 0⟩ = [5])) :=
  ⟨by decide, by decide, C3_block_decomposer ⟨1, "Algo", 5, 2, 3, "aula", 0⟩ (by decide) (by decide)⟩

/-- C3 counterexample: `weekly_hours = 3`, `min = max = 2` yields `[2, 1]`,
whose last element is below `min_block_duration`. -/
theorem C3_counterexample :
    calculate_course_blocks ⟨0, "X", 3, 2, 2, "aula", 0⟩ = [2, 1] ∧
      ¬ (∀ b ∈ calculate_course_blocks ⟨0, "X", 3, 2, 2, "aula", 0⟩,
          (2 : Nat) ≤ b ∧ b ≤ 2) := by
  decide

/-- C4 (corrected, amended): `assign` followed by the matching `unassign`
restores every professor-slot and group-slot lookup, and leaves the fixed-hour
and used-days maps untouched, provided the assigned slots were free for that
professor and that group (which `can_assign_professor` / `can_assign_group`
state).  Byte-for-byte equality of the tracker value fails — see the
counterexample. -/
theorem C4_assign_unassign (t : GroupScheduleTracker) (p g c : Nat)
    (slots : List Nat)
    (hp : t.can_assign_professor p slots = true)
    (hg : t.can_assign_group g slots = true) :
    (∀ q s, profLookup ((t.assign p g slots c).unassign p g slots) q s =
        profLookup t q s) ∧
      (∀ q s, groupLookup ((t.assign p g slots c).unassign p g slots) q s =
        groupLookup t q s) ∧
      ((t.assign p g slots c).unassign p g slots).course_fixed_hour =
        t.course_fixed_hour ∧
      ((t.assign p g slots c).unassign p g slots).group_course_days =
        t.group_course_days := by
  have hpN : ∀ s ∈ slots, PyDict.get? (PyDict.getD t.prof_schedule p []) s = none :=
    (can_assign_professor_iff t p slots).mp hp
  have hgN : ∀ s ∈ slots, PyDict.get? (PyDict.getD t.group_schedule g []) s = none :=
    (can_assign_group_iff t g slots).mp hg
  rw [unassign_assign_eq]
  refine ⟨?_, ?_, rfl, rfl⟩
  · intro q s
    by_cases hq : q = p
    · subst hq
      unfold profLookup PyDict.getD
      rw [PyDict.get?_set_self]
      simp only [Option.getD_some]
      rw [get?_foldl_pop, get?_foldl_set]
      by_cases hs : s ∈ slots
      · simp only [hs, if_true]
        exact (hpN s hs).symm
      · simp [hs]
    · unfold profLookup PyDict.getD
      rw [PyDict.get?_set_ne _ _ _ _ hq]
  · intro q s
    by_cases hq : q = g
    · subst hq
      unfold groupLookup PyDict.getD
      rw [PyDict.get?_set_self]
      simp only [Option.getD_some]
      rw [get?_foldl_pop, get?_foldl_set]
      by_cases hs : s ∈ slots
      · simp only [hs, if_true]
        exact (hgN s hs).symm
      · simp [hs]
    · unfold groupLookup PyDict.getD
      rw [PyDict.get?_set_ne _ _ _ _ hq]

/-- C4 witness: a concrete tracker state and block exercising the
hypotheses. -/
theorem C4_assign_unassign_witness :
    c4Tracker0.can_assign_professor 1 [5] = true ∧
      c4Tracker0.can_assign_group 1 [5] = true ∧
      ((∀ q s, profLookup ((c4Tracker0.assign 1 1 [5] 9).unassign 1 1 [5]) q s =
          profLookup c4Tracker0 q s) ∧
        (∀ q s, groupLookup ((c4Tracker0.assign 1 1 [5] 9).unassign 1 1 [5]) q s =
          groupLookup c4Tracker0 q s) ∧
        ((c4Tracker0.assign 1 1 [5] 9).unassign 1 1 [5]).course_fixed_hour =
          c4Tracker0.course_fixed_hour ∧
        ((c4Tracker0.assign 1 1 [5] 9).unassign 1 1 [5]).group_course_days =
          c4Tracker0.group_course_days) :=
  ⟨by decide, by decide, C4_assign_unassign c4Tracker0 1 1 9 [5] (by decide) (by decide)⟩

/-- C4 counterexample: starting from the reachable state `c4Tracker0`
(one `assign` on the empty tracker), `assign` followed by the matching
`unassign` leaves an empty inner dict behind, so the resulting tracker is not
byte-for-byte equal to the prior state — not even under Python `==`. -/
theorem C4_counterexample :
    c4Tracker1 ≠ c4Tracker0 ∧
      trackerPyEq c4Tracker1 c4Tracker0 = false ∧
      PyDict.get? c4Tracker1.prof_schedule 1 = some [] ∧
      PyDict.get? c4Tracker0.prof_schedule 1 = none := by
  refine ⟨?_, by decide, by decide, by decide⟩
  intro h
  have := congrArg (fun t => PyDict.get? t.prof_schedule 1) h
  simp only at this
  rw [show PyDict.get? c4Tracker1.prof_schedule 1 = some [] from by decide,
    show PyDict.get? c4Tracker0.prof_schedule 1 = none from by decide] at this
  cases this

/-- C8 (corrected, amended): for every professor in the input (with distinct
professor ids), the computed available-slot set is the set of ALL input slot
ids minus the professor's unavailability set — not just the valid (17:00 to
22:00) ones; see the counterexample. -/
theorem C8_professor_available_slots (courses : List Course) (rooms : List Room)
    (timeslots : List TimeSlot) (professors : List Professor)
    (assignments : List ProfessorCourseGroupAssignment)
    (professor_rooms : PyDict Nat Nat)
    (hnodup : (professors.map (·.id)).Nodup) (p : Professor)
    (hp : p ∈ professors) :
    ∃ avail,
      PyDict.get?
          (mkData courses rooms timeslots professors assignments
              professor_rooms).professor_available_slots p.id =
        some avail ∧
      ∀ s, s ∈ avail ↔ (s ∈ timeslots.map (·.id) ∧ s ∉ p.availability) := by
  refine ⟨PySet.diff (PySet.ofList (timeslots.map (·.id)))
    (PySet.ofList p.availability), ?_, ?_⟩
  · show PyDict.get?
        (professors.foldl
          (fun d q =>
            PyDict.set d q.id
              (PySet.diff (PySet.ofList (timeslots.map (·.id)))
                (PySet.ofList q.availability)))
          []) p.id = _
    exact get?_foldl_setf_of_mem professors (·.id)
      (fun q => PySet.diff (PySet.ofList (timeslots.map (·.id)))
        (PySet.ofList q.availability)) [] p hnodup hp
  · intro s
    rw [PySet.mem_diff, PySet.mem_ofList, PySet.mem_ofList]

/-- C8 witness: one professor, one out-of-window slot. -/
theorem C8_professor_available_slots_witness :
    ([⟨1, "P", [7], 10⟩] : List Professor).map (·.id) = [1] ∧
      (∃ avail,
        PyDict.get?
            (mkData [] [] [⟨5, "Lunes", "18:00:00", "19:00:00"⟩, ⟨7, "Lunes", "19:00:00", "20:00:00"⟩]
                [⟨1, "P", [7], 10⟩] [] []).professor_available_slots 1 =
          some avail ∧
        ∀ s, s ∈ avail ↔
          (s ∈ ([⟨5, "Lunes", "18:00:00", "19:00:00"⟩, ⟨7, "Lunes", "19:00:00", "20:00:00"⟩] : List TimeSlot).map (·.id) ∧
            s ∉ [7])) :=
  ⟨by decide,
    C8_professor_available_slots [] []
      [⟨5, "Lunes", "18:00:00", "19:00:00"⟩, ⟨7, "Lunes", "19:00:00", "20:00:00"⟩]
      [⟨1, "P", [7], 10⟩] [] [] (by decide) ⟨1, "P", [7], 10⟩ (by decide)⟩

/-- C8 counterexample: an input slot outside the 17:00-22:00 window still
lands in the professor's available set, so `available` is not
`all_valid_slot_ids \ unavailability` as the claim states. -/
theorem C8_counterexample :
    PyDict.get?
        (mkData [] [] [⟨5, "Lunes", "10:00:00", "11:00:00"⟩] [⟨1, "P", [], 10⟩]
            [] []).professor_available_slots 1 = some [5] ∧
      (mkData [] [] [⟨5, "Lunes", "10:00:00", "11:00:00"⟩] [⟨1, "P", [], 10⟩]
          [] []).valid_slots.map (·.id) = [] := by
  constructor <;> decide

/-- C10 (confirmed): a professor id absent from the professors input has no
entry in `professor_available_slots`, so `is_professor_available_at_slots`
returns `True` for every slot list — such a professor is scheduled with no
availability constraint at all. -/
theorem C10_absent_professor_available (courses : List Course)
    (rooms : List Room) (timeslots : List TimeSlot)
    (professors : List Professor)
    (assignments : List ProfessorCourseGroupAssignment)
    (professor_rooms : PyDict Nat Nat) (pid : Nat)
    (hpid : pid ∉ professors.map (·.id)) (slot_ids : List Nat) :
    (mkData courses rooms timeslots professors assignments
        professor_rooms).is_professor_available_at_slots pid slot_ids = true := by
  unfold SchedulingData.is_professor_available_at_slots
  have hnone : PyDict.get?
      (mkData courses rooms timeslots professors assignments
          professor_rooms).professor_available_slots pid = none := by
    show PyDict.get?
        (professors.foldl
          (fun d q =>
            PyDict.set d q.id
              (PySet.diff (PySet.ofList (timeslots.map (·.id)))
                (PySet.ofList q.availability)))
          []) pid = none
    rw [get?_foldl_setf_of_not_mem professors (·.id)
      (fun q => PySet.diff (PySet.ofList (timeslots.map (·.id)))
        (PySet.ofList q.availability)) [] pid hpid]
    rfl
  rw [hnone]

/-- C10 witness: professor id 99 is not among the input professors. -/
theorem C10_absent_professor_available_witness :
    (99 ∉ ([⟨1, "P", [5], 10⟩] : List Professor).map (·.id)) ∧
      (mkData [] [] [⟨5, "Lunes", "18:00:00", "19:00:00"⟩] [⟨1, "P", [5], 10⟩]
          [] []).is_professor_available_at_slots 99 [5, 6] = true :=
  ⟨by decide,
    C10_absent_professor_available [] [] [⟨5, "Lunes", "18:00:00", "19:00:00"⟩]
      [⟨1, "P", [5], 10⟩] [] [] 99 (by decide) [5, 6]⟩


/-- C9 (confirmed): the orchestrator, with every `random.shuffle` /
`random.choice` / `random.randint` site drawing from the explicit random
stream, is a pure function of its inputs and that stream: two runs with the
same inputs and the same stream return identical schedule maps. -/
theorem C9_two_run_determinism (courses : List Course) (rooms : List Room)
    (timeslots : List TimeSlot) (professors : List Professor)
    (assignments : List ProfessorCourseGroupAssignment)
    (professor_rooms : PyDict Nat Nat) (groups : List Group)
    (rng1 rng2 : List Nat) (h : rng1 = rng2) :
    generate_schedule_for_all_groups courses rooms timeslots professors
        assignments professor_rooms groups rng1 =
      generate_schedule_for_all_groups courses rooms timeslots professors
        assignments professor_rooms groups rng2 := by
  rw [h]

/-- C9 witness: a concrete double run on the C6 scenario inputs. -/
theorem C9_two_run_determinism_witness :
    ([3, 1, 4] : List Nat) = [3, 1, 4] ∧
      generate_schedule_for_all_groups [c6Course] [⟨101, "A", 30, "aula", "B"⟩]
          c6Timeslots [⟨1, "P", [], 40⟩] [⟨1, 1, 12, 1, 1⟩] [(1, 101)]
          [⟨1, "G1", "T"⟩] [3, 1, 4] =
        generate_schedule_for_all_groups [c6Course] [⟨101, "A", 30, "aula", "B"⟩]
          c6Timeslots [⟨1, "P", [], 40⟩] [⟨1, 1, 12, 1, 1⟩] [(1, 101)]
          [⟨1, "G1", "T"⟩] [3, 1, 4] :=
  ⟨rfl,
    C9_two_run_determinism [c6Course] [⟨101, "A", 30, "aula", "B"⟩] c6Timeslots
      [⟨1, "P", [], 40⟩] [⟨1, 1, 12, 1, 1⟩] [(1, 101)] [⟨1, "G1", "T"⟩]
      [3, 1, 4] [3, 1, 4] rfl⟩

/-- C1 counterexample: in the generic force-assign fallback, the desired
window (slot 1017) is intersected by a language-course block — yet the
displacement attempt is not abandoned: the non-language intersecting block is
relocated and the placement into that window happens on that very attempt. -/
theorem C1_counterexample :
    ((get_conflicting_blocks [1017] 2 c1St c1Data).any
        (fun c => c.is_english) = true) ∧
      (find_all_valid_positions c1CourseX 2 1 "Lunes" c1Data c1St false none
        = []) ∧
      (find_all_valid_positions c1CourseX 2 1 "Martes" c1Data c1St false none
        = []) ∧
      ((force_assign_with_displacement c1CourseX 2 c1Data false [1] 50 c1St).1
        = true) ∧
      (PyDict.get?
          (PyDict.getD
            (force_assign_with_displacement c1CourseX 2 c1Data false [1] 50
                c1St).2.all_schedules 2 [])
          (2, 22, 1, 0) = some (1017, 101, 22)) ∧
      (PyDict.get?
          (PyDict.getD
            (force_assign_with_displacement c1CourseX 2 c1Data false [1] 50
                c1St).2.all_schedules 3 [])
          (3, 21, 1, 0) = none) := by
  decide

/-- C6 counterexample: a language course with `max_block_duration = 2` is
placed as one two-hour block, so its two placed hours start at 17:00 and at
18:00 — not at one shared clock hour. -/
theorem C6_counterexample :
    isEnglishName c6Course.name = true ∧
      PyDict.get? (PyDict.getD c6Out 1 []) (1, 12, 1, 0) =
        some (1017, 101, 12) ∧
      PyDict.get? (PyDict.getD c6Out 1 []) (1, 12, 1, 1) =
        some (1018, 101, 12) ∧
      (c6Data.valid_slots.find? (fun t => decide (t.id = 1017))).map
          (fun t => t.start_time) = some "17:00:00" ∧
      (c6Data.valid_slots.find? (fun t => decide (t.id = 1018))).map
          (fun t => t.start_time) = some "18:00:00" ∧
      ("17:00:00" : String) ≠ "18:00:00" := by
  decide


/-- C1 (corrected, amended): language-course blocks are protected in both
displacement paths, but full abandonment holds only in the language-course
placer.  (1) If the language placer's gather loop reports a (sequence, hour)
workable — the precondition for relocating anything and committing there —
then no block intersecting any of its target slots is a language-course
block; contrapositively, any intersecting language block abandons that
attempt.  (2) In the generic fallback the relocation list is filtered to
non-language blocks only, so no language block is ever relocated — but, as
the counterexample shows, the attempt itself proceeds and may still place
into the window. -/
theorem C1_language_blocks_protected :
    (∀ (data : SchedulingData) (prof_id group_id : Nat) (hour : String)
        (st : St) (seq : List String) (acc out : List Conflict),
      engGather data prof_id group_id hour st seq acc = (true, out) →
      ∀ day ∈ seq, ∀ slot,
        findSlotAtHour (PyDict.getD data.slots_by_day day []) hour = some slot →
        ∀ c ∈ get_conflicting_blocks [slot.id] group_id st data,
          c.is_english = false) ∧
    (∀ (data : SchedulingData) (slot_ids : List Nat) (group_id : Nat) (st : St),
      ∀ c ∈ (get_conflicting_blocks slot_ids group_id st data).filter
          (fun c => !c.is_english),
        c.is_english = false) := by
  constructor
  · intro data prof_id group_id hour st
    have scanLemma : ∀ (conflicts acc out : List Conflict),
        engScanConflicts conflicts acc = (true, out) →
        ∀ c ∈ conflicts, c.is_english = false := by
      intro conflicts
      induction conflicts with
      | nil => intro acc out _ c hc; cases hc
      | cons c0 cs ih =>
        intro acc out hscan c hc
        by_cases he : c0.is_english
        · rw [engScanConflicts, if_pos he] at hscan
          cases hscan
        · rw [engScanConflicts, if_neg he] at hscan
          rcases List.mem_cons.mp hc with rfl | hmem
          · exact Bool.eq_false_iff.mpr he
          · exact ih _ _ hscan c hmem
    intro seq
    induction seq with
    | nil => intro acc out _ day hday; cases hday
    | cons d0 drest ih =>
      intro acc out hg day hday slot hslot c hc
      rw [engGather] at hg
      cases hfind : findSlotAtHour (PyDict.getD data.slots_by_day d0 []) hour with
      | none =>
        simp only [hfind] at hg
        simp at hg
      | some slot0 =>
        simp only [hfind] at hg
        by_cases hav :
            data.is_professor_available_at_slots prof_id [slot0.id] = true
        · simp only [hav, Bool.not_true, Bool.false_eq_true, if_false] at hg
          cases hscan : engScanConflicts
              (get_conflicting_blocks [slot0.id] group_id st data) acc with
          | mk ok acc2 =>
            rw [hscan] at hg
            cases ok with
            | false => simp at hg
            | true =>
              simp only at hg
              rcases List.mem_cons.mp hday with rfl | hmem
              · have hss : slot = slot0 := by
                  rw [hfind] at hslot
                  exact (Option.some_inj.mp hslot).symm
                subst hss
                exact scanLemma _ _ _ hscan c hc
              · exact ih _ _ hg day hmem slot hslot c hc
        · have hav2 : data.is_professor_available_at_slots prof_id [slot0.id]
              = false := Bool.eq_false_iff.mpr hav
          simp only [hav2, Bool.not_false, if_true] at hg
          simp at hg
  · intro data slot_ids group_id st c hc
    have := List.of_mem_filter hc
    simpa using this

/-- C1 witness: a state where the window's only intersecting block is a
non-language block — the gather loop reports it workable, and indeed every
intersecting block is non-language. -/
theorem C1_language_blocks_protected_witness :
    engGather c1Data 2 2 "17:00:00" c1StB ["Lunes"] [] =
        (true, (engGather c1Data 2 2 "17:00:00" c1StB ["Lunes"] []).2) ∧
      (∀ day ∈ ["Lunes"], ∀ slot,
        findSlotAtHour (PyDict.getD c1Data.slots_by_day day []) "17:00:00" =
          some slot →
        ∀ c ∈ get_conflicting_blocks [slot.id] 2 c1StB c1Data,
          c.is_english = false) :=
  ⟨by decide,
    C1_language_blocks_protected.1 c1Data 2 2 "17:00:00" c1StB ["Lunes"] []
      (engGather c1Data 2 2 "17:00:00" c1StB ["Lunes"] []).2 (by decide)⟩

/-- C2: if `try_relocate_block` fails to find a new position on any day, the
state after the call (schedule hour-entries, professor and group tracker
maps, room usage, fixed hours and used-day sets) is Python-`==` to the state
before the call, for every conflict record consistent with the state. -/
theorem C2_try_relocate_transactional (conflict : Conflict)
    (data : SchedulingData) (st st' : St)
    (hwf : RelocWf data st conflict)
    (hfail : try_relocate_block conflict data st = (false, st')) :
    StEquiv st' st := by
  obtain ⟨hne, hnodup, hhours, hallpres, hroompres, hprofpres, hgrppres,
    hdayswf⟩ := hwf
  set P := data.get_professor_for_group_course conflict.group_id
    conflict.course_id with hP
  unfold try_relocate_block at hfail
  cases hcc : conflict.course with
  | none =>
    simp only [hcc] at hfail
    injection hfail with h1 h2
    cases h2
    exact StEquiv_refl st
  | some course =>
    simp only [hcc, ← hP] at hfail
    by_cases hp : P = 0
    · rw [if_pos hp] at hfail
      injection hfail with h1 h2
      cases h2
      exact StEquiv_refl st
    · rw [if_neg hp] at hfail
      split at hfail
      · simp at hfail
      · rename_i st6 heq
        injection hfail with h1 h2
        cases h2
        obtain ⟨h6all, h6tr, h6room⟩ :=
          relocDayLoop_false _ _ _ _ _ _ _ _ _ _ heq
        have hall6 : st6.all_schedules =
            (trbRemove conflict course P data st).all_schedules := h6all
        have htr6 : st6.tracker =
            (trbRemove conflict course P data st).tracker := h6tr
        have hroom6 : st6.room_usage =
            (trbRemove conflict course P data st).room_usage := h6room
        refine ⟨?_, ?_, ?_, ?_, ?_, ?_⟩
        · -- all_schedules
          intro g'
          constructor
          · rw [trbRestore_all_schedules, presence_schedSetValFold, hall6,
              trbRemove_all_schedules, presence_schedDelFold]
          · intro k'
            by_cases hck : g' = conflict.group_id ∧
                k' ∈ conflict.hours.map (·.hour_id)
            · obtain ⟨rfl, hk⟩ := hck
              obtain ⟨h, hh, hkeq⟩ := List.mem_map.mp hk
              have hkeq' : h.hour_id = k' := hkeq
              subst hkeq'
              have hpres6 : (PyDict.get? st6.all_schedules
                  conflict.group_id).isSome = true := by
                rw [hall6, trbRemove_all_schedules, presence_schedDelFold]
                exact hallpres
              rw [trbRestore_all_schedules,
                get2_schedSetValFold_mem conflict.group_id conflict.course_id
                  conflict.hours st6 hpres6 hnodup h hh]
              exact ((hhours h hh).1).symm
            · have hcond := not_and_or.mp hck
              rw [trbRestore_all_schedules,
                get2_schedSetValFold_not_mem _ _ _ _ _ _ hcond, hall6,
                trbRemove_all_schedules, get2_schedDelFold, if_neg hck]
        · -- prof_schedule
          have hprofvals : ∀ s ∈ conflict.hours.map (·.slot_id),
              profLookup st.tracker P s = some conflict.group_id := by
            intro s hs
            obtain ⟨h, hh, hseq⟩ := List.mem_map.mp hs
            have hseq' : h.slot_id = s := hseq
            subst hseq'
            exact (hhours h hh).2.2.1
          have hProf := profLookup_unassign_assign st.tracker P
            conflict.group_id conflict.course_id
            (conflict.hours.map (·.slot_id)) hprofpres hprofvals
          have htrF : (trbRestore conflict course P data
                st6).tracker.prof_schedule =
              ((st.tracker.unassign P conflict.group_id
                  (conflict.hours.map (·.slot_id))).assign P conflict.group_id
                (conflict.hours.map (·.slot_id))
                conflict.course_id).prof_schedule := by
            rw [trbRestore_prof_schedule, assign_prof_schedule_eq,
              assign_prof_schedule_eq]
            have hx : st6.tracker.prof_schedule =
                (st.tracker.unassign P conflict.group_id
                  (conflict.hours.map (·.slot_id))).prof_schedule := by
              rw [htr6, trbRemove_prof_schedule]
            rw [hx]
          intro q
          constructor
          · rw [htrF]
            exact hProf.2 q
          · intro s'
            rw [htrF]
            exact hProf.1 q s'
        · -- group_schedule
          have hgrpvals : ∀ s ∈ conflict.hours.map (·.slot_id),
              groupLookup st.tracker conflict.group_id s =
                some conflict.course_id := by
            intro s hs
            obtain ⟨h, hh, hseq⟩ := List.mem_map.mp hs
            have hseq' : h.slot_id = s := hseq
            subst hseq'
            exact (hhours h hh).2.2.2.1
          have hGrp := groupLookup_unassign_assign st.tracker P
            conflict.group_id conflict.course_id
            (conflict.hours.map (·.slot_id)) hgrppres hgrpvals
          have htrG : (trbRestore conflict course P data
                st6).tracker.group_schedule =
              ((st.tracker.unassign P conflict.group_id
                  (conflict.hours.map (·.slot_id))).assign P conflict.group_id
                (conflict.hours.map (·.slot_id))
                conflict.course_id).group_schedule := by
            rw [trbRestore_group_schedule, assign_group_schedule_eq,
              assign_group_schedule_eq]
            have hx : st6.tracker.group_schedule =
                (st.tracker.unassign P conflict.group_id
                  (conflict.hours.map (·.slot_id))).group_schedule := by
              rw [htr6, trbRemove_group_schedule]
            rw [hx]
          intro q
          constructor
          · rw [htrG]
            exact hGrp.2 q
          · intro s'
            rw [htrG]
            exact hGrp.1 q s'
        · -- course_fixed_hour
          rw [trbRestore_course_fixed_hour, htr6, trbRemove_course_fixed_hour]
        · -- group_course_days
          cases hod : trbOldDay conflict data with
          | none =>
            refine dictSetEquiv_of_eq ?_
            rw [trbRestore_days_eq, hod]
            dsimp only
            rw [htr6, trbRemove_days_eq, hod]
          | some d =>
            by_cases hcnd : ¬ (d = "") ∧ course.max_block_duration = 1
            · have hodRaw : (data.valid_slots.find?
                  (fun s => decide
                    (s.id = (conflict.hours.map (·.slot_id)).headD 0))).map
                    (·.day) = some d := hod
              obtain ⟨hdpres, hdmem⟩ :=
                hdayswf course hcc hcnd.2 d hodRaw hcnd.1
              obtain ⟨ds, hds⟩ := Option.isSome_iff_exists.mp hdpres
              have hdmem' : d ∈ ds := by
                unfold PyDict.getD at hdmem
                rw [hds] at hdmem
                simpa using hdmem
              have hdays6 : st6.tracker.group_course_days =
                  PyDict.set st.tracker.group_course_days
                    (conflict.group_id, conflict.course_id)
                    (PySet.discard ds d) := by
                rw [htr6, trbRemove_days_eq, hod]
                dsimp only
                rw [if_pos hcnd]
                exact remove_day_days_eq st.tracker _ _ d ds hds
              have hdaysF : (trbRestore conflict course P data
                    st6).tracker.group_course_days =
                  PyDict.set st.tracker.group_course_days
                    (conflict.group_id, conflict.course_id)
                    (PySet.add (PySet.discard ds d) d) := by
                rw [trbRestore_days_eq, hod]
                dsimp only
                rw [if_pos hcnd, add_day_days_eq, hdays6]
                have hg : PyDict.getD
                    (PyDict.set st.tracker.group_course_days
                      (conflict.group_id, conflict.course_id)
                      (PySet.discard ds d))
                    (conflict.group_id, conflict.course_id) [] =
                    PySet.discard ds d := by
                  unfold PyDict.getD
                  rw [PyDict.get?_set_self]
                  rfl
                rw [hg, PyDict.set_set]
              rw [hdaysF]
              exact daysDict_restore st.tracker.group_course_days
                (conflict.group_id, conflict.course_id) d ds hds hdmem'
            · refine dictSetEquiv_of_eq ?_
              rw [trbRestore_days_eq, hod]
              dsimp only
              rw [if_neg hcnd, htr6, trbRemove_days_eq, hod]
              dsimp only
              rw [if_neg hcnd]
        · -- room_usage
          obtain ⟨used, hused⟩ := Option.isSome_iff_exists.mp hroompres
          have hmemslots : ∀ x ∈ conflict.hours.map (·.slot_id), x ∈ used := by
            intro x hx
            obtain ⟨h, hh, hseq⟩ := List.mem_map.mp hx
            have hseq' : h.slot_id = x := hseq
            subst hseq'
            have hm := (hhours h hh).2.2.2.2
            unfold PyDict.getD at hm
            rw [hused] at hm
            simpa using hm
          have hroom6' : st6.room_usage =
              PyDict.set st.room_usage
                ((conflict.hours.headD dummyConflictHour).room_id)
                ((conflict.hours.map (·.slot_id)).foldl PySet.discard
                  used) := by
            rw [hroom6, trbRemove_room_usage, hused]
          have hroomF : (trbRestore conflict course P data st6).room_usage =
              PyDict.set st.room_usage
                ((conflict.hours.headD dummyConflictHour).room_id)
                (PySet.addAll
                  ((conflict.hours.map (·.slot_id)).foldl PySet.discard used)
                  (conflict.hours.map (·.slot_id))) := by
            rw [trbRestore_room_usage, hroom6']
            have hg : PyDict.getD
                (PyDict.set st.room_usage
                  ((conflict.hours.headD dummyConflictHour).room_id)
                  ((conflict.hours.map (·.slot_id)).foldl PySet.discard used))
                ((conflict.hours.headD dummyConflictHour).room_id) [] =
                (conflict.hours.map (·.slot_id)).foldl PySet.discard used := by
              unfold PyDict.getD
              rw [PyDict.get?_set_self]
              rfl
            rw [hg, PyDict.set_set]
          rw [hroomF]
          exact roomDict_restore st.room_usage
            ((conflict.hours.headD dummyConflictHour).room_id)
            (conflict.hours.map (·.slot_id)) used hused hmemslots

theorem C2_try_relocate_transactional_witness :
    StEquiv (try_relocate_block w2Conflict w2Data w2St).2 w2St := by
  refine C2_try_relocate_transactional w2Conflict w2Data w2St
    (try_relocate_block w2Conflict w2Data w2St).2 ?_ ?_
  · refine ⟨by decide, by decide, by decide, by decide, by decide, by decide,
      by decide, ?_⟩
    intro crs hcrs hmax d hd hdne
    injection (show some w2Course = some crs from hcrs) with hc
    subst hc
    injection (show some "Lunes" = some d from hd) with hday
    subst hday
    exact ⟨by decide, by decide⟩
  · decide

/-- C5: whenever the language placer succeeds for `N` one-hour blocks, it
commits through `engCommit` a position list of length `N` whose days form a
sequence drawn from `get_consecutive_day_sequences` (distinct days,
consecutive in the canonical weekday order), with every position's slot
starting at one identical hour; the `N` written schedule entries
`G<g>_C<c>_B<k>_H0` carry those slots. -/
theorem C5_english_consecutive_single_hour (course : Course) (group_id : Nat)
    (data : SchedulingData) (block_durations : List Nat)
    (fixed_hour : Option String) (max_attempts : Nat) (st st2 : St)
    (h : assign_english_consecutive_days course group_id data block_durations
      fixed_hour max_attempts st = (true, st2)) :
    ∃ seq, seq ∈ get_consecutive_day_sequences (data.slots_by_day.map (·.1))
        block_durations.length ∧
      seq.length = block_durations.length ∧ seq.Nodup ∧
      pairwiseConsecutive (seq.map (fun d => day_order.indexOf d)) = true ∧
      ∃ hour positions stPre,
        positions.map (fun p => p.day) = seq ∧
        positions.length = block_durations.length ∧
        (∀ p ∈ positions, p.slot.start_time = hour ∧
          p.slot ∈ PyDict.getD data.slots_by_day p.day []) ∧
        st2 = engCommit course group_id
          (data.get_professor_for_group_course group_id course.id)
          (data.get_professor_room
            (data.get_professor_for_group_course group_id course.id))
          positions hour fixed_hour stPre ∧
        ((PyDict.get? stPre.all_schedules group_id).isSome = true →
          ∀ ip ∈ positions.enum,
            PyDict.get? (PyDict.getD st2.all_schedules group_id [])
                (group_id, course.id, ip.1 + 1, 0) =
              some (ip.2.slot.id,
                data.get_professor_room
                  (data.get_professor_for_group_course group_id course.id),
                course.id)) := by
  unfold assign_english_consecutive_days at h
  dsimp only at h
  split at h
  · simp at h
  · rename_i hne
    obtain ⟨seq, hmem, hour, positions, stPre, hcr, hlen, hcommit⟩ :=
      engAttempts_true course group_id
        (data.get_professor_for_group_course group_id course.id)
        (data.get_professor_room
          (data.get_professor_for_group_course group_id course.id))
        block_durations.length fixed_hour data _ _ _ _ h
    have hmem0 : seq ∈ get_consecutive_day_sequences
        (data.slots_by_day.map (·.1)) block_durations.length :=
      pyShuffle_subset _ _ seq hmem
    obtain ⟨hlenseq, hnd, hpc⟩ := gcds_mem_spec _ _ seq hmem0
    rcases hcr with hcr | hcr
    · obtain ⟨sfx, hps, hmap, hprops⟩ :=
        engCheckSeq_spec data stPre _ _ group_id hour seq [] positions hcr
      have hsx : positions = sfx := by simpa using hps
      subst hsx
      refine ⟨seq, hmem0, hlenseq, hnd, hpc, hour, positions, stPre, hmap,
        hlen, ?_, hcommit, ?_⟩
      · intro p hp
        obtain ⟨h1, h2, _, _⟩ := hprops p hp
        exact ⟨h1, h2⟩
      · intro hpres ip hip
        rw [hcommit]
        exact engCommit_get2_mem course group_id _ _ positions hour fixed_hour
          stPre hpres ip hip
    · obtain ⟨sfx, hps, hmap, hprops⟩ :=
        engRecheckSeq_spec stPre _ _ group_id data hour seq [] positions hcr
      have hsx : positions = sfx := by simpa using hps
      subst hsx
      refine ⟨seq, hmem0, hlenseq, hnd, hpc, hour, positions, stPre, hmap,
        hlen, ?_, hcommit, ?_⟩
      · intro p hp
        obtain ⟨h1, h2, _, _⟩ := hprops p hp
        exact ⟨h1, h2⟩
      · intro hpres ip hip
        rw [hcommit]
        exact engCommit_get2_mem course group_id _ _ positions hour fixed_hour
          stPre hpres ip hip

theorem C5_english_consecutive_single_hour_witness :
    ∃ seq, seq ∈ get_consecutive_day_sequences
        (w5Data.slots_by_day.map (·.1)) [1, 1].length ∧
      seq.length = [1, 1].length ∧ seq.Nodup ∧
      pairwiseConsecutive (seq.map (fun d => day_order.indexOf d)) = true ∧
      ∃ hour positions stPre,
        positions.map (fun p => p.day) = seq ∧
        positions.length = [1, 1].length ∧
        (∀ p ∈ positions, p.slot.start_time = hour ∧
          p.slot ∈ PyDict.getD w5Data.slots_by_day p.day []) ∧
        (assign_english_consecutive_days w5Course 1 w5Data [1, 1] none 10
            w5St).2 = engCommit w5Course 1
          (w5Data.get_professor_for_group_course 1 w5Course.id)
          (w5Data.get_professor_room
            (w5Data.get_professor_for_group_course 1 w5Course.id))
          positions hour none stPre ∧
        ((PyDict.get? stPre.all_schedules 1).isSome = true →
          ∀ ip ∈ positions.enum,
            PyDict.get?
                (PyDict.getD
                  (assign_english_consecutive_days w5Course 1 w5Data [1, 1]
                      none 10 w5St).2.all_schedules 1 [])
                (1, w5Course.id, ip.1 + 1, 0) =
              some (ip.2.slot.id,
                w5Data.get_professor_room
                  (w5Data.get_professor_for_group_course 1 w5Course.id),
                w5Course.id)) :=
  C5_english_consecutive_single_hour w5Course 1 w5Data [1, 1] none 10 w5St
    (assign_english_consecutive_days w5Course 1 w5Data [1, 1] none 10 w5St).2
    (by decide)

/-- C7: every timeslot id placed anywhere in the orchestrator's output
refers to an input timeslot whose start hour lies in the
`[17:00, 22:00)` window (lexicographic comparison, as in the source). -/
theorem C7_window_invariant (courses : List Course) (rooms : List Room)
    (timeslots : List TimeSlot) (professors : List Professor)
    (assignments : List ProfessorCourseGroupAssignment)
    (professor_rooms : PyDict Nat Nat) (groups : List Group)
    (rng : List Nat) :
    ∀ gkv ∈ generate_schedule_for_all_groups courses rooms timeslots
        professors assignments professor_rooms groups rng,
      ∀ kv ∈ gkv.2, ∃ t ∈ timeslots, t.id = kv.2.1 ∧
        pyStrLe "17:00" t.start_time = true ∧
        pyStrLt t.start_time "22:00" = true := by
  intro gkv hg kv hkv
  have hgen : generate_schedule_for_all_groups courses rooms timeslots
      professors assignments professor_rooms groups rng =
      (pipelineState courses rooms timeslots professors assignments
        professor_rooms groups rng).all_schedules := rfl
  rw [hgen] at hg
  have hinv := pipelineState_inv courses rooms timeslots professors
    assignments professor_rooms groups rng
  obtain ⟨t, ht, htid⟩ := hinv.1 gkv hg kv hkv
  have ht' : t ∈ timeslots.filter inValidWindow := ht
  have hv : inValidWindow t = true := List.of_mem_filter ht'
  unfold inValidWindow at hv
  rw [Bool.and_eq_true] at hv
  exact ⟨t, List.mem_of_mem_filter ht', htid, hv.1, hv.2⟩

theorem C7_window_invariant_witness :
    ∃ t ∈ w5Timeslots, t.id = (((1, 12, 1, 0), (1017, 101, 12)) :
        HourId × SchedEntry).2.1 ∧
      pyStrLe "17:00" t.start_time = true ∧
      pyStrLt t.start_time "22:00" = true :=
  C7_window_invariant [w5Course] [⟨101, "A", 30, "aula", "B"⟩] w5Timeslots
    [⟨1, "P", [], 40⟩] [⟨1, 1, 12, 1, 1⟩] [(1, 101)] [⟨1, "G1", "T"⟩] []
    (1, [((1, 12, 1, 0), (1017, 101, 12)), ((1, 12, 2, 0), (2017, 101, 12))])
    (by decide) ((1, 12, 1, 0), (1017, 101, 12)) (by decide)

/-- C6 (amended): for every placed hour of a one-hour-block language course
in the orchestrator's output, there is a single clock hour at which every
placed hour of that (group, course) pair starts; the fix-on-first-placement
hour is recorded in the tracker and honored by the language placer, the
displacement relocations (which never move language blocks of such courses)
and the verification-pass fills.  (For language courses with
`max_block_duration ≠ 1` the property fails: see the counterexample.) -/
theorem C6_language_fixed_hour (courses : List Course) (rooms : List Room)
    (timeslots : List TimeSlot) (professors : List Professor)
    (assignments : List ProfessorCourseGroupAssignment)
    (professor_rooms : PyDict Nat Nat) (groups : List Group)
    (rng : List Nat) :
    ∀ gkv ∈ generate_schedule_for_all_groups courses rooms timeslots
        professors assignments professor_rooms groups rng,
      ∀ kv ∈ gkv.2, ∀ crs,
        PyDict.get? (mkData courses rooms timeslots professors assignments
          professor_rooms).courses kv.2.2.2 = some crs →
        isEnglishName crs.name = true → crs.max_block_duration = 1 →
        ∃ fh, ∀ kv2 ∈ gkv.2, kv2.2.2.2 = kv.2.2.2 →
          ∃ t ∈ (mkData courses rooms timeslots professors assignments
            professor_rooms).valid_slots,
            t.id = kv2.2.1 ∧ t.start_time = fh := by
  intro gkv hg kv hkv crs hcrs he hm
  have hgen : generate_schedule_for_all_groups courses rooms timeslots
      professors assignments professor_rooms groups rng =
      (pipelineState courses rooms timeslots professors assignments
        professor_rooms groups rng).all_schedules := rfl
  rw [hgen] at hg
  have hinv := pipelineState_inv courses rooms timeslots professors
    assignments professor_rooms groups rng
  obtain ⟨fh, hfh, _⟩ := hinv.2.2.1 gkv hg kv hkv crs hcrs he hm
  refine ⟨fh, ?_⟩
  intro kv2 hkv2 hsame
  obtain ⟨fh2, hfh2, hrest2⟩ := hinv.2.2.1 gkv hg kv2 hkv2 crs
    (by rw [hsame]; exact hcrs) he hm
  have hfe : fh2 = fh := by
    rw [hsame] at hfh2
    rw [hfh] at hfh2
    injection hfh2 with h'
    exact h'.symm
  rw [hfe] at hrest2
  exact hrest2

theorem C6_language_fixed_hour_witness :
    ∃ fh, ∀ kv2 ∈ ((1, [((1, 12, 1, 0), (1017, 101, 12)),
        ((1, 12, 2, 0), (2017, 101, 12))]) :
        Nat × PyDict HourId SchedEntry).2,
      kv2.2.2.2 = (((1, 12, 1, 0), (1017, 101, 12)) :
        HourId × SchedEntry).2.2.2 →
      ∃ t ∈ (mkData [w5Course] [⟨101, "A", 30, "aula", "B"⟩] w5Timeslots
        [⟨1, "P", [], 40⟩] [⟨1, 1, 12, 1, 1⟩] [(1, 101)]).valid_slots,
        t.id = kv2.2.1 ∧ t.start_time = fh :=
  C6_language_fixed_hour [w5Course] [⟨101, "A", 30, "aula", "B"⟩] w5Timeslots
    [⟨1, "P", [], 40⟩] [⟨1, 1, 12, 1, 1⟩] [(1, 101)] [⟨1, "G1", "T"⟩] []
    (1, [((1, 12, 1, 0), (1017, 101, 12)), ((1, 12, 2, 0), (2017, 101, 12))])
    (by decide) ((1, 12, 1, 0), (1017, 101, 12)) (by decide) w5Course
    (by decide) (by decide) (by decide)

end Scheduler
